import Mathlib

/-!
The header reader of usdx-reader, a reader of the UltraStar song format

A shallow embedding of `pkg/usdx/usdx.go` and `pkg/encoding/encoding.go`.

Go strings are byte sequences; a byte is a natural number below 256.  The parts of
the Go ecosystem whose behaviour is data rather than logic (the character-set decoders of
`golang.org/x/text`, `strconv.ParseFloat`, the Unicode case tables) are collected in the
structure `Lib` and passed to the functions that call them.  Everything else
(`strings.TrimLeft`, `strings.IndexRune`, `strings.Replace`, `strings.TrimFunc` with
`unicode.IsSpace`, `strconv.Atoi`, `io.ReadFull`, `bufio.Scanner` with `ScanLines`)
is written out.
-/

namespace Usdx

/-- A Go string: a sequence of bytes. -/
abbrev GoString := List Nat

/-- The bytes of an ASCII literal. -/
def str (s : String) : GoString := s.toList.map Char.toNat

/-- Every element is a byte. -/
def isBytes (s : GoString) : Prop := ∀ b ∈ s, b < 256

/-! ## pkg/encoding -/

/-- State transition of the acceptor in `isUTF8`: `none` is the `default` branch,
which returns false. -/
def utf8Step (state b : Nat) : Option Nat :=
  let c := 0x100 * state + b
  if c = 0x09 ∨ c = 0x0A ∨ c = 0x0D ∨ (c ≥ 0x20 ∧ c ≤ 0x7E) then some 0
  else if c ≥ 0xC2 ∧ c ≤ 0xDF then some 1
  else if c = 0xE0 then some 2
  else if (c ≥ 0xE1 ∧ c ≤ 0xEC) ∨ c = 0xEE ∨ c = 0xEF then some 3
  else if c = 0xED then some 4
  else if c = 0xF0 then some 5
  else if c ≥ 0xF1 ∧ c ≤ 0xF3 then some 6
  else if c = 0xF4 then some 7
  else if c ≥ 0x180 ∧ c ≤ 0x1BF then some 0
  else if c ≥ 0x2A0 ∧ c ≤ 0x2BF then some 1
  else if c ≥ 0x380 ∧ c ≤ 0x3BF then some 1
  else if c ≥ 0x480 ∧ c ≤ 0x49F then some 1
  else if c ≥ 0x590 ∧ c ≤ 0x5BF then some 3
  else if c ≥ 0x680 ∧ c ≤ 0x6BF then some 3
  else if c ≥ 0x780 ∧ c ≤ 0x78F then some 3
  else none

/-- The loop of `isUTF8`, started in `state`. -/
def isUTF8From : Nat → GoString → Bool
  | state, [] => state == 0
  | state, b :: rest =>
    match utf8Step state b with
    | some state' => isUTF8From state' rest
    | none => false

/-- The detector `isUTF8` of `encoding.go`. -/
def isUTF8 (s : GoString) : Bool := isUTF8From 0 s

/-- Errors that `Read` can return or wrap. -/
inductive GoError where
  | EOF
  | ErrUnexpectedEOF
  | ErrTooLong
  | readFault
  | seekFault
  | decodeFault (code : Nat)
  deriving DecidableEq, Repr

/-- The `Err` field of a `strconv.NumError`. -/
inductive NumErrKind where
  | ErrSyntax
  | ErrRange
  deriving DecidableEq, Repr

/-- A `strconv.NumError`: the failing function, the input and the kind. -/
structure NumError where
  func : GoString
  num : GoString
  kind : NumErrKind
  deriving DecidableEq, Repr

/-- The library routines that the reader calls and that are not written out here.
`F` stands for `float32`. -/
structure Lib (F : Type) where
  /-- The zero value of `float32`. -/
  zero : F
  /-- The call `strconv.ParseFloat(s, 32)` followed by the conversion to `float32`:
  the value returned and the error, if any. -/
  parseFloat32 : GoString → F × Option NumError
  /-- The method `String` of `unicode.UTF8.NewDecoder()`. -/
  utf8String : GoString → Except GoError GoString
  /-- The method `String` of `charmap.Windows1250.NewDecoder()`. -/
  cp1250String : GoString → Except GoError GoString
  /-- The method `String` of `charmap.Windows1252.NewDecoder()`. -/
  cp1252String : GoString → Except GoError GoString
  /-- The call `strings.Map(unicode.ToUpper, s)`, which `strings.ToUpper` makes when
  `s` holds a byte outside ASCII. -/
  mapToUpper : GoString → GoString

/-- The four values of the interface `Encoding` that `NewReader` registers. -/
inductive Encoding where
  | Auto
  | UTF8
  | CP1250
  | CP1252
  deriving DecidableEq, Repr

/-- The method `Name`. -/
def Encoding.Name : Encoding → GoString
  | .Auto => str "Auto"
  | .UTF8 => str "UTF8"
  | .CP1250 => str "CP1250"
  | .CP1252 => str "CP1252"

/-- The method `Decode`; for `Auto` this is `UTF8DetectingDecoder.Decode`. -/
def Encoding.Decode {F : Type} (lib : Lib F) : Encoding → GoString → Except GoError GoString
  | .Auto, s => if isUTF8 s then lib.utf8String s else lib.cp1250String s
  | .UTF8, s => lib.utf8String s
  | .CP1250, s => lib.cp1250String s
  | .CP1252, s => lib.cp1252String s

/-! ## The input stream -/

/-- An `io.ReadSeeker` over a finite byte sequence.  `readFails` and `seekFails` say
that the underlying `Read`, respectively `Seek`, reports a failure of its own. -/
structure Stream where
  data : List Nat
  pos : Nat
  readFails : Bool
  seekFails : Bool
  deriving DecidableEq, Repr

/-- The call `io.ReadFull(r, buf)` for a buffer of `n > 0` bytes: the error is `EOF`
when nothing is left, `ErrUnexpectedEOF` when fewer than `n` bytes are left. -/
def readFull (r : Stream) (n : Nat) : Stream × Except GoError (List Nat) :=
  if r.readFails then (r, .error .readFault)
  else
    let rest := r.data.drop r.pos
    if rest.length = 0 then (r, .error .EOF)
    else if rest.length < n then ({ r with pos := r.data.length }, .error .ErrUnexpectedEOF)
    else ({ r with pos := r.pos + n }, .ok (rest.take n))

/-- The call `r.Seek(0, io.SeekStart)`. -/
def seekStart (r : Stream) : Stream × Option GoError :=
  if r.seekFails then (r, some .seekFault) else ({ r with pos := 0 }, none)

/-- The function `checkBOM`: the stream afterwards, the flag and the error. -/
def checkBOM (r : Stream) : Stream × Bool × Option GoError :=
  match readFull r 3 with
  | (r1, .error e) => (r1, false, some e)
  | (r1, .ok bom) =>
    if bom = [0xef, 0xbb, 0xbf] then (r1, true, none)
    else
      let (r2, err) := seekStart r1
      (r2, false, err)

/-! ## bufio.Scanner with the split function ScanLines -/

/-- The constant `bufio.MaxScanTokenSize`. -/
def maxScanTokenSize : Nat := 64 * 1024

/-- The helper `dropCR` of `bufio`: drops one trailing carriage return. -/
def dropCR (data : List Nat) : List Nat :=
  if data.getLast? = some 13 then data.dropLast else data

/-- The tokens that successive calls of `Scan` deliver and the value of `Err()` once
`Scan` has returned false.  `cur` holds, reversed, the bytes of the line being read.
A line is delivered when its bytes and its line feed fit in the buffer of
`maxScanTokenSize` bytes; a final line without line feed is delivered when it is not
empty and leaves room in the buffer; otherwise scanning stops with `ErrTooLong`. -/
def scanFrom : List Nat → List Nat → List GoString × Option GoError
  | cur, [] =>
    if cur = [] then ([], none)
    else if maxScanTokenSize ≤ cur.length then ([], some .ErrTooLong)
    else ([dropCR cur.reverse], none)
  | cur, b :: rest =>
    if b = 10 then
      if maxScanTokenSize ≤ cur.length then ([], some .ErrTooLong)
      else ((dropCR cur.reverse) :: (scanFrom [] rest).1, (scanFrom [] rest).2)
    else scanFrom (b :: cur) rest

/-- The scanner `bufio.NewScanner(in)`: it reads from the current position of `in`. -/
def scanStream (r : Stream) : List GoString × Option GoError :=
  scanFrom [] (r.data.drop r.pos)

/-! ## Functions of strings, unicode/utf8, unicode and strconv -/

/-- The call `strings.HasPrefix(line, "#")`. -/
def hasPrefixHash (line : GoString) : Bool := line.head? == some 35

/-- The call `strings.TrimLeft(line, "#")`. -/
def trimLeftHash (line : GoString) : GoString := line.dropWhile (· == 35)

/-- The call `strings.IndexRune(s, c)` for an ASCII rune `c`, which is
`strings.IndexByte`: `none` stands for -1. -/
def indexByte (c : Nat) : GoString → Option Nat
  | [] => none
  | b :: rest => if b = c then some 0 else (indexByte c rest).map (· + 1)

/-- The constant `utf8.RuneError`. -/
def RuneError : Nat := 0xFFFD

/-- The function `utf8.DecodeRuneInString`: the rune and its width in bytes.  The masks
and shifts of the original are written with `%` and `*`. -/
def decodeRune (s : GoString) : Nat × Nat :=
  match s with
  | [] => (RuneError, 0)
  | s0 :: t =>
    if s0 < 0x80 then (s0, 1)
    else if s0 < 0xC2 ∨ 0xF4 < s0 then (RuneError, 1)
    else
      let sz := if s0 < 0xE0 then 2 else if s0 < 0xF0 then 3 else 4
      let lo := if s0 = 0xE0 then 0xA0 else if s0 = 0xF0 then 0x90 else 0x80
      let hi := if s0 = 0xED then 0x9F else if s0 = 0xF4 then 0x8F else 0xBF
      if s.length < sz then (RuneError, 1)
      else
        let s1 := t.getD 0 0
        if s1 < lo ∨ hi < s1 then (RuneError, 1)
        else if sz ≤ 2 then (s0 % 32 * 64 + s1 % 64, 2)
        else
          let s2 := t.getD 1 0
          if s2 < 0x80 ∨ 0xBF < s2 then (RuneError, 1)
          else if sz ≤ 3 then (s0 % 16 * 4096 + s1 % 64 * 64 + s2 % 64, 3)
          else
            let s3 := t.getD 2 0
            if s3 < 0x80 ∨ 0xBF < s3 then (RuneError, 1)
            else (s0 % 8 * 262144 + s1 % 64 * 4096 + s2 % 64 * 64 + s3 % 64, 4)

/-- The function `utf8.RuneStart`: the byte is not a continuation byte. -/
def runeStart (b : Nat) : Bool := b / 64 % 4 != 2

/-- The backward search of `utf8.DecodeLastRuneInString` for the start of the last
rune: `start` runs down to `lim` and stops at a byte that starts a rune. -/
def lastRuneStart (s : GoString) (lim : Int) : Nat → Int → Int
  | 0, start => start
  | fuel + 1, start =>
    if lim ≤ start then
      if runeStart (s.getD start.toNat 0) then start
      else lastRuneStart s lim fuel (start - 1)
    else start

/-- The function `utf8.DecodeLastRuneInString`. -/
def decodeLastRune (s : GoString) : Nat × Nat :=
  if s.length = 0 then (RuneError, 0)
  else
    let r := s.getD (s.length - 1) 0
    if r < 0x80 then (r, 1)
    else
      let lim : Int := max ((s.length : Int) - 4) 0
      let start := (max (lastRuneStart s lim 4 ((s.length : Int) - 2)) 0).toNat
      let (r, size) := decodeRune (s.drop start)
      if start + size ≠ s.length then (RuneError, 1) else (r, size)

/-- The function `unicode.IsSpace`. -/
def isSpace (r : Nat) : Bool :=
  if r ≤ 0xFF then
    r == 9 || r == 10 || r == 11 || r == 12 || r == 13 || r == 32 || r == 0x85 || r == 0xA0
  else
    r == 0x1680 || (0x2000 ≤ r && r ≤ 0x200a) || r == 0x2028 || r == 0x2029
      || r == 0x202f || r == 0x205f || r == 0x3000

/-- The loop of `strings.TrimLeftFunc`: skips the leading runes that satisfy `f`. -/
def trimLeftLoop (f : Nat → Bool) : Nat → GoString → GoString
  | 0, s => s
  | fuel + 1, s =>
    match s with
    | [] => []
    | _ :: _ => if f (decodeRune s).1 then trimLeftLoop f fuel (s.drop (decodeRune s).2) else s

/-- The function `strings.TrimLeftFunc`. -/
def trimLeftFunc (f : Nat → Bool) (s : GoString) : GoString := trimLeftLoop f s.length s

/-- The function `lastIndexFunc` of `strings` with `truth = false`: the index at which
the last rune that does not satisfy `f` starts; `none` stands for -1. -/
def lastIndexFunc (f : Nat → Bool) (s : GoString) : Nat → Nat → Option Nat
  | 0, _ => none
  | fuel + 1, i =>
    if i = 0 then none
    else
      let (r, size) := decodeLastRune (s.take i)
      if f r then lastIndexFunc f s fuel (i - size) else some (i - size)

/-- The function `strings.TrimRightFunc`. -/
def trimRightFunc (f : Nat → Bool) (s : GoString) : GoString :=
  match lastIndexFunc f s (s.length + 1) s.length with
  | none => []
  | some i =>
    if 0x80 ≤ s.getD i 0 then s.take (i + (decodeRune (s.drop i)).2) else s.take (i + 1)

/-- The function `trim` of `usdx.go`: `strings.TrimFunc` with `unicode.IsSpace`. -/
def trim (s : GoString) : GoString := trimRightFunc isSpace (trimLeftFunc isSpace s)

/-- The replacement loop of `strings.Replace` for a one-byte `old` and `new`: the first
`n` occurrences of `old` are replaced. -/
def replaceFirstN (old new : Nat) : Nat → GoString → GoString
  | _, [] => []
  | 0, b :: rest => b :: rest
  | n + 1, b :: rest =>
    if b = old then new :: replaceFirstN old new n rest
    else b :: replaceFirstN old new (n + 1) rest

/-- The function `strings.Replace(s, old, new, n)` for one-byte strings `old` and `new`,
as at its two call sites; a negative `n` lifts the limit. -/
def Replace (s : GoString) (old new : Nat) (n : Int) : GoString :=
  if old = new ∨ n = 0 then s
  else
    let m := s.count old
    if m = 0 then s
    else replaceFirstN old new (if n < 0 ∨ (m : Int) < n then m else n.toNat) s

/-- The function `strings.ToUpper`: the ASCII path is written out, the other path is
the library call. -/
def ToUpper {F : Type} (lib : Lib F) (s : GoString) : GoString :=
  if s.all (· < 0x80) then
    if s.any (fun c => 97 ≤ c && c ≤ 122) then s.map (fun c => if 97 ≤ c ∧ c ≤ 122 then c - 32 else c)
    else s
  else lib.mapToUpper s

/-- The digit loop of `strconv.ParseUint` for base 10 and 64 bits: `none` is a syntax
error, `some none` an overflow, `some (some n)` the value. -/
def parseUintLoop : Nat → GoString → Option (Option Nat)
  | n, [] => some (some n)
  | n, c :: rest =>
    if 48 ≤ c ∧ c ≤ 57 then
      if 2 ^ 64 / 10 + 1 ≤ n then some none
      else if 2 ^ 64 ≤ n * 10 + (c - 48) then some none
      else parseUintLoop (n * 10 + (c - 48)) rest
    else none

/-- The function `strconv.Atoi` for a 64-bit `int`: the value returned and the error. -/
def Atoi (s : GoString) : Int × Option NumError :=
  let neg := s.head? = some 45
  let digits := if s.head? = some 45 ∨ s.head? = some 43 then s.drop 1 else s
  if digits = [] then (0, some ⟨str "Atoi", s, .ErrSyntax⟩)
  else
    match parseUintLoop 0 digits with
    | none => (0, some ⟨str "Atoi", s, .ErrSyntax⟩)
    | some none =>
      (if neg then -(2 ^ 63 : Int) else 2 ^ 63 - 1, some ⟨str "Atoi", s, .ErrRange⟩)
    | some (some un) =>
      if ¬ neg ∧ 2 ^ 63 ≤ un then (2 ^ 63 - 1, some ⟨str "Atoi", s, .ErrRange⟩)
      else if neg ∧ 2 ^ 63 < un then (-(2 ^ 63 : Int), some ⟨str "Atoi", s, .ErrRange⟩)
      else (if neg then -(un : Int) else (un : Int), none)

/-- The function `parseFloat32I18n` of `usdx.go`. -/
def parseFloat32I18n {F : Type} (lib : Lib F) (s : GoString) : F × Option NumError :=
  lib.parseFloat32 (Replace (trim s) 44 46 1)

/-- The function `parseInt` of `usdx.go`. -/
def parseInt (s : GoString) : Int × Option NumError := Atoi (trim s)

/-! ## pkg/usdx -/

/-- The map `usdxTags`: the tags understood by USDX. -/
def usdxTags (tag : GoString) : Bool :=
  [str "TITLE", str "ARTIST", str "MP3", str "BPM", str "GAP", str "COVER",
   str "BACKGROUND", str "VIDEO", str "VIDEOGAP", str "GENRE", str "EDITION",
   str "CREATOR", str "LANGUAGE", str "YEAR", str "START", str "END", str "RESOLUTION",
   str "NOTESGAP", str "RELATIVE", str "ENCODING", str "PREVIEWSTART",
   str "MEDLEYSTARTBEAT", str "MEDLEYENDBEAT", str "CALCMEDLEY", str "DUETSINGERP1",
   str "DUETSINGERP2", str "P1", str "P2"].contains tag

set_option linter.dupNamespace false in
/-- The type `Tag`. -/
structure Tag where
  Tag : GoString
  Content : GoString
  deriving DecidableEq, Repr

/-- The type `Song`; `F` stands for `float32`. -/
structure Song (F : Type) where
  Dir : GoString
  SourceFile : GoString
  Title : GoString
  Artist : GoString
  SoundFile : GoString
  BPM : F
  Gap : F
  CoverPath : GoString
  BackgroundPath : GoString
  VideoPath : GoString
  VideoGap : F
  Genre : GoString
  Edition : GoString
  Creator : GoString
  Language : GoString
  Year : Int
  Start : F
  End : Int
  Resolution : Int
  NotesGap : Int
  Relative : Bool
  Encoding : Encoding
  PreviewStart : F
  MedleyStartBeat : Int
  MedleyEndBeat : Int
  CalcMedley : Bool
  DuetSingerP1 : GoString
  DuetSingerP2 : GoString
  CustomTags : List Tag
  Notes : List GoString
  deriving DecidableEq, Repr

/-- The type `Reader`, without its logger. -/
structure Reader where
  encodings : List (GoString × Encoding)
  defaultEncoding : Encoding

/-- The function `NewReader`.  The four names differ, so no entry replaces another. -/
def NewReader : Reader :=
  { encodings := [Encoding.Auto, Encoding.UTF8, Encoding.CP1250, Encoding.CP1252].map
      (fun enc => (enc.Name, enc))
    defaultEncoding := Encoding.Auto }

/-- The warnings that `Read` returns: `duplicate tag '%v'` and
`error adding tag '%v': %v`. -/
inductive Warning where
  | duplicateTag (tag : GoString)
  | errorAddingTag (tag : GoString) (err : NumError)
  deriving DecidableEq, Repr

/-- The function `isTag`. -/
def isTag (line : GoString) : Bool := hasPrefixHash line

/-- The function `getTagAndValue`: the tag and the decoded value or the error of the
decoder. -/
def getTagAndValue {F : Type} (lib : Lib F) (line : GoString) (decoder : Encoding) :
    GoString × Except GoError GoString :=
  let line := trimLeftHash line
  match indexByte 58 line with
  | none => ([], decoder.Decode lib line)
  | some sep => (line.take sep, decoder.Decode lib (line.drop (sep + 1)))

/-- The cases of the second `switch tag` of `Read`; `custom` is its `default`. -/
inductive TagKind where
  | TITLE | ARTIST | MP3 | BPM | GAP | COVER | BACKGROUND | VIDEO | VIDEOGAP | GENRE
  | EDITION | CREATOR | LANGUAGE | YEAR | START | END | RESOLUTION | NOTESGAP | RELATIVE
  | ENCODING | PREVIEWSTART | MEDLEYSTARTBEAT | MEDLEYENDBEAT | CALCMEDLEY
  | DUETSINGERP1 | DUETSINGERP2 | custom
  deriving DecidableEq, Repr

/-- The case of the second `switch tag` of `Read` that a tag selects. -/
def tagKind (tag : GoString) : TagKind :=
  if tag = str "TITLE" then .TITLE
  else if tag = str "ARTIST" then .ARTIST
  else if tag = str "MP3" then .MP3
  else if tag = str "BPM" then .BPM
  else if tag = str "GAP" then .GAP
  else if tag = str "COVER" then .COVER
  else if tag = str "BACKGROUND" then .BACKGROUND
  else if tag = str "VIDEO" then .VIDEO
  else if tag = str "VIDEOGAP" then .VIDEOGAP
  else if tag = str "GENRE" then .GENRE
  else if tag = str "EDITION" then .EDITION
  else if tag = str "CREATOR" then .CREATOR
  else if tag = str "LANGUAGE" then .LANGUAGE
  else if tag = str "YEAR" then .YEAR
  else if tag = str "START" then .START
  else if tag = str "END" then .END
  else if tag = str "RESOLUTION" then .RESOLUTION
  else if tag = str "NOTESGAP" then .NOTESGAP
  else if tag = str "RELATIVE" then .RELATIVE
  else if tag = str "ENCODING" then .ENCODING
  else if tag = str "PREVIEWSTART" then .PREVIEWSTART
  else if tag = str "MEDLEYSTARTBEAT" then .MEDLEYSTARTBEAT
  else if tag = str "MEDLEYENDBEAT" then .MEDLEYENDBEAT
  else if tag = str "CALCMEDLEY" then .CALCMEDLEY
  else if tag = str "DUETSINGERP1" ∨ tag = str "P1" then .DUETSINGERP1
  else if tag = str "DUETSINGERP2" ∨ tag = str "P2" then .DUETSINGERP2
  else .custom

/-- The second `switch tag` of `Read`: the song afterwards and the value of `err`. -/
def interpret {F : Type} (r : Reader) (lib : Lib F) (song : Song F) (tag value : GoString) :
    Song F × Option NumError :=
  match tagKind tag with
  | .TITLE => ({ song with Title := value }, none)
  | .ARTIST => ({ song with Artist := value }, none)
  | .MP3 => ({ song with SoundFile := value }, none)
  | .BPM =>
    ({ song with BPM := (parseFloat32I18n lib (Replace value 44 46 (-1))).1 },
      (parseFloat32I18n lib (Replace value 44 46 (-1))).2)
  | .GAP => ({ song with Gap := (parseFloat32I18n lib value).1 }, (parseFloat32I18n lib value).2)
  | .COVER => ({ song with CoverPath := value }, none)
  | .BACKGROUND => ({ song with BackgroundPath := value }, none)
  | .VIDEO => ({ song with VideoPath := value }, none)
  | .VIDEOGAP =>
    ({ song with VideoGap := (parseFloat32I18n lib value).1 }, (parseFloat32I18n lib value).2)
  | .GENRE => ({ song with Genre := value }, none)
  | .EDITION => ({ song with Edition := value }, none)
  | .CREATOR => ({ song with Creator := value }, none)
  | .LANGUAGE => ({ song with Language := value }, none)
  | .YEAR =>
    if value ≠ [] then ({ song with Year := (parseInt value).1 }, (parseInt value).2)
    else (song, none)
  | .START => ({ song with Start := (parseFloat32I18n lib value).1 }, (parseFloat32I18n lib value).2)
  | .END => ({ song with End := (parseInt value).1 }, (parseInt value).2)
  | .RESOLUTION => ({ song with Resolution := (parseInt value).1 }, (parseInt value).2)
  | .NOTESGAP => ({ song with NotesGap := (parseInt value).1 }, (parseInt value).2)
  | .RELATIVE =>
    if ToUpper lib value = str "YES" then ({ song with Relative := true }, none) else (song, none)
  | .ENCODING =>
    match r.encodings.lookup value with
    | some enc => ({ song with Encoding := enc }, none)
    | none => (song, none)
  | .PREVIEWSTART =>
    ({ song with PreviewStart := (parseFloat32I18n lib value).1 },
      (parseFloat32I18n lib value).2)
  | .MEDLEYSTARTBEAT =>
    if song.Relative then (song, none)
    else ({ song with MedleyStartBeat := (parseInt value).1 }, (parseInt value).2)
  | .MEDLEYENDBEAT =>
    if song.Relative then (song, none)
    else ({ song with MedleyEndBeat := (parseInt value).1 }, (parseInt value).2)
  | .CALCMEDLEY =>
    if ToUpper lib value = str "OFF" then ({ song with CalcMedley := false }, none)
    else (song, none)
  | .DUETSINGERP1 => ({ song with DuetSingerP1 := value }, none)
  | .DUETSINGERP2 => ({ song with DuetSingerP2 := value }, none)
  | .custom => ({ song with CustomTags := song.CustomTags ++ [⟨tag, value⟩] }, none)

/-- The first `switch tag` of `Read`, after `seen[tag] = true`: the names marked as
seen.  The map `seen` is kept as the list of its keys. -/
def markSeen (seen : List GoString) (tag : GoString) : List GoString :=
  if tag = str "DUETSINGERP1" then str "P1" :: tag :: seen
  else if tag = str "DUETSINGERP2" then str "P2" :: tag :: seen
  else if tag = str "P1" then str "DUETSINGERP1" :: tag :: seen
  else if tag = str "P2" then str "DUETSINGERP2" :: tag :: seen
  else tag :: seen

/-- The variables that the first loop of `Read` updates. -/
structure LoopState (F : Type) where
  song : Song F
  warnings : List Warning
  seen : List GoString

/-- The body of the first loop of `Read` for a line that is a tag: the state afterwards,
or the error of the decoder, with which `Read` returns. -/
def loopBody {F : Type} (r : Reader) (lib : Lib F) (st : LoopState F) (line : GoString) :
    Except GoError (LoopState F) :=
  match getTagAndValue lib line st.song.Encoding with
  | (_, .error err) => .error err
  | (tag, .ok value) =>
    let warnings :=
      if st.seen.contains tag && usdxTags tag then st.warnings ++ [Warning.duplicateTag tag]
      else st.warnings
    let seen := markSeen st.seen tag
    let res := interpret r lib st.song tag value
    match res.2 with
    | some err => .ok ⟨res.1, warnings ++ [Warning.errorAddingTag tag err], seen⟩
    | none => .ok ⟨res.1, warnings, seen⟩

/-- How the first loop of `Read` ends. -/
inductive LoopExit (F : Type) where
  /-- The decoder failed: `Read` returns at once. -/
  | fatal (st : LoopState F) (err : GoError)
  /-- The call `Scan` returned false. -/
  | exhausted (st : LoopState F)
  /-- The line `line` is not a tag (`break`); `rest` are the lines not yet scanned. -/
  | body (st : LoopState F) (line : GoString) (rest : List GoString)

/-- The first loop of `Read` over the lines that the scanner delivers. -/
def headerLoop {F : Type} (r : Reader) (lib : Lib F) : LoopState F → List GoString → LoopExit F
  | st, [] => .exhausted st
  | st, line :: rest =>
    if !isTag line then .body st line rest
    else
      match loopBody r lib st line with
      | .error err => .fatal st err
      | .ok st' => headerLoop r lib st' rest

/-- What `Read` returns. -/
structure Result (F : Type) where
  song : Song F
  warnings : List Warning
  err : Option GoError

/-- The song that `Read` builds before it looks at the stream. -/
def newSong {F : Type} (r : Reader) (lib : Lib F) (dir sourceFile : GoString) : Song F :=
  { Dir := dir, SourceFile := sourceFile, Title := [], Artist := [], SoundFile := [],
    BPM := lib.zero, Gap := lib.zero, CoverPath := [], BackgroundPath := [], VideoPath := [],
    VideoGap := lib.zero, Genre := [], Edition := [], Creator := [], Language := [], Year := 0,
    Start := lib.zero, End := 0, Resolution := 4, NotesGap := 0, Relative := false,
    Encoding := r.defaultEncoding, PreviewStart := lib.zero, MedleyStartBeat := 0,
    MedleyEndBeat := 0, CalcMedley := true, DuetSingerP1 := [], DuetSingerP2 := [],
    CustomTags := [], Notes := [] }

/-- The part of `Read` that follows `checkBOM`, over the lines `lines` that the scanner
delivers and the value `scanErr` of `scanner.Err()` once `Scan` has returned false.
While `Scan` returns true `scanner.Err()` is nil, and after `Scan` has returned false
at the end of the input `scanner.Text()` is the empty string. -/
def readLines {F : Type} (r : Reader) (lib : Lib F) (song : Song F) (lines : List GoString)
    (scanErr : Option GoError) : Result F :=
  match headerLoop r lib ⟨song, [], []⟩ lines with
  | .fatal st err => ⟨st.song, st.warnings, some err⟩
  | .exhausted st =>
    match scanErr with
    | some err => ⟨st.song, st.warnings, some err⟩
    | none => ⟨{ st.song with Notes := st.song.Notes ++ [[]] }, st.warnings, none⟩
  | .body st line rest =>
    ⟨{ st.song with Notes := (st.song.Notes ++ [line]) ++ rest }, st.warnings, scanErr⟩

/-- The method `Reader.Read`. -/
def Read {F : Type} (r : Reader) (lib : Lib F) (input : Stream) (dir sourceFile : GoString) :
    Result F :=
  let song := newSong r lib dir sourceFile
  match checkBOM input with
  | (_, _, some err) => ⟨song, [], some err⟩
  | (in1, hasBOM, none) =>
    let song := if hasBOM then { song with Encoding := Encoding.UTF8 } else song
    readLines r lib song (scanStream in1).1 (scanStream in1).2

/-! ## A library instance for ASCII inputs -/

/-- The digits of a decimal literal: the number they spell, `none` when a byte is not
a digit. -/
def digitsValue : Nat → GoString → Option Nat
  | n, [] => some n
  | n, c :: rest => if 48 ≤ c ∧ c ≤ 57 then digitsValue (n * 10 + (c - 48)) rest else none

/-- A stand-in for `strconv.ParseFloat` on plain decimal literals (an optional sign,
digits, an optional period and digits): the value is the pair of the signed digits and
the number of digits after the period.  Any other input is reported as a syntax error
with the value zero, which is what `ParseFloat` returns for a malformed literal. -/
def parseDecimal (s : GoString) : (Int × Nat) × Option NumError :=
  let neg := s.head? = some 45
  let body := if s.head? = some 45 ∨ s.head? = some 43 then s.drop 1 else s
  let whole := body.takeWhile (· ≠ 46)
  let frac := (body.dropWhile (· ≠ 46)).drop 1
  if whole ++ frac = [] ∨ 1 < body.count 46 then ((0, 0), some ⟨str "ParseFloat", s, .ErrSyntax⟩)
  else
    match digitsValue 0 (whole ++ frac) with
    | none => ((0, 0), some ⟨str "ParseFloat", s, .ErrSyntax⟩)
    | some n => ((if neg then -(n : Int) else (n : Int), frac.length), none)

/-- A library instance under which the model can be evaluated on ASCII inputs: the
three decoders and the upper-casing of runes leave ASCII text unchanged. -/
def asciiLib : Lib (Int × Nat) :=
  { zero := (0, 0)
    parseFloat32 := parseDecimal
    utf8String := fun s => .ok s
    cp1250String := fun s => .ok s
    cp1252String := fun s => .ok s
    mapToUpper := fun s => s }

/-- A stream over the bytes of an ASCII text, at its start and without faults. -/
def streamOf (text : String) : Stream := ⟨str text, 0, false, false⟩

/-! ## Reading a header line by line

The definitions of this section restate the first loop of `Read` in the words of the
specification; the lemmas that follow compare them with the loop itself. -/

/-- The name of a tag line: what precedes the first colon once the leading marks are
stripped, or the empty string when there is no colon.  It does not depend on the
encoding. -/
def nameOf (line : GoString) : GoString :=
  match indexByte 58 (trimLeftHash line) with
  | none => []
  | some sep => (trimLeftHash line).take sep

/-- The raw value of a tag line: what follows the first colon, or the whole remainder
when there is no colon. -/
def rawValueOf (line : GoString) : GoString :=
  match indexByte 58 (trimLeftHash line) with
  | none => trimLeftHash line
  | some sep => (trimLeftHash line).drop (sep + 1)

/-- The encoding that is active after a line with the given name and decoded value:
an `ENCODING` line with a registered name switches to it, any other line keeps the
current one. -/
def nextEncoding (r : Reader) (enc : Encoding) (tag value : GoString) : Encoding :=
  if tag = str "ENCODING" then (r.encodings.lookup value).getD enc else enc

/-- The header as the tag interpreter sees it: the name of each line and its value,
decoded with the encoding that is active when the line is reached.  The list stops
at a line whose value cannot be decoded. -/
def decodedHeader {F : Type} (r : Reader) (lib : Lib F) : Encoding → List GoString →
    List (GoString × GoString)
  | _, [] => []
  | enc, line :: rest =>
    match enc.Decode lib (rawValueOf line) with
    | .ok value =>
      (nameOf line, value) :: decodedHeader r lib (nextEncoding r enc (nameOf line) value) rest
    | .error _ => []

/-- The header of a sequence of lines: its longest prefix of tag lines. -/
def headerOf (lines : List GoString) : List GoString := lines.takeWhile isTag

/-- The first loop of `Read` on a sequence of tag lines, when no line fails to decode. -/
def runHeader {F : Type} (r : Reader) (lib : Lib F) : LoopState F → List GoString →
    Except GoError (LoopState F)
  | st, [] => .ok st
  | st, line :: rest =>
    match loopBody r lib st line with
    | .error err => .error err
    | .ok st' => runHeader r lib st' rest

/-- The names that select each case of the second switch. -/
def kindNames : TagKind → List GoString
  | .TITLE => [str "TITLE"]
  | .ARTIST => [str "ARTIST"]
  | .MP3 => [str "MP3"]
  | .BPM => [str "BPM"]
  | .GAP => [str "GAP"]
  | .COVER => [str "COVER"]
  | .BACKGROUND => [str "BACKGROUND"]
  | .VIDEO => [str "VIDEO"]
  | .VIDEOGAP => [str "VIDEOGAP"]
  | .GENRE => [str "GENRE"]
  | .EDITION => [str "EDITION"]
  | .CREATOR => [str "CREATOR"]
  | .LANGUAGE => [str "LANGUAGE"]
  | .YEAR => [str "YEAR"]
  | .START => [str "START"]
  | .END => [str "END"]
  | .RESOLUTION => [str "RESOLUTION"]
  | .NOTESGAP => [str "NOTESGAP"]
  | .RELATIVE => [str "RELATIVE"]
  | .ENCODING => [str "ENCODING"]
  | .PREVIEWSTART => [str "PREVIEWSTART"]
  | .MEDLEYSTARTBEAT => [str "MEDLEYSTARTBEAT"]
  | .MEDLEYENDBEAT => [str "MEDLEYENDBEAT"]
  | .CALCMEDLEY => [str "CALCMEDLEY"]
  | .DUETSINGERP1 => [str "DUETSINGERP1", str "P1"]
  | .DUETSINGERP2 => [str "DUETSINGERP2", str "P2"]
  | .custom => []

/-- The string `s` with its first occurrence of the byte `old`, if any, replaced by
`new`. -/
def replaceFirst (old new : Nat) (s : GoString) : GoString :=
  match s.dropWhile (· ≠ old) with
  | [] => s
  | _ :: rest => s.takeWhile (· ≠ old) ++ new :: rest

/-- The string `s` with every occurrence of the byte `old` replaced by `new`. -/
def replaceEvery (old new : Nat) (s : GoString) : GoString :=
  s.map (fun b => if b = old then new else b)

/-- The value of a field of a song. -/
inductive FieldVal (F : Type) where
  | text (s : GoString)
  | float (x : F)
  | int (n : Int)
  | flag (b : Bool)
  | enc (e : Encoding)
  | tags (l : List Tag)
  deriving DecidableEq, Repr

/-- The field of the song that the lines of a kind write. -/
def fieldOf {F : Type} : TagKind → Song F → FieldVal F
  | .TITLE, s => .text s.Title
  | .ARTIST, s => .text s.Artist
  | .MP3, s => .text s.SoundFile
  | .BPM, s => .float s.BPM
  | .GAP, s => .float s.Gap
  | .COVER, s => .text s.CoverPath
  | .BACKGROUND, s => .text s.BackgroundPath
  | .VIDEO, s => .text s.VideoPath
  | .VIDEOGAP, s => .float s.VideoGap
  | .GENRE, s => .text s.Genre
  | .EDITION, s => .text s.Edition
  | .CREATOR, s => .text s.Creator
  | .LANGUAGE, s => .text s.Language
  | .YEAR, s => .int s.Year
  | .START, s => .float s.Start
  | .END, s => .int s.End
  | .RESOLUTION, s => .int s.Resolution
  | .NOTESGAP, s => .int s.NotesGap
  | .RELATIVE, s => .flag s.Relative
  | .ENCODING, s => .enc s.Encoding
  | .PREVIEWSTART, s => .float s.PreviewStart
  | .MEDLEYSTARTBEAT, s => .int s.MedleyStartBeat
  | .MEDLEYENDBEAT, s => .int s.MedleyEndBeat
  | .CALCMEDLEY, s => .flag s.CalcMedley
  | .DUETSINGERP1, s => .text s.DuetSingerP1
  | .DUETSINGERP2, s => .text s.DuetSingerP2
  | .custom, s => .tags s.CustomTags

/-- The numeric parse that a line of a kind makes of its decoded value while relative
mode is `relative`: the value returned and the error.  It is `none` when the line
makes no numeric parse: a string, keyword or encoding tag, an unrecognized tag, an
empty `YEAR`, a medley beat under relative mode. -/
def numericParse {F : Type} (lib : Lib F) (relative : Bool) (k : TagKind) (value : GoString) :
    Option (FieldVal F × Option NumError) :=
  match k with
  | .BPM =>
    some (.float (lib.parseFloat32 (trim (replaceEvery 44 46 value))).1,
      (lib.parseFloat32 (trim (replaceEvery 44 46 value))).2)
  | .GAP | .VIDEOGAP | .START | .PREVIEWSTART =>
    some (.float (parseFloat32I18n lib value).1, (parseFloat32I18n lib value).2)
  | .YEAR => if value = [] then none else some (.int (parseInt value).1, (parseInt value).2)
  | .END | .RESOLUTION | .NOTESGAP => some (.int (parseInt value).1, (parseInt value).2)
  | .MEDLEYSTARTBEAT | .MEDLEYENDBEAT =>
    if relative then none else some (.int (parseInt value).1, (parseInt value).2)
  | _ => none

/-- The value that a line of a kind gives to its field, or `none` when the line leaves
the field as it is.  `registry` is the lookup of encoding names. -/
def assigned {F : Type} (r : Reader) (lib : Lib F) (relative : Bool) (k : TagKind)
    (value : GoString) : Option (FieldVal F) :=
  match k with
  | .TITLE | .ARTIST | .MP3 | .COVER | .BACKGROUND | .VIDEO | .GENRE | .EDITION | .CREATOR
  | .LANGUAGE | .DUETSINGERP1 | .DUETSINGERP2 => some (.text value)
  | .RELATIVE => if ToUpper lib value = str "YES" then some (.flag true) else none
  | .CALCMEDLEY => if ToUpper lib value = str "OFF" then some (.flag false) else none
  | .ENCODING => (r.encodings.lookup value).map .enc
  | .custom => none
  | k => (numericParse lib relative k value).map (·.1)

/-- The other name of a duet singer tag. -/
def pairOf (name : GoString) : Option GoString :=
  if name = str "DUETSINGERP1" then some (str "P1")
  else if name = str "P1" then some (str "DUETSINGERP1")
  else if name = str "DUETSINGERP2" then some (str "P2")
  else if name = str "P2" then some (str "DUETSINGERP2")
  else none


/-- Whether a name, or the other name of its pair, is among the names of the earlier
lines. -/
def occurredIn (earlier : List GoString) (name : GoString) : Bool :=
  earlier.contains name ||
    (match pairOf name with
     | some partner => earlier.contains partner
     | none => false)

/-- The parse warning of a line, given the error of its numeric parse. -/
def parseWarning (name : GoString) : Option NumError → List Warning
  | some err => [Warning.errorAddingTag name err]
  | none => []

/-- The warnings that one header line adds: the duplicate warning when the name is
recognized and occurred before, then the parse warning when a numeric parse was
attempted and failed. -/
def lineWarnings {F : Type} (lib : Lib F) (relative : Bool) (earlier : List GoString)
    (name value : GoString) : List Warning :=
  (if usdxTags name && occurredIn earlier name then [Warning.duplicateTag name] else []) ++
    parseWarning name ((numericParse lib relative (tagKind name) value).bind (·.2))

/-- Relative mode after a line: it is on when it was on or when the line is a
`RELATIVE` line whose value is `YES` once upper-cased. -/
def relativeNext {F : Type} (lib : Lib F) (relative : Bool) (name value : GoString) : Bool :=
  relative || (name == str "RELATIVE" && ToUpper lib value == str "YES")

/-- The warnings of a decoded header, in file order; `relative` and `earlier` are
relative mode and the names of the lines before it. -/
def specWarnings {F : Type} (lib : Lib F) : Bool → List GoString → List (GoString × GoString) →
    List Warning
  | _, _, [] => []
  | relative, earlier, (name, value) :: rest =>
    lineWarnings lib relative earlier name value ++
      specWarnings lib (relativeNext lib relative name value) (name :: earlier) rest

/-- The song after the lines of a decoded header have been interpreted one by one. -/
def interpretAll {F : Type} (r : Reader) (lib : Lib F) (song : Song F)
    (pairs : List (GoString × GoString)) : Song F :=
  pairs.foldl (fun s p => (interpret r lib s p.1 p.2).1) song

/-- The lines that follow the header. -/
def bodyOf (lines : List GoString) : List GoString := lines.dropWhile isTag

/-- What the end of `Read` appends to the notes when the scanner reports no error:
the line that ended the header and the lines after it, or, when the header ran to the
end of the input, the empty text that the exhausted scanner holds. -/
def capturedNotes (lines : List GoString) : List GoString :=
  match bodyOf lines with
  | [] => [[]]
  | line :: rest => line :: rest

/-- The state in which the first loop of `Read` starts on the song `song`. -/
def startState {F : Type} (song : Song F) : LoopState F := ⟨song, [], []⟩

/-- The kinds of line that always write their field: the string tags and the numeric
tags whose parse is made whatever the value and the state are. -/
def alwaysAssigned : List TagKind :=
  [.TITLE, .ARTIST, .MP3, .COVER, .BACKGROUND, .VIDEO, .GENRE, .EDITION, .CREATOR, .LANGUAGE,
   .DUETSINGERP1, .DUETSINGERP2, .BPM, .GAP, .VIDEOGAP, .START, .PREVIEWSTART, .END,
   .RESOLUTION, .NOTESGAP]

/-- The lines that the scanner of `Read` delivers. -/
def linesOf (input : Stream) : List GoString := (scanStream (checkBOM input).1).1

/-- The song with which the first loop of `Read` starts: the defaults of `newSong`,
with the encoding `UTF8` when `checkBOM` found the mark. -/
def firstSong {F : Type} (r : Reader) (lib : Lib F) (input : Stream) (dir sourceFile : GoString) :
    Song F :=
  if (checkBOM input).2.1 then { newSong r lib dir sourceFile with Encoding := Encoding.UTF8 }
  else newSong r lib dir sourceFile

/-- The header of the input as the tag interpreter sees it. -/
def headerPairs {F : Type} (r : Reader) (lib : Lib F) (input : Stream) :
    List (GoString × GoString) :=
  decodedHeader r lib (if (checkBOM input).2.1 then Encoding.UTF8 else r.defaultEncoding)
    (headerOf (linesOf input))

/-- A decoded line that turns relative mode on: a `RELATIVE` line whose value is `YES`
once upper-cased. -/
def setsRelative {F : Type} (lib : Lib F) (p : GoString × GoString) : Bool :=
  p.1 == str "RELATIVE" && ToUpper lib p.2 == str "YES"

/-- The duplicate warning of a line, given whether its name was marked as seen. -/
def duplicateWarning (seen : List GoString) (name : GoString) : List Warning :=
  if seen.contains name && usdxTags name then [Warning.duplicateTag name] else []

/-- The encoding named by the last `ENCODING` line of a decoded header whose value is a
registered name, if there is one. -/
def lastRecognized (r : Reader) (pairs : List (GoString × GoString)) : Option Encoding :=
  (pairs.reverse.filterMap
    (fun p => if p.1 = str "ENCODING" then r.encodings.lookup p.2 else none)).head?

/-- A stream at its start, without faults, over the byte-order mark followed by the
bytes of an ASCII text. -/
def streamWithBOM (text : String) : Stream := ⟨[0xEF, 0xBB, 0xBF] ++ str text, 0, false, false⟩

/-- The custom tags of a decoded header: the lines whose name is not a recognized
name, in order and with repetitions. -/
def customTagsOf (pairs : List (GoString × GoString)) : List Tag :=
  (pairs.filter (fun p => !usdxTags p.1)).map (fun p => ⟨p.1, p.2⟩)

/-- A stream at its start, without faults, over the line `x` followed by one line of
`maxScanTokenSize` letters `a`, which has no line feed. -/
def streamWithLongLine : Stream := ⟨120 :: 10 :: List.replicate maxScanTokenSize 97, 0, false, false⟩

/-- The tags whose value goes to `parseFloat32I18n` as it is. -/
def plainDecimalTags : List GoString :=
  [str "GAP", str "VIDEOGAP", str "START", str "PREVIEWSTART"]

/-! ## Well-formed UTF-8

The table of well-formed byte sequences of the Unicode standard, against which the
detector `isUTF8` is compared. -/

/-- A continuation byte: 80..BF. -/
def isContinuation (b : Nat) : Bool := 0x80 ≤ b && b ≤ 0xBF

/-- One character of the language of the detector: a well-formed UTF-8 byte sequence
of the table of the Unicode standard, where a single byte is one of 09, 0A, 0D and
20..7E. -/
def isCharacter : List Nat → Bool
  | [a] => a == 0x09 || a == 0x0A || a == 0x0D || (0x20 ≤ a && a ≤ 0x7E)
  | [a, b] => 0xC2 ≤ a && a ≤ 0xDF && isContinuation b
  | [a, b, c] =>
    ((a == 0xE0 && (0xA0 ≤ b && b ≤ 0xBF)) ||
      (((0xE1 ≤ a && a ≤ 0xEC) || a == 0xEE || a == 0xEF) && isContinuation b) ||
      (a == 0xED && (0x80 ≤ b && b ≤ 0x9F))) && isContinuation c
  | [a, b, c, d] =>
    ((a == 0xF0 && (0x90 ≤ b && b ≤ 0xBF)) ||
      ((0xF1 ≤ a && a ≤ 0xF3) && isContinuation b) ||
      (a == 0xF4 && (0x80 ≤ b && b ≤ 0x8F))) && isContinuation c && isContinuation d
  | _ => false

/-- A byte string that is a concatenation of characters. -/
def WellFormed (s : GoString) : Prop :=
  ∃ chars : List (List Nat), s = chars.flatten ∧ ∀ q ∈ chars, isCharacter q = true

/-! ## The number that a decimal literal spells -/

/-- The digits of an integer literal: the literal without its sign. -/
def atoiDigits (s : GoString) : GoString :=
  if s.head? = some 45 ∨ s.head? = some 43 then s.drop 1 else s

/-- A stream at its start, without faults: the byte-order mark, the line
`#ENCODING:CP1252`, a tag line of `maxScanTokenSize` letters `a`, and the line
`#ENCODING:UTF8`. -/
def streamWithLongHeaderLine : Stream :=
  ⟨[0xEF, 0xBB, 0xBF] ++ (str "#ENCODING:CP1252" ++ 10 :: 35 ::
    (List.replicate maxScanTokenSize 97 ++ 10 :: str "#ENCODING:UTF8\n")), 0, false, false⟩

/-! ## Trimming white space

What `trim` is compared with: the white-space characters as byte sequences and the
relation between a string and the string without its surrounding white space. -/

/-- A white-space character: the UTF-8 encoding of one of the code points for which
`unicode.IsSpace` holds, U+0009..U+000D, U+0020, U+0085, U+00A0, U+1680,
U+2000..U+200A, U+2028, U+2029, U+202F, U+205F and U+3000. -/
def isSpaceChar : List Nat → Bool
  | [a] => (9 ≤ a && a ≤ 13) || a == 32
  | [a, b] => a == 0xC2 && (b == 0x85 || b == 0xA0)
  | [a, b, c] =>
    (a == 0xE1 && b == 0x9A && c == 0x80) ||
      (a == 0xE2 && b == 0x80 && ((0x80 ≤ c && c ≤ 0x8A) || c == 0xA8 || c == 0xA9 || c == 0xAF)) ||
      (a == 0xE2 && b == 0x81 && c == 0x9F) ||
      (a == 0xE3 && b == 0x80 && c == 0x80)
  | _ => false

/-- The string `w` is `v` with its surrounding white space trimmed: `v` is some
white-space characters, then `w`, then some white-space characters, and `w` neither
starts nor ends with a white-space character. -/
def IsTrimOf (v w : GoString) : Prop :=
  (∃ pre suf : List (List Nat), (∀ q ∈ pre, isSpaceChar q = true) ∧
    (∀ q ∈ suf, isSpaceChar q = true) ∧ v = pre.flatten ++ w ++ suf.flatten) ∧
  (∀ q, isSpaceChar q = true → ¬ q <+: w) ∧
  (∀ q, isSpaceChar q = true → ¬ q <:+ w)

/-! ## Lemmas on the tag table and on the loop body -/

variable {F : Type}

theorem getTagAndValue_eq (lib : Lib F) (line : GoString) (enc : Encoding) :
    getTagAndValue lib line enc = (nameOf line, enc.Decode lib (rawValueOf line)) := by
  simp only [getTagAndValue, nameOf, rawValueOf]
  cases indexByte 58 (trimLeftHash line) <;> rfl

theorem usdxTags_iff (tag : GoString) : usdxTags tag = true ↔
    (tag = str "TITLE" ∨ tag = str "ARTIST" ∨ tag = str "MP3" ∨ tag = str "BPM" ∨ tag = str "GAP" ∨ tag = str "COVER" ∨
   tag = str "BACKGROUND" ∨ tag = str "VIDEO" ∨ tag = str "VIDEOGAP" ∨ tag = str "GENRE" ∨ tag = str "EDITION" ∨
   tag = str "CREATOR" ∨ tag = str "LANGUAGE" ∨ tag = str "YEAR" ∨ tag = str "START" ∨ tag = str "END" ∨ tag = str "RESOLUTION" ∨
   tag = str "NOTESGAP" ∨ tag = str "RELATIVE" ∨ tag = str "ENCODING" ∨ tag = str "PREVIEWSTART" ∨
   tag = str "MEDLEYSTARTBEAT" ∨ tag = str "MEDLEYENDBEAT" ∨ tag = str "CALCMEDLEY" ∨ tag = str "DUETSINGERP1" ∨
   tag = str "DUETSINGERP2" ∨ tag = str "P1" ∨ tag = str "P2") := by
  unfold usdxTags
  simp only [List.contains_iff_exists_mem_beq, List.mem_cons, List.mem_nil_iff, or_false, exists_eq_or_imp, exists_eq_left, beq_iff_eq]

theorem tagKind_custom_iff (tag : GoString) : tagKind tag = .custom ↔ usdxTags tag = false := by
  rw [← Bool.not_eq_true, usdxTags_iff]
  unfold tagKind
  generalize str "TITLE" = a0
  generalize str "ARTIST" = a1
  generalize str "MP3" = a2
  generalize str "BPM" = a3
  generalize str "GAP" = a4
  generalize str "COVER" = a5
  generalize str "BACKGROUND" = a6
  generalize str "VIDEO" = a7
  generalize str "VIDEOGAP" = a8
  generalize str "GENRE" = a9
  generalize str "EDITION" = a10
  generalize str "CREATOR" = a11
  generalize str "LANGUAGE" = a12
  generalize str "YEAR" = a13
  generalize str "START" = a14
  generalize str "END" = a15
  generalize str "RESOLUTION" = a16
  generalize str "NOTESGAP" = a17
  generalize str "RELATIVE" = a18
  generalize str "ENCODING" = a19
  generalize str "PREVIEWSTART" = a20
  generalize str "MEDLEYSTARTBEAT" = a21
  generalize str "MEDLEYENDBEAT" = a22
  generalize str "CALCMEDLEY" = a23
  generalize str "DUETSINGERP1" = a24
  generalize str "DUETSINGERP2" = a25
  generalize str "P1" = a26
  generalize str "P2" = a27
  by_cases h : tag = a0
  · rw [if_pos h]; simp only [h, eq_self_iff_true, true_or, or_true, not_true_eq_false, reduceCtorEq]
  rw [if_neg h]; have k0 := h; clear h
  by_cases h : tag = a1
  · rw [if_pos h]; simp only [h, eq_self_iff_true, true_or, or_true, not_true_eq_false, reduceCtorEq]
  rw [if_neg h]; have k1 := h; clear h
  by_cases h : tag = a2
  · rw [if_pos h]; simp only [h, eq_self_iff_true, true_or, or_true, not_true_eq_false, reduceCtorEq]
  rw [if_neg h]; have k2 := h; clear h
  by_cases h : tag = a3
  · rw [if_pos h]; simp only [h, eq_self_iff_true, true_or, or_true, not_true_eq_false, reduceCtorEq]
  rw [if_neg h]; have k3 := h; clear h
  by_cases h : tag = a4
  · rw [if_pos h]; simp only [h, eq_self_iff_true, true_or, or_true, not_true_eq_false, reduceCtorEq]
  rw [if_neg h]; have k4 := h; clear h
  by_cases h : tag = a5
  · rw [if_pos h]; simp only [h, eq_self_iff_true, true_or, or_true, not_true_eq_false, reduceCtorEq]
  rw [if_neg h]; have k5 := h; clear h
  by_cases h : tag = a6
  · rw [if_pos h]; simp only [h, eq_self_iff_true, true_or, or_true, not_true_eq_false, reduceCtorEq]
  rw [if_neg h]; have k6 := h; clear h
  by_cases h : tag = a7
  · rw [if_pos h]; simp only [h, eq_self_iff_true, true_or, or_true, not_true_eq_false, reduceCtorEq]
  rw [if_neg h]; have k7 := h; clear h
  by_cases h : tag = a8
  · rw [if_pos h]; simp only [h, eq_self_iff_true, true_or, or_true, not_true_eq_false, reduceCtorEq]
  rw [if_neg h]; have k8 := h; clear h
  by_cases h : tag = a9
  · rw [if_pos h]; simp only [h, eq_self_iff_true, true_or, or_true, not_true_eq_false, reduceCtorEq]
  rw [if_neg h]; have k9 := h; clear h
  by_cases h : tag = a10
  · rw [if_pos h]; simp only [h, eq_self_iff_true, true_or, or_true, not_true_eq_false, reduceCtorEq]
  rw [if_neg h]; have k10 := h; clear h
  by_cases h : tag = a11
  · rw [if_pos h]; simp only [h, eq_self_iff_true, true_or, or_true, not_true_eq_false, reduceCtorEq]
  rw [if_neg h]; have k11 := h; clear h
  by_cases h : tag = a12
  · rw [if_pos h]; simp only [h, eq_self_iff_true, true_or, or_true, not_true_eq_false, reduceCtorEq]
  rw [if_neg h]; have k12 := h; clear h
  by_cases h : tag = a13
  · rw [if_pos h]; simp only [h, eq_self_iff_true, true_or, or_true, not_true_eq_false, reduceCtorEq]
  rw [if_neg h]; have k13 := h; clear h
  by_cases h : tag = a14
  · rw [if_pos h]; simp only [h, eq_self_iff_true, true_or, or_true, not_true_eq_false, reduceCtorEq]
  rw [if_neg h]; have k14 := h; clear h
  by_cases h : tag = a15
  · rw [if_pos h]; simp only [h, eq_self_iff_true, true_or, or_true, not_true_eq_false, reduceCtorEq]
  rw [if_neg h]; have k15 := h; clear h
  by_cases h : tag = a16
  · rw [if_pos h]; simp only [h, eq_self_iff_true, true_or, or_true, not_true_eq_false, reduceCtorEq]
  rw [if_neg h]; have k16 := h; clear h
  by_cases h : tag = a17
  · rw [if_pos h]; simp only [h, eq_self_iff_true, true_or, or_true, not_true_eq_false, reduceCtorEq]
  rw [if_neg h]; have k17 := h; clear h
  by_cases h : tag = a18
  · rw [if_pos h]; simp only [h, eq_self_iff_true, true_or, or_true, not_true_eq_false, reduceCtorEq]
  rw [if_neg h]; have k18 := h; clear h
  by_cases h : tag = a19
  · rw [if_pos h]; simp only [h, eq_self_iff_true, true_or, or_true, not_true_eq_false, reduceCtorEq]
  rw [if_neg h]; have k19 := h; clear h
  by_cases h : tag = a20
  · rw [if_pos h]; simp only [h, eq_self_iff_true, true_or, or_true, not_true_eq_false, reduceCtorEq]
  rw [if_neg h]; have k20 := h; clear h
  by_cases h : tag = a21
  · rw [if_pos h]; simp only [h, eq_self_iff_true, true_or, or_true, not_true_eq_false, reduceCtorEq]
  rw [if_neg h]; have k21 := h; clear h
  by_cases h : tag = a22
  · rw [if_pos h]; simp only [h, eq_self_iff_true, true_or, or_true, not_true_eq_false, reduceCtorEq]
  rw [if_neg h]; have k22 := h; clear h
  by_cases h : tag = a23
  · rw [if_pos h]; simp only [h, eq_self_iff_true, true_or, or_true, not_true_eq_false, reduceCtorEq]
  rw [if_neg h]; have k23 := h; clear h
  by_cases h : tag = a24 ∨ tag = a26
  · rw [if_pos h]; rcases h with h | h <;> simp only [h, eq_self_iff_true, true_or, or_true, not_true_eq_false, reduceCtorEq]
  rw [if_neg h]; have k24 := h; clear h
  by_cases h : tag = a25 ∨ tag = a27
  · rw [if_pos h]; rcases h with h | h <;> simp only [h, eq_self_iff_true, true_or, or_true, not_true_eq_false, reduceCtorEq]
  rw [if_neg h]; have k25 := h; clear h
  tauto

theorem tagKind_mem (tag : GoString) : tagKind tag ≠ .custom → tag ∈ kindNames (tagKind tag) := by
  unfold tagKind
  by_cases h : tag = str "TITLE"
  · rw [if_pos h]; intro _; exact List.mem_singleton.mpr h
  rw [if_neg h]; clear h
  by_cases h : tag = str "ARTIST"
  · rw [if_pos h]; intro _; exact List.mem_singleton.mpr h
  rw [if_neg h]; clear h
  by_cases h : tag = str "MP3"
  · rw [if_pos h]; intro _; exact List.mem_singleton.mpr h
  rw [if_neg h]; clear h
  by_cases h : tag = str "BPM"
  · rw [if_pos h]; intro _; exact List.mem_singleton.mpr h
  rw [if_neg h]; clear h
  by_cases h : tag = str "GAP"
  · rw [if_pos h]; intro _; exact List.mem_singleton.mpr h
  rw [if_neg h]; clear h
  by_cases h : tag = str "COVER"
  · rw [if_pos h]; intro _; exact List.mem_singleton.mpr h
  rw [if_neg h]; clear h
  by_cases h : tag = str "BACKGROUND"
  · rw [if_pos h]; intro _; exact List.mem_singleton.mpr h
  rw [if_neg h]; clear h
  by_cases h : tag = str "VIDEO"
  · rw [if_pos h]; intro _; exact List.mem_singleton.mpr h
  rw [if_neg h]; clear h
  by_cases h : tag = str "VIDEOGAP"
  · rw [if_pos h]; intro _; exact List.mem_singleton.mpr h
  rw [if_neg h]; clear h
  by_cases h : tag = str "GENRE"
  · rw [if_pos h]; intro _; exact List.mem_singleton.mpr h
  rw [if_neg h]; clear h
  by_cases h : tag = str "EDITION"
  · rw [if_pos h]; intro _; exact List.mem_singleton.mpr h
  rw [if_neg h]; clear h
  by_cases h : tag = str "CREATOR"
  · rw [if_pos h]; intro _; exact List.mem_singleton.mpr h
  rw [if_neg h]; clear h
  by_cases h : tag = str "LANGUAGE"
  · rw [if_pos h]; intro _; exact List.mem_singleton.mpr h
  rw [if_neg h]; clear h
  by_cases h : tag = str "YEAR"
  · rw [if_pos h]; intro _; exact List.mem_singleton.mpr h
  rw [if_neg h]; clear h
  by_cases h : tag = str "START"
  · rw [if_pos h]; intro _; exact List.mem_singleton.mpr h
  rw [if_neg h]; clear h
  by_cases h : tag = str "END"
  · rw [if_pos h]; intro _; exact List.mem_singleton.mpr h
  rw [if_neg h]; clear h
  by_cases h : tag = str "RESOLUTION"
  · rw [if_pos h]; intro _; exact List.mem_singleton.mpr h
  rw [if_neg h]; clear h
  by_cases h : tag = str "NOTESGAP"
  · rw [if_pos h]; intro _; exact List.mem_singleton.mpr h
  rw [if_neg h]; clear h
  by_cases h : tag = str "RELATIVE"
  · rw [if_pos h]; intro _; exact List.mem_singleton.mpr h
  rw [if_neg h]; clear h
  by_cases h : tag = str "ENCODING"
  · rw [if_pos h]; intro _; exact List.mem_singleton.mpr h
  rw [if_neg h]; clear h
  by_cases h : tag = str "PREVIEWSTART"
  · rw [if_pos h]; intro _; exact List.mem_singleton.mpr h
  rw [if_neg h]; clear h
  by_cases h : tag = str "MEDLEYSTARTBEAT"
  · rw [if_pos h]; intro _; exact List.mem_singleton.mpr h
  rw [if_neg h]; clear h
  by_cases h : tag = str "MEDLEYENDBEAT"
  · rw [if_pos h]; intro _; exact List.mem_singleton.mpr h
  rw [if_neg h]; clear h
  by_cases h : tag = str "CALCMEDLEY"
  · rw [if_pos h]; intro _; exact List.mem_singleton.mpr h
  rw [if_neg h]; clear h
  by_cases h : tag = str "DUETSINGERP1" ∨ tag = str "P1"
  · rw [if_pos h]; intro _; rcases h with h | h
    · exact List.mem_cons.mpr (Or.inl h)
    · exact List.mem_cons.mpr (Or.inr (List.mem_singleton.mpr h))
  rw [if_neg h]; clear h
  by_cases h : tag = str "DUETSINGERP2" ∨ tag = str "P2"
  · rw [if_pos h]; intro _; rcases h with h | h
    · exact List.mem_cons.mpr (Or.inl h)
    · exact List.mem_cons.mpr (Or.inr (List.mem_singleton.mpr h))
  rw [if_neg h]; clear h
  intro h; exact absurd rfl h

theorem tagKind_of_mem (tag : GoString) (k : TagKind) (h : tag ∈ kindNames k) : tagKind tag = k := by
  cases k <;> simp only [kindNames, List.mem_cons, List.mem_singleton, List.mem_nil_iff, or_false] at h
  all_goals first | (rcases h with h | h <;> subst h <;> decide) | (subst h; decide)

theorem tagKind_eq_iff (tag : GoString) (k : TagKind) (hk : k ≠ .custom) :
    tagKind tag = k ↔ tag ∈ kindNames k :=
  ⟨fun h => h ▸ tagKind_mem tag (h ▸ hk), tagKind_of_mem tag k⟩

theorem tagKind_encoding_iff (tag : GoString) : tagKind tag = .ENCODING ↔ tag = str "ENCODING" := by
  rw [tagKind_eq_iff tag _ (by decide)]; exact List.mem_singleton

theorem interpret_encoding (r : Reader) (lib : Lib F) (song : Song F) (tag value : GoString) :
    (interpret r lib song tag value).1.Encoding = nextEncoding r song.Encoding tag value := by
  unfold nextEncoding
  by_cases h : tag = str "ENCODING"
  · have hk := (tagKind_encoding_iff tag).mpr h
    simp only [interpret, hk, if_pos h]
    cases r.encodings.lookup value <;> rfl
  · have hk : tagKind tag ≠ .ENCODING := fun hk => h ((tagKind_encoding_iff tag).mp hk)
    rw [if_neg h]
    unfold interpret
    cases hk' : tagKind tag <;> first | exact absurd hk' hk | (simp only []; try split) <;> rfl

theorem loopBody_eq (r : Reader) (lib : Lib F) (st : LoopState F) (line : GoString) :
    loopBody r lib st line =
      (st.song.Encoding.Decode lib (rawValueOf line)).map (fun value =>
          ⟨(interpret r lib st.song (nameOf line) value).1,
           (if st.seen.contains (nameOf line) && usdxTags (nameOf line)
             then st.warnings ++ [Warning.duplicateTag (nameOf line)] else st.warnings) ++
             parseWarning (nameOf line) (interpret r lib st.song (nameOf line) value).2,
           markSeen st.seen (nameOf line)⟩) := by
  unfold loopBody
  rw [getTagAndValue_eq]
  cases st.song.Encoding.Decode lib (rawValueOf line) with
  | error e => rfl
  | ok value =>
    simp only [Except.map]
    cases (interpret r lib st.song (nameOf line) value).2 <;> simp [parseWarning]

theorem interpret_frame (r : Reader) (lib : Lib F) (song : Song F) (tag value : GoString)
    (k : TagKind) (hk : k ≠ tagKind tag) :
    fieldOf k (interpret r lib song tag value).1 = fieldOf k song := by
  unfold interpret
  cases hk' : tagKind tag <;> rw [hk'] at hk <;> cases k <;>
    first
    | exact absurd rfl hk
    | rfl
    | (simp only []; split <;> rfl)

/-! ## Lemmas on the string functions -/

theorem replaceFirstN_zero (old new : Nat) (s : GoString) : replaceFirstN old new 0 s = s := by
  cases s <;> rfl

theorem replaceFirstN_all (old new : Nat) (s : GoString) (n : Nat) (h : s.count old ≤ n) :
    replaceFirstN old new n s = replaceEvery old new s := by
  induction s generalizing n with
  | nil => cases n <;> rfl
  | cons b rest ih =>
    by_cases hb : b = old
    · subst hb
      rw [List.count_cons_self] at h
      obtain ⟨m, rfl⟩ : ∃ m, n = m + 1 := ⟨n - 1, by omega⟩
      simp only [replaceFirstN, if_true, replaceEvery, List.map_cons]
      rw [ih m (by omega)]; rfl
    · rw [List.count_cons_of_ne (fun h' => hb h'.symm)] at h
      cases n with
      | zero =>
        have h0 := ih 0 (by omega)
        rw [replaceFirstN_zero] at h0
        simp only [replaceFirstN, replaceEvery, List.map_cons, if_neg hb]
        rw [show List.map (fun b => if b = old then new else b) rest = replaceEvery old new rest from rfl, ← h0]
      | succ m =>
        simp only [replaceFirstN, if_neg hb, replaceEvery, List.map_cons]
        rw [ih (m + 1) h]; rfl

theorem replaceEvery_of_count_zero (old new : Nat) (s : GoString) (h : s.count old = 0) :
    replaceEvery old new s = s := by
  rw [← replaceFirstN_all old new s 0 (by omega), replaceFirstN_zero]

theorem Replace_every (s : GoString) : Replace s 44 46 (-1) = replaceEvery 44 46 s := by
  unfold Replace
  rw [if_neg (by decide)]
  simp only []
  split
  · rename_i h; exact (replaceEvery_of_count_zero 44 46 s h).symm
  · rw [if_pos (Or.inl (by decide))]
    exact replaceFirstN_all 44 46 s _ le_rfl

theorem replaceFirstN_one (old new : Nat) (s : GoString) :
    replaceFirstN old new 1 s = replaceFirst old new s := by
  induction s with
  | nil => rfl
  | cons b rest ih =>
    by_cases hb : b = old
    · subst hb
      simp [replaceFirstN, replaceFirst, replaceFirstN_zero]
    · simp only [replaceFirstN, if_neg hb, ih]
      unfold replaceFirst
      have h1 : List.dropWhile (fun x => decide (x ≠ old)) (b :: rest) = List.dropWhile (fun x => decide (x ≠ old)) rest := by
        simp [List.dropWhile_cons, hb]
      have h2 : List.takeWhile (fun x => decide (x ≠ old)) (b :: rest) = b :: List.takeWhile (fun x => decide (x ≠ old)) rest := by
        simp [List.takeWhile_cons, hb]
      rw [h1, h2]
      cases List.dropWhile (fun x => decide (x ≠ old)) rest <;> rfl

theorem Replace_first (s : GoString) : Replace s 44 46 1 = replaceFirst 44 46 s := by
  unfold Replace
  rw [if_neg (by decide)]
  simp only []
  split
  · rename_i h
    unfold replaceFirst
    have : List.dropWhile (fun x => decide (x ≠ 44)) s = [] := by
      rw [List.dropWhile_eq_nil_iff]
      intro x hx
      have := List.count_eq_zero.mp h
      simp only [decide_eq_true_eq]
      rintro rfl; exact this hx
    rw [this]
  · rename_i h
    have hm : ¬ ((1 : Int) < 0 ∨ ((List.count 44 s : Nat) : Int) < 1) := by
      push_neg; constructor <;> omega
    rw [if_neg hm]
    exact replaceFirstN_one 44 46 s

theorem trimLeftLoop_suffix (f : Nat → Bool) (fuel : Nat) (s : GoString) :
    ∃ k, trimLeftLoop f fuel s = s.drop k := by
  induction fuel generalizing s with
  | zero => exact ⟨0, by cases s <;> rfl⟩
  | succ n ih =>
    cases s with
    | nil => exact ⟨0, rfl⟩
    | cons b rest =>
      simp only [trimLeftLoop]
      split
      · obtain ⟨k, hk⟩ := ih ((b :: rest).drop (decodeRune (b :: rest)).2)
        exact ⟨(decodeRune (b :: rest)).2 + k, by rw [hk, List.drop_drop]⟩
      · exact ⟨0, rfl⟩

theorem mem_of_mem_trimRightFunc (f : Nat → Bool) (s : GoString) (b : Nat)
    (h : b ∈ trimRightFunc f s) : b ∈ s := by
  unfold trimRightFunc at h
  split at h
  · exact absurd h (List.not_mem_nil b)
  · split at h <;> exact List.mem_of_mem_take h

theorem mem_of_mem_trim (s : GoString) (b : Nat) (h : b ∈ trim s) : b ∈ s := by
  unfold trim at h
  have h1 := mem_of_mem_trimRightFunc _ _ _ h
  obtain ⟨k, hk⟩ := trimLeftLoop_suffix isSpace s.length s
  unfold trimLeftFunc at h1
  rw [hk] at h1
  exact List.mem_of_mem_drop h1

theorem not_mem_replaceEvery (s : GoString) : 44 ∉ replaceEvery 44 46 s := by
  unfold replaceEvery
  intro h
  obtain ⟨a, _, ha⟩ := List.mem_map.mp h
  split at ha <;> omega

theorem replaceFirst_of_not_mem (old new : Nat) (s : GoString) (h : old ∉ s) :
    replaceFirst old new s = s := by
  unfold replaceFirst
  have : List.dropWhile (fun x => decide (x ≠ old)) s = [] := by
    rw [List.dropWhile_eq_nil_iff]
    intro x hx
    simp only [decide_eq_true_eq]
    rintro rfl; exact h hx
  rw [this]

/-- The string that the parser of floats receives for a `BPM` value. -/
theorem parseFloat32I18n_bpm (lib : Lib F) (value : GoString) :
    parseFloat32I18n lib (Replace value 44 46 (-1)) =
      lib.parseFloat32 (trim (replaceEvery 44 46 value)) := by
  unfold parseFloat32I18n
  rw [Replace_every, Replace_first, replaceFirst_of_not_mem]
  exact fun h => not_mem_replaceEvery value (mem_of_mem_trim _ _ h)

theorem interpret_err (r : Reader) (lib : Lib F) (song : Song F) (tag value : GoString) :
    (interpret r lib song tag value).2 =
      (numericParse lib song.Relative (tagKind tag) value).bind (·.2) := by
  unfold interpret
  cases hk : tagKind tag <;> simp only [numericParse, Option.some_bind, Option.none_bind, parseFloat32I18n_bpm]
  all_goals first | rfl | (split <;> simp_all)

theorem interpret_assigned (r : Reader) (lib : Lib F) (song : Song F) (tag value : GoString)
    (hk : tagKind tag ≠ .custom) :
    fieldOf (tagKind tag) (interpret r lib song tag value).1 =
      (assigned r lib song.Relative (tagKind tag) value).getD (fieldOf (tagKind tag) song) := by
  unfold interpret
  cases hk' : tagKind tag <;> simp only [fieldOf, assigned, numericParse, Option.map_some', Option.map_none', Option.getD_some, Option.getD_none, parseFloat32I18n_bpm]
  all_goals first | exact absurd hk' hk | rfl | (cases h : List.lookup value r.encodings <;> simp only [h, Option.map_some', Option.map_none', Option.getD_some, Option.getD_none]) | (split <;> simp_all [fieldOf])

theorem interpret_custom (r : Reader) (lib : Lib F) (song : Song F) (tag value : GoString) :
    (interpret r lib song tag value).1.CustomTags =
      if usdxTags tag then song.CustomTags else song.CustomTags ++ [⟨tag, value⟩] := by
  by_cases hk : tagKind tag = .custom
  · have := (tagKind_custom_iff tag).mp hk
    simp [interpret, hk, this]
  · have hu : usdxTags tag = true := by
      rw [← Bool.not_eq_false]; exact fun h => hk ((tagKind_custom_iff tag).mpr h)
    have := interpret_frame r lib song tag value .custom (Ne.symm hk)
    simp only [fieldOf, FieldVal.tags.injEq] at this
    rw [this, hu]; rfl

/-! ## The loop against the line-by-line description -/

theorem tagKind_relative_iff (tag : GoString) : tagKind tag = .RELATIVE ↔ tag = str "RELATIVE" := by
  rw [tagKind_eq_iff tag _ (by decide)]; exact List.mem_singleton

theorem interpret_relative (r : Reader) (lib : Lib F) (song : Song F) (tag value : GoString) :
    (interpret r lib song tag value).1.Relative = relativeNext lib song.Relative tag value := by
  unfold relativeNext
  by_cases h : tag = str "RELATIVE"
  · have hk := (tagKind_relative_iff tag).mpr h
    have hfield := interpret_assigned r lib song tag value (by rw [hk]; decide)
    rw [hk] at hfield
    subst h
    simp only [fieldOf, assigned] at hfield
    by_cases hy : ToUpper lib value = str "YES"
    · simp only [hy, if_true, Option.getD_some, FieldVal.flag.injEq] at hfield
      simp [hfield, hy]
    · simp only [hy, if_false, Option.getD_none, FieldVal.flag.injEq] at hfield
      simp [hfield, hy]
  · have hk : TagKind.RELATIVE ≠ tagKind tag := fun hk => h ((tagKind_relative_iff tag).mp hk.symm)
    have := interpret_frame r lib song tag value .RELATIVE hk
    simp only [fieldOf, FieldVal.flag.injEq] at this
    simp [this, h]

theorem markSeen_contains (seen : List GoString) (tag name : GoString) :
    (markSeen seen tag).contains name =
      (seen.contains name || name == tag || (pairOf name == some tag)) := by
  have e1 : pairOf (str "P1") = some (str "DUETSINGERP1") := by decide
  have e2 : pairOf (str "P2") = some (str "DUETSINGERP2") := by decide
  have e3 : pairOf (str "DUETSINGERP1") = some (str "P1") := by decide
  have e4 : pairOf (str "DUETSINGERP2") = some (str "P2") := by decide
  have key : ∀ a b : GoString, pairOf a = some b → pairOf b = some a := by
    intro a b hab
    unfold pairOf at hab
    by_cases h1 : a = str "DUETSINGERP1"
    · rw [if_pos h1] at hab; cases hab; rw [h1]; exact e1
    rw [if_neg h1] at hab
    by_cases h2 : a = str "P1"
    · rw [if_pos h2] at hab; cases hab; rw [h2]; exact e3
    rw [if_neg h2] at hab
    by_cases h3 : a = str "DUETSINGERP2"
    · rw [if_pos h3] at hab; cases hab; rw [h3]; exact e2
    rw [if_neg h3] at hab
    by_cases h4 : a = str "P2"
    · rw [if_pos h4] at hab; cases hab; rw [h4]; exact e4
    rw [if_neg h4] at hab
    cases hab
  have hp : (pairOf name == some tag) = (some name == pairOf tag) := by
    rw [Bool.eq_iff_iff]
    simp only [beq_iff_eq]
    exact ⟨fun h => (key _ _ h).symm, fun h => key _ _ h.symm⟩
  rw [hp]
  unfold markSeen
  by_cases h1 : tag = str "DUETSINGERP1"
  · rw [if_pos h1]; subst h1; rw [e3]
    simp only [List.contains_cons, Option.some_beq_some]
    cases (name == str "P1") <;> cases (name == str "DUETSINGERP1") <;> cases (seen.contains name) <;> rfl
  rw [if_neg h1]
  by_cases h3 : tag = str "DUETSINGERP2"
  · rw [if_pos h3]; subst h3; rw [e4]
    simp only [List.contains_cons, Option.some_beq_some]
    cases (name == str "P2") <;> cases (name == str "DUETSINGERP2") <;> cases (seen.contains name) <;> rfl
  rw [if_neg h3]
  by_cases h2 : tag = str "P1"
  · rw [if_pos h2]; subst h2; rw [e1]
    simp only [List.contains_cons, Option.some_beq_some]
    cases (name == str "P1") <;> cases (name == str "DUETSINGERP1") <;> cases (seen.contains name) <;> rfl
  rw [if_neg h2]
  by_cases h4 : tag = str "P2"
  · rw [if_pos h4]; subst h4; rw [e2]
    simp only [List.contains_cons, Option.some_beq_some]
    cases (name == str "P2") <;> cases (name == str "DUETSINGERP2") <;> cases (seen.contains name) <;> rfl
  rw [if_neg h4]
  have : pairOf tag = none := by
    unfold pairOf; rw [if_neg h1, if_neg h2, if_neg h3, if_neg h4]
  rw [this]
  simp only [List.contains_cons]
  cases (name == tag) <;> cases (seen.contains name) <;> rfl

theorem occurredIn_cons (earlier : List GoString) (tag name : GoString) :
    occurredIn (tag :: earlier) name =
      (occurredIn earlier name || name == tag || (pairOf name == some tag)) := by
  unfold occurredIn
  cases hp : pairOf name with
  | none =>
    simp only [List.contains_cons, Bool.or_false]
    have : (none == some tag) = false := rfl
    rw [this]
    cases (name == tag) <;> cases (earlier.contains name) <;> rfl
  | some p =>
    simp only [List.contains_cons, Option.some_beq_some]
    cases (name == tag) <;> cases (earlier.contains name) <;> cases (p == tag) <;>
      cases (earlier.contains p) <;> rfl

theorem interpret_lineWarnings (r : Reader) (lib : Lib F) (st : LoopState F)
    (earlier : List GoString) (name value : GoString)
    (hseen : ∀ n, st.seen.contains n = occurredIn earlier n) :
    (if st.seen.contains name && usdxTags name
       then st.warnings ++ [Warning.duplicateTag name] else st.warnings) ++
       parseWarning name (interpret r lib st.song name value).2 =
      st.warnings ++ lineWarnings lib st.song.Relative earlier name value := by
  unfold lineWarnings
  rw [interpret_err, hseen name, Bool.and_comm]
  cases (usdxTags name && occurredIn earlier name) <;> simp

theorem runHeader_spec (r : Reader) (lib : Lib F) (hdr : List GoString) :
    ∀ (st st' : LoopState F) (earlier : List GoString),
      (∀ n, st.seen.contains n = occurredIn earlier n) →
      runHeader r lib st hdr = .ok st' →
      (decodedHeader r lib st.song.Encoding hdr).map (·.1) = hdr.map nameOf ∧
      st'.song = interpretAll r lib st.song (decodedHeader r lib st.song.Encoding hdr) ∧
      st'.warnings = st.warnings ++
        specWarnings lib st.song.Relative earlier (decodedHeader r lib st.song.Encoding hdr) ∧
      (∀ n, st'.seen.contains n = occurredIn ((hdr.map nameOf).reverse ++ earlier) n) := by
  induction hdr with
  | nil =>
    intro st st' earlier hseen h
    simp only [runHeader, Except.ok.injEq] at h
    subst h
    exact ⟨rfl, rfl, by simp [decodedHeader, specWarnings], fun n => hseen n⟩
  | cons line rest ih =>
    intro st st' earlier hseen h
    simp only [runHeader] at h
    rw [loopBody_eq] at h
    cases hd : st.song.Encoding.Decode lib (rawValueOf line) with
    | error e => rw [hd] at h; simp [Except.map] at h
    | ok value =>
      rw [hd] at h
      simp only [Except.map] at h
      rw [interpret_lineWarnings r lib st earlier (nameOf line) value hseen] at h
      have hseen' : ∀ n, (markSeen st.seen (nameOf line)).contains n =
          occurredIn (nameOf line :: earlier) n := by
        intro n
        rw [markSeen_contains, occurredIn_cons, hseen n]
      obtain ⟨h1, h2, h3, h4⟩ := ih _ st' (nameOf line :: earlier) hseen' h
      simp only [interpret_encoding, interpret_relative] at h1 h2 h3
      simp only [decodedHeader, hd, List.map_cons, interpretAll, List.foldl_cons, specWarnings]
      refine ⟨by rw [h1], ?_, ?_, ?_⟩
      · rw [h2]; rfl
      · rw [h3, List.append_assoc]
      · intro n
        rw [h4 n]
        simp [List.reverse_cons, List.append_assoc]

theorem headerLoop_of_run (r : Reader) (lib : Lib F) (lines : List GoString) :
    ∀ (st st' : LoopState F), runHeader r lib st (headerOf lines) = .ok st' →
      headerLoop r lib st lines =
        (match bodyOf lines with
         | [] => .exhausted st'
         | line :: rest => .body st' line rest) := by
  induction lines with
  | nil =>
    intro st st' h
    simp only [headerOf, List.takeWhile_nil, runHeader, Except.ok.injEq] at h
    subst h; rfl
  | cons line rest ih =>
    intro st st' h
    by_cases ht : isTag line = true
    · simp only [headerOf, List.takeWhile_cons, ht, if_true, runHeader] at h
      simp only [headerLoop, ht, Bool.not_true, Bool.false_eq_true, if_false, bodyOf,
        List.dropWhile_cons, if_true]
      cases hb : loopBody r lib st line with
      | error e => rw [hb] at h; cases h
      | ok st1 =>
        rw [hb] at h
        exact ih st1 st' h
    · simp only [headerOf, List.takeWhile_cons, ht, if_false, runHeader, Except.ok.injEq,
        Bool.false_eq_true] at h
      subst h
      simp only [Bool.not_eq_true] at ht
      simp [headerLoop, ht, bodyOf, List.dropWhile_cons]

theorem headerLoop_of_run_error (r : Reader) (lib : Lib F) (lines : List GoString) :
    ∀ (st : LoopState F) (err : GoError), runHeader r lib st (headerOf lines) = .error err →
      ∃ st', headerLoop r lib st lines = .fatal st' err := by
  induction lines with
  | nil =>
    intro st err h
    simp [headerOf, runHeader] at h
  | cons line rest ih =>
    intro st err h
    by_cases ht : isTag line = true
    · simp only [headerOf, List.takeWhile_cons, ht, if_true, runHeader] at h
      simp only [headerLoop, ht, Bool.not_true, Bool.false_eq_true, if_false]
      cases hb : loopBody r lib st line with
      | error e =>
        rw [hb] at h
        simp only [Except.error.injEq] at h
        subst h
        exact ⟨st, rfl⟩
      | ok st1 =>
        rw [hb] at h
        exact ih st1 err h
    · simp [headerOf, List.takeWhile_cons, ht, runHeader] at h

theorem readLines_of_run (r : Reader) (lib : Lib F) (song : Song F) (lines : List GoString)
    (st' : LoopState F) (h : runHeader r lib ⟨song, [], []⟩ (headerOf lines) = .ok st') :
    readLines r lib song lines none =
      ⟨{ st'.song with Notes := st'.song.Notes ++ capturedNotes lines }, st'.warnings, none⟩ := by
  unfold readLines capturedNotes
  rw [headerLoop_of_run r lib lines _ st' h]
  cases bodyOf lines with
  | nil => rfl
  | cons l rest => simp

theorem readLines_err (r : Reader) (lib : Lib F) (song : Song F) (lines : List GoString)
    (scanErr : Option GoError) :
    (readLines r lib song lines scanErr).err =
      match runHeader r lib ⟨song, [], []⟩ (headerOf lines) with
      | .error err => some err
      | .ok _ => scanErr := by
  cases h : runHeader r lib ⟨song, [], []⟩ (headerOf lines) with
  | error err =>
    obtain ⟨st', hst⟩ := headerLoop_of_run_error r lib lines _ err h
    simp [readLines, hst]
  | ok st' =>
    unfold readLines
    rw [headerLoop_of_run r lib lines _ st' h]
    cases bodyOf lines with
    | nil => cases scanErr <;> rfl
    | cons l rest => rfl

/-! ## Numeric parses -/

theorem Atoi_err (s : GoString) (err : NumError) (h : (Atoi s).2 = some err) :
    (err.kind = .ErrSyntax ∧ (Atoi s).1 = 0) ∨
      (err.kind = .ErrRange ∧ ((Atoi s).1 = 2 ^ 63 - 1 ∨ (Atoi s).1 = -2 ^ 63)) := by
  revert h
  unfold Atoi
  simp only []
  generalize (if List.head? s = some 45 ∨ List.head? s = some 43 then List.drop 1 s else s) = digits
  split
  · intro h
    cases h
    exact Or.inl ⟨rfl, rfl⟩
  · split
    · intro h
      cases h
      exact Or.inl ⟨rfl, rfl⟩
    · intro h
      cases h
      refine Or.inr ⟨rfl, ?_⟩
      dsimp only
      split
      · exact Or.inr rfl
      · exact Or.inl rfl
    · split
      · intro h
        cases h
        exact Or.inr ⟨rfl, Or.inl rfl⟩
      · split
        · intro h
          cases h
          exact Or.inr ⟨rfl, Or.inr rfl⟩
        · intro h
          cases h

theorem numericParse_int (lib : Lib F) (relative : Bool) (k : TagKind) (value : GoString)
    (x : FieldVal F) (e : Option NumError) (n : Int)
    (h : numericParse lib relative k value = some (x, e)) (hx : x = .int n) :
    n = (parseInt value).1 ∧ e = (parseInt value).2 := by
  subst hx
  cases k <;> simp only [numericParse, reduceCtorEq, Option.some.injEq, Prod.mk.injEq, FieldVal.int.injEq, false_and] at h
  all_goals first
    | exact ⟨h.1.symm, h.2.symm⟩
    | (split at h <;> simp only [reduceCtorEq, Option.some.injEq, Prod.mk.injEq, FieldVal.int.injEq] at h; exact ⟨h.1.symm, h.2.symm⟩)

theorem assigned_of_numericParse (r : Reader) (lib : Lib F) (relative : Bool) (k : TagKind)
    (value : GoString) (p : FieldVal F × Option NumError)
    (h : numericParse lib relative k value = some p) :
    k ≠ .custom ∧ assigned r lib relative k value = some p.1 := by
  cases k <;>
    first
    | (have h' := h; simp [numericParse] at h'; done)
    | exact ⟨by decide, by simp only [assigned, h, Option.map_some']⟩

theorem loopBody_song (r : Reader) (lib : Lib F) (st st' : LoopState F) (line : GoString)
    (h : loopBody r lib st line = .ok st') :
    ∃ value, st.song.Encoding.Decode lib (rawValueOf line) = .ok value ∧
      st'.song = (interpret r lib st.song (nameOf line) value).1 := by
  rw [loopBody_eq] at h
  cases hd : st.song.Encoding.Decode lib (rawValueOf line) with
  | error e => rw [hd] at h; cases h
  | ok value =>
    rw [hd] at h
    simp only [Except.map, Except.ok.injEq] at h
    exact ⟨value, rfl, by rw [← h]⟩

theorem runHeader_frame (r : Reader) (lib : Lib F) (k : TagKind) (post : List GoString) :
    ∀ (st st' : LoopState F), (∀ l ∈ post, tagKind (nameOf l) ≠ k) →
      runHeader r lib st post = .ok st' → fieldOf k st'.song = fieldOf k st.song := by
  induction post with
  | nil =>
    intro st st' _ h
    simp only [runHeader, Except.ok.injEq] at h
    rw [h]
  | cons l rest ih =>
    intro st st' hne h
    simp only [runHeader] at h
    cases hb : loopBody r lib st l with
    | error e => rw [hb] at h; cases h
    | ok st1 =>
      rw [hb] at h
      obtain ⟨value, _, hs⟩ := loopBody_song r lib st st1 l hb
      rw [ih st1 st' (fun l' hl' => hne l' (List.mem_cons_of_mem _ hl')) h, hs]
      exact interpret_frame r lib st.song (nameOf l) value k
        (Ne.symm (hne l (List.mem_cons_self _ _)))

theorem Read_eq (r : Reader) (lib : Lib F) (input : Stream) (dir sourceFile : GoString) :
    Read r lib input dir sourceFile =
      match (checkBOM input).2.2 with
      | some err => ⟨newSong r lib dir sourceFile, [], some err⟩
      | none => readLines r lib (firstSong r lib input dir sourceFile) (linesOf input)
          (scanStream (checkBOM input).1).2 := by
  unfold Read firstSong linesOf
  rcases hc : checkBOM input with ⟨in1, hasBOM, _ | err⟩
  · cases hasBOM <;> rfl
  · rfl

theorem firstSong_encoding (r : Reader) (lib : Lib F) (input : Stream) (dir sourceFile : GoString) :
    (firstSong r lib input dir sourceFile).Encoding =
      if (checkBOM input).2.1 then Encoding.UTF8 else r.defaultEncoding := by
  unfold firstSong
  split <;> rfl

theorem firstSong_relative (r : Reader) (lib : Lib F) (input : Stream) (dir sourceFile : GoString) :
    (firstSong r lib input dir sourceFile).Relative = false := by
  unfold firstSong
  split <;> rfl

theorem occurredIn_nil (name : GoString) : occurredIn [] name = false := by
  unfold occurredIn
  cases pairOf name <;> rfl

/-- What `Read` returns when it reports no error. -/
theorem Read_ok (r : Reader) (lib : Lib F) (input : Stream) (dir sourceFile : GoString)
    (h : (Read r lib input dir sourceFile).err = none) :
    (checkBOM input).2.2 = none ∧ (scanStream (checkBOM input).1).2 = none ∧
    ∃ st', runHeader r lib (startState (firstSong r lib input dir sourceFile))
        (headerOf (linesOf input)) = .ok st' ∧
      Read r lib input dir sourceFile =
        ⟨{ st'.song with Notes := st'.song.Notes ++ capturedNotes (linesOf input) },
          st'.warnings, none⟩ ∧
      st'.song = interpretAll r lib (firstSong r lib input dir sourceFile)
        (headerPairs r lib input) ∧
      st'.warnings = specWarnings lib false [] (headerPairs r lib input) ∧
      (headerPairs r lib input).map (·.1) = (headerOf (linesOf input)).map nameOf := by
  rw [Read_eq] at h ⊢
  cases hc : (checkBOM input).2.2 with
  | some err => rw [hc] at h; cases h
  | none =>
    rw [hc] at h
    simp only [] at h ⊢
    rw [readLines_err] at h
    cases hr : runHeader r lib ⟨firstSong r lib input dir sourceFile, [], []⟩
        (headerOf (linesOf input)) with
    | error err => rw [hr] at h; cases h
    | ok st' =>
      rw [hr] at h
      simp only [] at h
      refine ⟨trivial, h, st', hr, ?_, ?_⟩
      · rw [h]; exact readLines_of_run r lib _ _ st' hr
      · obtain ⟨h1, h2, h3, _⟩ := runHeader_spec r lib _ _ st' [] (fun n => by
          rw [occurredIn_nil]; rfl) hr
        simp only [firstSong_encoding, firstSong_relative, List.nil_append] at h1 h2 h3
        exact ⟨h2, h3, h1⟩

theorem parseWarning_count (name T : GoString) (e : Option NumError) :
    (parseWarning name e).count (Warning.duplicateTag T) = 0 := by
  cases e with
  | none => rfl
  | some err =>
    simp only [parseWarning]
    rw [List.count_eq_zero]
    intro h
    simp at h

theorem lineWarnings_count (lib : Lib F) (relative : Bool) (earlier : List GoString)
    (name value T : GoString) (hT : usdxTags T = true) :
    (lineWarnings lib relative earlier name value).count (Warning.duplicateTag T) =
      if name = T ∧ occurredIn earlier T = true then 1 else 0 := by
  unfold lineWarnings
  rw [List.count_append, parseWarning_count, Nat.add_zero]
  by_cases hn : name = T
  · subst hn
    rw [hT, Bool.true_and]
    by_cases ho : occurredIn earlier name = true
    · rw [if_pos ho, if_pos ⟨rfl, ho⟩]; simp
    · rw [if_neg ho, if_neg (fun h => ho h.2)]; rfl
  · have hne : ¬ (name = T ∧ occurredIn earlier T = true) := fun h => hn h.1
    simp only [if_neg hne]
    split
    · rw [List.count_eq_zero]
      intro h
      simp only [List.mem_singleton, Warning.duplicateTag.injEq] at h
      exact hn h.symm
    · rfl

theorem specWarnings_count (lib : Lib F) (T : GoString) (hT : usdxTags T = true)
    (pairs : List (GoString × GoString)) :
    ∀ (relative : Bool) (earlier : List GoString),
      (∀ p, pairOf T = some p → p ∉ pairs.map (·.1)) →
      (specWarnings lib relative earlier pairs).count (Warning.duplicateTag T) =
        if occurredIn earlier T = true then (pairs.map (·.1)).count T
        else (pairs.map (·.1)).count T - 1 := by
  induction pairs with
  | nil => intro relative earlier _; simp [specWarnings]
  | cons pv rest ih =>
    obtain ⟨name, value⟩ := pv
    intro relative earlier hp
    have hp' : ∀ p, pairOf T = some p → p ∉ rest.map (·.1) := fun p h1 h2 =>
      hp p h1 (by simp only [List.map_cons]; exact List.mem_cons_of_mem _ h2)
    have hpn : (pairOf T == some name) = false := by
      rw [beq_eq_false_iff_ne]
      intro h
      exact hp name h (by simp)
    simp only [specWarnings, List.count_append, lineWarnings_count lib _ _ _ _ T hT,
      ih _ (name :: earlier) hp', occurredIn_cons, hpn, Bool.or_false, List.map_cons]
    by_cases hn : name = T
    · subst hn
      simp only [true_and, beq_self_eq_true, Bool.or_true, if_true, List.count_cons_self]
      by_cases ho : occurredIn earlier name = true
      · simp only [ho, if_true]; omega
      · simp only [ho, Bool.false_eq_true, if_false]; omega
    · have hb : (T == name) = false := by
        rw [beq_eq_false_iff_ne]; exact fun h => hn h.symm
      simp only [hn, false_and, if_false, hb, Bool.or_false, Nat.zero_add,
        List.count_cons_of_ne (Ne.symm hn)]

theorem interpretAll_relative (r : Reader) (lib : Lib F) (pairs : List (GoString × GoString)) :
    ∀ song : Song F, (interpretAll r lib song pairs).Relative =
      (song.Relative || pairs.any (setsRelative lib)) := by
  induction pairs with
  | nil => intro song; simp [interpretAll]
  | cons p rest ih =>
    intro song
    have := ih (interpret r lib song p.1 p.2).1
    simp only [interpretAll, List.foldl_cons] at this ⊢
    rw [this, interpret_relative, relativeNext, List.any_cons, setsRelative, Bool.or_assoc]

theorem loopBody_warnings (r : Reader) (lib : Lib F) (st : LoopState F) (line value : GoString)
    (hdec : st.song.Encoding.Decode lib (rawValueOf line) = .ok value) :
    ∃ st', loopBody r lib st line = .ok st' ∧
      st'.song = (interpret r lib st.song (nameOf line) value).1 ∧
      st'.warnings = (st.warnings ++ duplicateWarning st.seen (nameOf line)) ++
        parseWarning (nameOf line)
          ((numericParse lib st.song.Relative (tagKind (nameOf line)) value).bind (·.2)) := by
  rw [loopBody_eq, hdec]
  refine ⟨_, rfl, rfl, ?_⟩
  simp only [interpret_err, duplicateWarning]
  cases (st.seen.contains (nameOf line) && usdxTags (nameOf line)) <;> simp

theorem nextEncoding_eq (r : Reader) (enc : Encoding) (p : GoString × GoString) :
    nextEncoding r enc p.1 p.2 =
      (if p.1 = str "ENCODING" then r.encodings.lookup p.2 else none).getD enc := by
  unfold nextEncoding
  split <;> rfl

theorem interpretAll_encoding (r : Reader) (lib : Lib F) (pairs : List (GoString × GoString)) :
    ∀ song : Song F, (interpretAll r lib song pairs).Encoding =
      (lastRecognized r pairs).getD song.Encoding := by
  induction pairs with
  | nil => intro song; rfl
  | cons p rest ih =>
    intro song
    have := ih (interpret r lib song p.1 p.2).1
    simp only [interpretAll, List.foldl_cons] at this ⊢
    rw [this, interpret_encoding, nextEncoding_eq]
    unfold lastRecognized
    rw [List.reverse_cons, List.filterMap_append, List.head?_append]
    cases (List.filterMap (fun p => if p.1 = str "ENCODING" then r.encodings.lookup p.2 else none)
      rest.reverse).head? with
    | some e => rfl
    | none =>
      simp only [Option.getD_none, List.filterMap_cons, List.filterMap_nil, Option.none_or]
      cases (if p.1 = str "ENCODING" then List.lookup p.2 r.encodings else none) <;> rfl

theorem NewReader_lookup_name (e : Encoding) : NewReader.encodings.lookup e.Name = some e := by
  cases e <;> decide

theorem NewReader_lookup_none (value : GoString) (h : ∀ e : Encoding, value ≠ e.Name) :
    NewReader.encodings.lookup value = none := by
  have h1 := h .Auto
  have h2 := h .UTF8
  have h3 := h .CP1250
  have h4 := h .CP1252
  simp only [NewReader, List.map_cons, List.map_nil, List.lookup]
  rw [beq_eq_false_iff_ne.mpr h1, beq_eq_false_iff_ne.mpr h2, beq_eq_false_iff_ne.mpr h3,
    beq_eq_false_iff_ne.mpr h4]

theorem checkBOM_of_mark (input : Stream) (rest : List Nat)
    (hdata : input.data = [0xEF, 0xBB, 0xBF] ++ rest) (hpos : input.pos = 0)
    (hread : input.readFails = false) :
    checkBOM input = ({ input with pos := 3 }, true, none) := by
  unfold checkBOM readFull
  have hlt : ¬ (rest.length + 1 + 1 + 1 < 3) := by omega
  simp [hdata, hpos, hread, hlt]

theorem interpretAll_custom (r : Reader) (lib : Lib F) (pairs : List (GoString × GoString)) :
    ∀ song : Song F, (interpretAll r lib song pairs).CustomTags =
      song.CustomTags ++ customTagsOf pairs := by
  induction pairs with
  | nil => intro song; simp [interpretAll, customTagsOf]
  | cons p rest ih =>
    intro song
    have := ih (interpret r lib song p.1 p.2).1
    simp only [interpretAll, List.foldl_cons] at this ⊢
    rw [this, interpret_custom]
    unfold customTagsOf
    cases hu : usdxTags p.1 <;> simp [List.filter_cons, hu]

theorem firstSong_custom (r : Reader) (lib : Lib F) (input : Stream) (dir sourceFile : GoString) :
    (firstSong r lib input dir sourceFile).CustomTags = [] := by
  unfold firstSong
  split <;> rfl

theorem interpret_notes (r : Reader) (lib : Lib F) (song : Song F) (tag value : GoString) :
    (interpret r lib song tag value).1.Notes = song.Notes := by
  unfold interpret
  cases tagKind tag <;> first | rfl | (simp only []; split <;> rfl)

theorem interpretAll_notes (r : Reader) (lib : Lib F) (pairs : List (GoString × GoString)) :
    ∀ song : Song F, (interpretAll r lib song pairs).Notes = song.Notes := by
  induction pairs with
  | nil => intro song; rfl
  | cons p rest ih =>
    intro song
    have := ih (interpret r lib song p.1 p.2).1
    simp only [interpretAll, List.foldl_cons] at this ⊢
    rw [this, interpret_notes]

theorem firstSong_notes (r : Reader) (lib : Lib F) (input : Stream) (dir sourceFile : GoString) :
    (firstSong r lib input dir sourceFile).Notes = [] := by
  unfold firstSong
  split <;> rfl

theorem runHeader_total (r : Reader) (lib : Lib F)
    (hlib : ∀ (enc : Encoding) (s : GoString), ∃ v, enc.Decode lib s = .ok v)
    (hdr : List GoString) : ∀ st : LoopState F, ∃ st', runHeader r lib st hdr = .ok st' := by
  induction hdr with
  | nil => intro st; exact ⟨st, rfl⟩
  | cons line rest ih =>
    intro st
    obtain ⟨v, hv⟩ := hlib st.song.Encoding (rawValueOf line)
    obtain ⟨st1, h1, _⟩ := loopBody_warnings r lib st line v hv
    obtain ⟨st2, h2⟩ := ih st1
    exact ⟨st2, by simp only [runHeader, h1, h2]⟩

theorem scanFrom_too_long (n : Nat) : ∀ cur : List Nat, maxScanTokenSize ≤ cur.length + n →
    scanFrom cur (List.replicate n 97) = ([], some .ErrTooLong) := by
  induction n with
  | zero =>
    intro cur h
    have hne : cur ≠ [] := by
      intro hc; rw [hc] at h; simp [maxScanTokenSize] at h
    simp only [List.replicate, scanFrom, if_neg hne]
    rw [if_pos (by simpa using h)]
  | succ n ih =>
    intro cur h
    simp only [List.replicate, scanFrom]
    rw [if_neg (by decide)]
    exact ih (97 :: cur) (by simp only [List.length_cons]; omega)

theorem long_line_too_long (n : Nat) (hn : maxScanTokenSize ≤ n) :
    (linesOf ⟨120 :: 10 :: List.replicate n 97, 0, false, false⟩).head? = some [120] ∧
    (Read NewReader asciiLib ⟨120 :: 10 :: List.replicate n 97, 0, false, false⟩ [] []).err =
      some GoError.ErrTooLong := by
  have hpos : 0 < n := by
    have : 0 < maxScanTokenSize := by decide
    omega
  have hc : checkBOM ⟨120 :: 10 :: List.replicate n 97, 0, false, false⟩ =
      (⟨120 :: 10 :: List.replicate n 97, 0, false, false⟩, false, none) := by
    have h3 : ¬ (n + 1 + 1 < 3) := by omega
    simp [checkBOM, readFull, seekStart, h3]
  have hs : scanStream ⟨120 :: 10 :: List.replicate n 97, 0, false, false⟩ =
      ([[120]], some GoError.ErrTooLong) := by
    simp only [scanStream, List.drop_zero, scanFrom]
    rw [if_neg (by decide), if_pos trivial, if_neg (by decide),
      scanFrom_too_long n [] (by simpa using hn)]
    rfl
  refine ⟨?_, ?_⟩
  · simp only [linesOf, hc, hs]; rfl
  · rw [Read_eq, hc]
    simp only []
    rw [readLines_err]
    simp only [linesOf, hc, hs]
    rfl

theorem asciiLib_decodes (enc : Encoding) (s : GoString) :
    ∃ v, enc.Decode asciiLib s = .ok v := by
  refine ⟨s, ?_⟩
  cases enc
  · simp only [Encoding.Decode]; split <;> rfl
  all_goals rfl

theorem parseFloat32I18n_eq (lib : Lib F) (v : GoString) :
    parseFloat32I18n lib v = lib.parseFloat32 (replaceFirst 44 46 (trim v)) := by
  unfold parseFloat32I18n
  rw [Replace_first]

theorem indexByte_none (c : Nat) (s : GoString) : indexByte c s = none ↔ c ∉ s := by
  induction s with
  | nil => simp [indexByte]
  | cons b rest ih =>
    by_cases hb : b = c
    · subst hb; simp [indexByte]
    · simp only [indexByte, if_neg hb, Option.map_eq_none', ih, List.mem_cons, not_or]
      exact ⟨fun h => ⟨fun h' => hb h'.symm, h⟩, fun h => h.2⟩

theorem indexByte_some (c : Nat) (s : GoString) (i : Nat) (h : indexByte c s = some i) :
    s.take i ++ c :: s.drop (i + 1) = s ∧ c ∉ s.take i := by
  induction s generalizing i with
  | nil => simp [indexByte] at h
  | cons b rest ih =>
    by_cases hb : b = c
    · subst hb
      simp only [indexByte, if_true, Option.some.injEq] at h
      subst h
      simp
    · simp only [indexByte, if_neg hb, Option.map_eq_some'] at h
      obtain ⟨j, hj, rfl⟩ := h
      obtain ⟨h1, h2⟩ := ih j hj
      refine ⟨?_, ?_⟩
      · simp only [List.take_succ_cons, List.drop_succ_cons, List.cons_append]
        rw [h1]
      · simp only [List.take_succ_cons, List.mem_cons, not_or]
        exact ⟨fun h' => hb h'.symm, h2⟩

theorem trimLeftHash_spec (line : GoString) :
    ∃ k, line = List.replicate k 35 ++ trimLeftHash line ∧
      (trimLeftHash line).head? ≠ some 35 := by
  induction line with
  | nil => exact ⟨0, rfl, by simp [trimLeftHash]⟩
  | cons b rest ih =>
    by_cases hb : b = 35
    · subst hb
      obtain ⟨k, h1, h2⟩ := ih
      have ht : trimLeftHash (35 :: rest) = trimLeftHash rest := by
        simp [trimLeftHash, List.dropWhile_cons]
      rw [ht]
      exact ⟨k + 1, by rw [List.replicate_succ, List.cons_append, ← h1], h2⟩
    · have ht : trimLeftHash (b :: rest) = b :: rest := by
        simp [trimLeftHash, List.dropWhile_cons, hb]
      rw [ht]
      exact ⟨0, rfl, by simp [hb]⟩

/-! ## The detector of UTF-8 -/

set_option maxRecDepth 100000 in
theorem utf8Step_zero (b : Nat) (hb : b < 256) :
    utf8Step 0 b =
      if b = 9 ∨ b = 10 ∨ b = 13 ∨ (0x20 ≤ b ∧ b ≤ 0x7E) then some 0
      else if 0xC2 ≤ b ∧ b ≤ 0xDF then some 1
      else if b = 0xE0 then some 2
      else if (0xE1 ≤ b ∧ b ≤ 0xEC) ∨ b = 0xEE ∨ b = 0xEF then some 3
      else if b = 0xED then some 4
      else if b = 0xF0 then some 5
      else if 0xF1 ≤ b ∧ b ≤ 0xF3 then some 6
      else if b = 0xF4 then some 7
      else none := by
  revert b
  decide

set_option maxRecDepth 100000 in
theorem utf8Step_one (b : Nat) (hb : b < 256) :
    utf8Step 1 b = if 0x80 ≤ b ∧ b ≤ 0xBF then some 0 else none := by
  revert b
  decide

set_option maxRecDepth 100000 in
theorem utf8Step_two (b : Nat) (hb : b < 256) :
    utf8Step 2 b = if 0xA0 ≤ b ∧ b ≤ 0xBF then some 1 else none := by
  revert b
  decide

set_option maxRecDepth 100000 in
theorem utf8Step_three (b : Nat) (hb : b < 256) :
    utf8Step 3 b = if 0x80 ≤ b ∧ b ≤ 0xBF then some 1 else none := by
  revert b
  decide

set_option maxRecDepth 100000 in
theorem utf8Step_four (b : Nat) (hb : b < 256) :
    utf8Step 4 b = if 0x80 ≤ b ∧ b ≤ 0x9F then some 1 else none := by
  revert b
  decide

set_option maxRecDepth 100000 in
theorem utf8Step_five (b : Nat) (hb : b < 256) :
    utf8Step 5 b = if 0x90 ≤ b ∧ b ≤ 0xBF then some 3 else none := by
  revert b
  decide

set_option maxRecDepth 100000 in
theorem utf8Step_six (b : Nat) (hb : b < 256) :
    utf8Step 6 b = if 0x80 ≤ b ∧ b ≤ 0xBF then some 3 else none := by
  revert b
  decide

set_option maxRecDepth 100000 in
theorem utf8Step_seven (b : Nat) (hb : b < 256) :
    utf8Step 7 b = if 0x80 ≤ b ∧ b ≤ 0x8F then some 3 else none := by
  revert b
  decide

/-- In a state that expects a byte of the range `lo..hi`, an accepted string starts
with such a byte and goes on from the next state. -/
theorem isUTF8From_pending (k lo hi next : Nat) (hk : k ≠ 0)
    (hstep : ∀ b, b < 256 → utf8Step k b = if lo ≤ b ∧ b ≤ hi then some next else none)
    (t : GoString) (hbytes : isBytes t) (h : isUTF8From k t = true) :
    ∃ b t', t = b :: t' ∧ lo ≤ b ∧ b ≤ hi ∧ isUTF8From next t' = true := by
  cases t with
  | nil =>
    simp only [isUTF8From, beq_iff_eq] at h
    exact absurd h hk
  | cons b t' =>
    have hb : b < 256 := hbytes b (List.mem_cons_self _ _)
    simp only [isUTF8From, hstep b hb] at h
    by_cases hr : lo ≤ b ∧ b ≤ hi
    · rw [if_pos hr] at h
      exact ⟨b, t', rfl, hr.1, hr.2, h⟩
    · rw [if_neg hr] at h
      cases h

/-- A byte of the expected range moves the detector to the next state. -/
theorem isUTF8From_cons_of (k lo hi next b : Nat) (t : GoString)
    (hstep : ∀ b, b < 256 → utf8Step k b = if lo ≤ b ∧ b ≤ hi then some next else none)
    (hb : b < 256) (hr : lo ≤ b ∧ b ≤ hi) :
    isUTF8From k (b :: t) = isUTF8From next t := by
  simp only [isUTF8From, hstep b hb, if_pos hr]

theorem isBytes_tail (b : Nat) (t : GoString) (h : isBytes (b :: t)) : isBytes t :=
  fun c hc => h c (List.mem_cons_of_mem _ hc)

theorem WellFormed_nil : WellFormed [] := ⟨[], rfl, fun _ h => absurd h (List.not_mem_nil _)⟩

theorem WellFormed_append (q : List Nat) (t : GoString) (hq : isCharacter q = true)
    (ht : WellFormed t) : WellFormed (q ++ t) := by
  obtain ⟨chars, h1, h2⟩ := ht
  refine ⟨q :: chars, by rw [List.flatten_cons, h1], ?_⟩
  intro q' hq'
  rcases List.mem_cons.mp hq' with h | h
  · rw [h]; exact hq
  · exact h2 q' h

theorem isUTF8From_sound (n : Nat) : ∀ s : GoString, s.length ≤ n → isBytes s →
    isUTF8From 0 s = true → WellFormed s := by
  induction n with
  | zero =>
    intro s hlen _ _
    have : s = [] := List.length_eq_zero.mp (by omega)
    rw [this]; exact WellFormed_nil
  | succ n ih =>
    intro s hlen hbytes h
    cases s with
    | nil => exact WellFormed_nil
    | cons a t =>
      have ha : a < 256 := hbytes a (List.mem_cons_self _ _)
      have ht := isBytes_tail a t hbytes
      simp only [List.length_cons] at hlen
      simp only [isUTF8From, utf8Step_zero a ha] at h
      by_cases h0 : a = 9 ∨ a = 10 ∨ a = 13 ∨ (0x20 ≤ a ∧ a ≤ 0x7E)
      · rw [if_pos h0] at h
        have hq : isCharacter [a] = true := by
          simp only [isCharacter, Bool.or_eq_true, Bool.and_eq_true, beq_iff_eq,
            decide_eq_true_eq]
          omega
        exact WellFormed_append [a] t hq (ih t (by omega) ht h)
      rw [if_neg h0] at h
      by_cases h1 : 0xC2 ≤ a ∧ a ≤ 0xDF
      · rw [if_pos h1] at h
        obtain ⟨b, t1, rfl, hb1, hb2, h⟩ := isUTF8From_pending 1 _ _ _ (by decide) utf8Step_one t ht h
        have hq : isCharacter [a, b] = true := by
          simp only [isCharacter, isContinuation, Bool.and_eq_true, decide_eq_true_eq]
          omega
        simp only [List.length_cons] at hlen
        exact WellFormed_append [a, b] t1 hq (ih t1 (by omega) (isBytes_tail _ _ ht) h)
      rw [if_neg h1] at h
      by_cases h2 : a = 0xE0
      · rw [if_pos h2] at h
        obtain ⟨b, t1, rfl, hb1, hb2, h⟩ :=
          isUTF8From_pending 2 _ _ _ (by decide) utf8Step_two t ht h
        have ht1 := isBytes_tail _ _ ht
        obtain ⟨c, t2, rfl, hc1, hc2, h⟩ :=
          isUTF8From_pending 1 _ _ _ (by decide) utf8Step_one t1 ht1 h
        have ht2 := isBytes_tail _ _ ht1
        have hq : isCharacter [a, b, c] = true := by
          simp only [isCharacter, isContinuation, Bool.or_eq_true, Bool.and_eq_true,
            beq_iff_eq, decide_eq_true_eq]
          omega
        simp only [List.length_cons] at hlen
        exact WellFormed_append [a, b, c] t2 hq (ih t2 (by omega) ht2 h)
      rw [if_neg h2] at h
      by_cases h3 : (0xE1 ≤ a ∧ a ≤ 0xEC) ∨ a = 0xEE ∨ a = 0xEF
      · rw [if_pos h3] at h
        obtain ⟨b, t1, rfl, hb1, hb2, h⟩ :=
          isUTF8From_pending 3 _ _ _ (by decide) utf8Step_three t ht h
        have ht1 := isBytes_tail _ _ ht
        obtain ⟨c, t2, rfl, hc1, hc2, h⟩ :=
          isUTF8From_pending 1 _ _ _ (by decide) utf8Step_one t1 ht1 h
        have ht2 := isBytes_tail _ _ ht1
        have hq : isCharacter [a, b, c] = true := by
          simp only [isCharacter, isContinuation, Bool.or_eq_true, Bool.and_eq_true,
            beq_iff_eq, decide_eq_true_eq]
          omega
        simp only [List.length_cons] at hlen
        exact WellFormed_append [a, b, c] t2 hq (ih t2 (by omega) ht2 h)
      rw [if_neg h3] at h
      by_cases h4 : a = 0xED
      · rw [if_pos h4] at h
        obtain ⟨b, t1, rfl, hb1, hb2, h⟩ :=
          isUTF8From_pending 4 _ _ _ (by decide) utf8Step_four t ht h
        have ht1 := isBytes_tail _ _ ht
        obtain ⟨c, t2, rfl, hc1, hc2, h⟩ :=
          isUTF8From_pending 1 _ _ _ (by decide) utf8Step_one t1 ht1 h
        have ht2 := isBytes_tail _ _ ht1
        have hq : isCharacter [a, b, c] = true := by
          simp only [isCharacter, isContinuation, Bool.or_eq_true, Bool.and_eq_true,
            beq_iff_eq, decide_eq_true_eq]
          omega
        simp only [List.length_cons] at hlen
        exact WellFormed_append [a, b, c] t2 hq (ih t2 (by omega) ht2 h)
      rw [if_neg h4] at h
      by_cases h5 : a = 0xF0
      · rw [if_pos h5] at h
        obtain ⟨b, t1, rfl, hb1, hb2, h⟩ :=
          isUTF8From_pending 5 _ _ _ (by decide) utf8Step_five t ht h
        have ht1 := isBytes_tail _ _ ht
        obtain ⟨c, t2, rfl, hc1, hc2, h⟩ :=
          isUTF8From_pending 3 _ _ _ (by decide) utf8Step_three t1 ht1 h
        have ht2 := isBytes_tail _ _ ht1
        obtain ⟨d, t3, rfl, hd1, hd2, h⟩ :=
          isUTF8From_pending 1 _ _ _ (by decide) utf8Step_one t2 ht2 h
        have ht3 := isBytes_tail _ _ ht2
        have hq : isCharacter [a, b, c, d] = true := by
          simp only [isCharacter, isContinuation, Bool.or_eq_true, Bool.and_eq_true,
            beq_iff_eq, decide_eq_true_eq]
          omega
        simp only [List.length_cons] at hlen
        exact WellFormed_append [a, b, c, d] t3 hq (ih t3 (by omega) ht3 h)
      rw [if_neg h5] at h
      by_cases h6 : 0xF1 ≤ a ∧ a ≤ 0xF3
      · rw [if_pos h6] at h
        obtain ⟨b, t1, rfl, hb1, hb2, h⟩ :=
          isUTF8From_pending 6 _ _ _ (by decide) utf8Step_six t ht h
        have ht1 := isBytes_tail _ _ ht
        obtain ⟨c, t2, rfl, hc1, hc2, h⟩ :=
          isUTF8From_pending 3 _ _ _ (by decide) utf8Step_three t1 ht1 h
        have ht2 := isBytes_tail _ _ ht1
        obtain ⟨d, t3, rfl, hd1, hd2, h⟩ :=
          isUTF8From_pending 1 _ _ _ (by decide) utf8Step_one t2 ht2 h
        have ht3 := isBytes_tail _ _ ht2
        have hq : isCharacter [a, b, c, d] = true := by
          simp only [isCharacter, isContinuation, Bool.or_eq_true, Bool.and_eq_true,
            beq_iff_eq, decide_eq_true_eq]
          omega
        simp only [List.length_cons] at hlen
        exact WellFormed_append [a, b, c, d] t3 hq (ih t3 (by omega) ht3 h)
      rw [if_neg h6] at h
      by_cases h7 : a = 0xF4
      · rw [if_pos h7] at h
        obtain ⟨b, t1, rfl, hb1, hb2, h⟩ :=
          isUTF8From_pending 7 _ _ _ (by decide) utf8Step_seven t ht h
        have ht1 := isBytes_tail _ _ ht
        obtain ⟨c, t2, rfl, hc1, hc2, h⟩ :=
          isUTF8From_pending 3 _ _ _ (by decide) utf8Step_three t1 ht1 h
        have ht2 := isBytes_tail _ _ ht1
        obtain ⟨d, t3, rfl, hd1, hd2, h⟩ :=
          isUTF8From_pending 1 _ _ _ (by decide) utf8Step_one t2 ht2 h
        have ht3 := isBytes_tail _ _ ht2
        have hq : isCharacter [a, b, c, d] = true := by
          simp only [isCharacter, isContinuation, Bool.or_eq_true, Bool.and_eq_true,
            beq_iff_eq, decide_eq_true_eq]
          omega
        simp only [List.length_cons] at hlen
        exact WellFormed_append [a, b, c, d] t3 hq (ih t3 (by omega) ht3 h)
      rw [if_neg h7] at h
      cases h

theorem utf8Step_zero_of (a k : Nat) (ha : a < 256)
    (h : (k = 0 ∧ (a = 9 ∨ a = 10 ∨ a = 13 ∨ (0x20 ≤ a ∧ a ≤ 0x7E))) ∨
      (k = 1 ∧ 0xC2 ≤ a ∧ a ≤ 0xDF) ∨ (k = 2 ∧ a = 0xE0) ∨
      (k = 3 ∧ ((0xE1 ≤ a ∧ a ≤ 0xEC) ∨ a = 0xEE ∨ a = 0xEF)) ∨ (k = 4 ∧ a = 0xED) ∨
      (k = 5 ∧ a = 0xF0) ∨ (k = 6 ∧ 0xF1 ≤ a ∧ a ≤ 0xF3) ∨ (k = 7 ∧ a = 0xF4)) :
    utf8Step 0 a = some k := by
  rw [utf8Step_zero a ha]
  rcases h with h | h | h | h | h | h | h | h <;> obtain ⟨rfl, h⟩ := h <;>
    repeat (first | rw [if_pos (by omega)] | rw [if_neg (by omega)])

theorem isUTF8From_character (q : List Nat) (t : GoString) (hq : isCharacter q = true) :
    isUTF8From 0 (q ++ t) = isUTF8From 0 t := by
  match q, hq with
  | [a], hq =>
    simp only [isCharacter, Bool.or_eq_true, Bool.and_eq_true, beq_iff_eq,
      decide_eq_true_eq] at hq
    have h0 := utf8Step_zero_of a 0 (by omega) (Or.inl ⟨rfl, by omega⟩)
    show isUTF8From 0 (a :: t) = _
    simp only [isUTF8From, h0]
  | [a, b], hq =>
    simp only [isCharacter, isContinuation, Bool.and_eq_true, decide_eq_true_eq] at hq
    have h0 := utf8Step_zero_of a 1 (by omega)
        (Or.inr (Or.inl ⟨rfl, by omega⟩))
    show isUTF8From 0 (a :: b :: t) = _
    simp only [isUTF8From, h0,
      utf8Step_one b (by omega), if_pos (show 0x80 ≤ b ∧ b ≤ 0xBF by omega)]
  | [a, b, c], hq =>
    simp only [isCharacter, isContinuation, Bool.or_eq_true, Bool.and_eq_true, beq_iff_eq,
      decide_eq_true_eq] at hq
    have hc := utf8Step_one c (by omega)
    rw [if_pos (show 0x80 ≤ c ∧ c ≤ 0xBF by omega)] at hc
    rcases hq with ⟨(⟨ha, hb⟩ | ⟨ha, hb⟩) | ⟨ha, hb⟩, _⟩
    · have h0 := utf8Step_zero_of a 2 (by omega)
        (Or.inr (Or.inr (Or.inl ⟨rfl, by omega⟩)))
      show isUTF8From 0 (a :: b :: c :: t) = _
      simp only [isUTF8From, h0, hc,
        utf8Step_two b (by omega), if_pos (show 0xA0 ≤ b ∧ b ≤ 0xBF by omega)]
    · have h0 := utf8Step_zero_of a 3 (by omega)
        (Or.inr (Or.inr (Or.inr (Or.inl ⟨rfl, by omega⟩))))
      show isUTF8From 0 (a :: b :: c :: t) = _
      simp only [isUTF8From, h0, hc,
        utf8Step_three b (by omega), if_pos (show 0x80 ≤ b ∧ b ≤ 0xBF by omega)]
    · have h0 := utf8Step_zero_of a 4 (by omega)
        (Or.inr (Or.inr (Or.inr (Or.inr (Or.inl ⟨rfl, by omega⟩)))))
      show isUTF8From 0 (a :: b :: c :: t) = _
      simp only [isUTF8From, h0, hc,
        utf8Step_four b (by omega), if_pos (show 0x80 ≤ b ∧ b ≤ 0x9F by omega)]
  | [a, b, c, d], hq =>
    simp only [isCharacter, isContinuation, Bool.or_eq_true, Bool.and_eq_true, beq_iff_eq,
      decide_eq_true_eq] at hq
    have hd := utf8Step_one d (by omega)
    rw [if_pos (show 0x80 ≤ d ∧ d ≤ 0xBF by omega)] at hd
    have hc := utf8Step_three c (by omega)
    rw [if_pos (show 0x80 ≤ c ∧ c ≤ 0xBF by omega)] at hc
    rcases hq with ⟨⟨(⟨ha, hb⟩ | ⟨ha, hb⟩) | ⟨ha, hb⟩, _⟩, _⟩
    · have h0 := utf8Step_zero_of a 5 (by omega)
        (Or.inr (Or.inr (Or.inr (Or.inr (Or.inr (Or.inl ⟨rfl, by omega⟩))))))
      show isUTF8From 0 (a :: b :: c :: d :: t) = _
      simp only [isUTF8From, h0, hc, hd,
        utf8Step_five b (by omega), if_pos (show 0x90 ≤ b ∧ b ≤ 0xBF by omega)]
    · have h0 := utf8Step_zero_of a 6 (by omega)
        (Or.inr (Or.inr (Or.inr (Or.inr (Or.inr (Or.inr (Or.inl ⟨rfl, by omega⟩)))))))
      show isUTF8From 0 (a :: b :: c :: d :: t) = _
      simp only [isUTF8From, h0, hc, hd,
        utf8Step_six b (by omega), if_pos (show 0x80 ≤ b ∧ b ≤ 0xBF by omega)]
    · have h0 := utf8Step_zero_of a 7 (by omega)
        (Or.inr (Or.inr (Or.inr (Or.inr (Or.inr (Or.inr (Or.inr (⟨rfl, by omega⟩))))))))
      show isUTF8From 0 (a :: b :: c :: d :: t) = _
      simp only [isUTF8From, h0, hc, hd,
        utf8Step_seven b (by omega), if_pos (show 0x80 ≤ b ∧ b ≤ 0x8F by omega)]
  | [], hq => simp [isCharacter] at hq
  | _ :: _ :: _ :: _ :: _ :: _, hq => simp [isCharacter] at hq

theorem isUTF8From_complete (chars : List (List Nat)) (t : GoString)
    (h : ∀ q ∈ chars, isCharacter q = true) :
    isUTF8From 0 (chars.flatten ++ t) = isUTF8From 0 t := by
  induction chars with
  | nil => rfl
  | cons q rest ih =>
    rw [List.flatten_cons, List.append_assoc,
      isUTF8From_character q _ (h q (List.mem_cons_self _ _))]
    exact ih (fun q' hq' => h q' (List.mem_cons_of_mem _ hq'))

/-- A string that stops inside a character of two bytes or more is rejected. -/
theorem isUTF8From_inside (q : List Nat) (n : Nat) (hq : isCharacter q = true) (h1 : 0 < n)
    (h2 : n < q.length) : isUTF8From 0 (q.take n) = false := by
  match q, hq, h2 with
  | [a, b], hq, h2 =>
    simp only [isCharacter, isContinuation, Bool.and_eq_true, decide_eq_true_eq] at hq
    simp only [List.length_cons, List.length_nil] at h2
    obtain rfl : n = 1 := by omega
    have h0 := utf8Step_zero_of a 1 (by omega)
        (Or.inr (Or.inl ⟨rfl, by omega⟩))
    show isUTF8From 0 [a] = false
    simp only [isUTF8From, h0]
    rfl
  | [a, b, c], hq, h2 =>
    simp only [isCharacter, isContinuation, Bool.or_eq_true, Bool.and_eq_true, beq_iff_eq,
      decide_eq_true_eq] at hq
    simp only [List.length_cons, List.length_nil] at h2
    rcases hq with ⟨(⟨ha, hb⟩ | ⟨ha, hb⟩) | ⟨ha, hb⟩, _⟩
    · have h0 := utf8Step_zero_of a 2 (by omega)
          (Or.inr (Or.inr (Or.inl ⟨rfl, by omega⟩)))
      have hb' := utf8Step_two b (by omega)
      rw [if_pos (show 0xA0 ≤ b ∧ b ≤ 0xBF by omega)] at hb'
      obtain rfl | rfl : n = 1 ∨ n = 2 := by omega
      · show isUTF8From 0 [a] = false
        simp only [isUTF8From, h0]
        rfl
      · show isUTF8From 0 [a, b] = false
        simp only [isUTF8From, h0, hb']
        rfl
    · have h0 := utf8Step_zero_of a 3 (by omega)
          (Or.inr (Or.inr (Or.inr (Or.inl ⟨rfl, by omega⟩))))
      have hb' := utf8Step_three b (by omega)
      rw [if_pos (show 0x80 ≤ b ∧ b ≤ 0xBF by omega)] at hb'
      obtain rfl | rfl : n = 1 ∨ n = 2 := by omega
      · show isUTF8From 0 [a] = false
        simp only [isUTF8From, h0]
        rfl
      · show isUTF8From 0 [a, b] = false
        simp only [isUTF8From, h0, hb']
        rfl
    · have h0 := utf8Step_zero_of a 4 (by omega)
          (Or.inr (Or.inr (Or.inr (Or.inr (Or.inl ⟨rfl, by omega⟩)))))
      have hb' := utf8Step_four b (by omega)
      rw [if_pos (show 0x80 ≤ b ∧ b ≤ 0x9F by omega)] at hb'
      obtain rfl | rfl : n = 1 ∨ n = 2 := by omega
      · show isUTF8From 0 [a] = false
        simp only [isUTF8From, h0]
        rfl
      · show isUTF8From 0 [a, b] = false
        simp only [isUTF8From, h0, hb']
        rfl
  | [a, b, c, d], hq, h2 =>
    simp only [isCharacter, isContinuation, Bool.or_eq_true, Bool.and_eq_true, beq_iff_eq,
      decide_eq_true_eq] at hq
    simp only [List.length_cons, List.length_nil] at h2
    have hc := utf8Step_three c (by omega)
    rw [if_pos (show 0x80 ≤ c ∧ c ≤ 0xBF by omega)] at hc
    rcases hq with ⟨⟨(⟨ha, hb⟩ | ⟨ha, hb⟩) | ⟨ha, hb⟩, _⟩, _⟩
    · have h0 := utf8Step_zero_of a 5 (by omega)
          (Or.inr (Or.inr (Or.inr (Or.inr (Or.inr (Or.inl ⟨rfl, by omega⟩))))))
      have hb' := utf8Step_five b (by omega)
      rw [if_pos (show 0x90 ≤ b ∧ b ≤ 0xBF by omega)] at hb'
      obtain rfl | rfl | rfl : n = 1 ∨ n = 2 ∨ n = 3 := by omega
      · show isUTF8From 0 [a] = false
        simp only [isUTF8From, h0]
        rfl
      · show isUTF8From 0 [a, b] = false
        simp only [isUTF8From, h0, hb']
        rfl
      · show isUTF8From 0 [a, b, c] = false
        simp only [isUTF8From, h0, hb', hc]
        rfl
    · have h0 := utf8Step_zero_of a 6 (by omega)
          (Or.inr (Or.inr (Or.inr (Or.inr (Or.inr (Or.inr (Or.inl ⟨rfl, by omega⟩)))))))
      have hb' := utf8Step_six b (by omega)
      rw [if_pos (show 0x80 ≤ b ∧ b ≤ 0xBF by omega)] at hb'
      obtain rfl | rfl | rfl : n = 1 ∨ n = 2 ∨ n = 3 := by omega
      · show isUTF8From 0 [a] = false
        simp only [isUTF8From, h0]
        rfl
      · show isUTF8From 0 [a, b] = false
        simp only [isUTF8From, h0, hb']
        rfl
      · show isUTF8From 0 [a, b, c] = false
        simp only [isUTF8From, h0, hb', hc]
        rfl
    · have h0 := utf8Step_zero_of a 7 (by omega)
          (Or.inr (Or.inr (Or.inr (Or.inr (Or.inr (Or.inr (Or.inr (⟨rfl, by omega⟩))))))))
      have hb' := utf8Step_seven b (by omega)
      rw [if_pos (show 0x80 ≤ b ∧ b ≤ 0x8F by omega)] at hb'
      obtain rfl | rfl | rfl : n = 1 ∨ n = 2 ∨ n = 3 := by omega
      · show isUTF8From 0 [a] = false
        simp only [isUTF8From, h0]
        rfl
      · show isUTF8From 0 [a, b] = false
        simp only [isUTF8From, h0, hb']
        rfl
      · show isUTF8From 0 [a, b, c] = false
        simp only [isUTF8From, h0, hb', hc]
        rfl
  | [], hq, _ => simp [isCharacter] at hq
  | [_], _, h2 => simp only [List.length_cons, List.length_nil] at h2; omega
  | _ :: _ :: _ :: _ :: _ :: _, hq, _ => simp [isCharacter] at hq

theorem parseUintLoop_value (ds : GoString) : ∀ (n un : Nat),
    parseUintLoop n ds = some (some un) → digitsValue n ds = some un := by
  induction ds with
  | nil => intro n un h; simpa [parseUintLoop, digitsValue] using h
  | cons c rest ih =>
    intro n un h
    simp only [parseUintLoop] at h
    by_cases hc : 48 ≤ c ∧ c ≤ 57
    · rw [if_pos hc] at h
      by_cases h1 : 2 ^ 64 / 10 + 1 ≤ n
      · rw [if_pos h1] at h; cases h
      · rw [if_neg h1] at h
        by_cases h2 : 2 ^ 64 ≤ n * 10 + (c - 48)
        · rw [if_pos h2] at h; cases h
        · rw [if_neg h2] at h
          simp only [digitsValue, if_pos hc]
          exact ih _ un h
    · rw [if_neg hc] at h; cases h

theorem parseUintLoop_overflow (ds : GoString) : ∀ (n : Nat),
    parseUintLoop n ds = some none →
      ∃ p m, p <+: ds ∧ digitsValue n p = some m ∧ 2 ^ 64 ≤ m := by
  induction ds with
  | nil => intro n h; simp [parseUintLoop] at h
  | cons c rest ih =>
    intro n h
    simp only [parseUintLoop] at h
    by_cases hc : 48 ≤ c ∧ c ≤ 57
    · rw [if_pos hc] at h
      by_cases h1 : 2 ^ 64 / 10 + 1 ≤ n
      · refine ⟨[c], n * 10 + (c - 48), ⟨rest, rfl⟩, by simp [digitsValue, hc], ?_⟩
        have : (2 : Nat) ^ 64 / 10 + 1 = 1844674407370955162 := by norm_num
        rw [this] at h1
        have : (2 : Nat) ^ 64 = 18446744073709551616 := by norm_num
        omega
      · rw [if_neg h1] at h
        by_cases h2 : 2 ^ 64 ≤ n * 10 + (c - 48)
        · exact ⟨[c], n * 10 + (c - 48), ⟨rest, rfl⟩, by simp [digitsValue, hc], h2⟩
        · rw [if_neg h2] at h
          obtain ⟨p, m, hp, hv, hm⟩ := ih _ h
          refine ⟨c :: p, m, ?_, ?_, hm⟩
          · obtain ⟨t, ht⟩ := hp
            exact ⟨t, by rw [List.cons_append, ht]⟩
          · simp only [digitsValue, if_pos hc]
            exact hv
    · rw [if_neg hc] at h; cases h

/-- What `Atoi` returns with a range error: the bound on the side of the number that
the digits read so far spell. -/
theorem Atoi_range (s : GoString) (err : NumError) (h : (Atoi s).2 = some err)
    (hk : err.kind = .ErrRange) :
    ∃ p m, p <+: atoiDigits s ∧ digitsValue 0 p = some m ∧
      ((s.head? ≠ some 45 ∧ 2 ^ 63 ≤ m ∧ (Atoi s).1 = 2 ^ 63 - 1) ∨
        (s.head? = some 45 ∧ 2 ^ 63 < m ∧ (Atoi s).1 = -2 ^ 63)) := by
  revert h
  unfold Atoi atoiDigits
  simp only []
  generalize (if List.head? s = some 45 ∨ List.head? s = some 43 then List.drop 1 s else s) = digits
  have h64 : (2 : Nat) ^ 64 = 18446744073709551616 := by norm_num
  have h63 : (2 : Nat) ^ 63 = 9223372036854775808 := by norm_num
  split
  · intro h; cases h; cases hk
  · cases hp : parseUintLoop 0 digits with
    | none => intro h; cases h; cases hk
    | some o =>
      cases o with
      | none =>
        intro _
        obtain ⟨p, m, hpre, hv, hm⟩ := parseUintLoop_overflow digits 0 hp
        refine ⟨p, m, hpre, hv, ?_⟩
        by_cases hneg : s.head? = some 45
        · right; refine ⟨hneg, by omega, ?_⟩
          simp only [if_pos hneg]
        · left; refine ⟨hneg, by omega, ?_⟩
          simp only [if_neg hneg]
      | some un =>
        have hv := parseUintLoop_value digits 0 un hp
        simp only []
        split
        · rename_i h1
          intro _
          exact ⟨digits, un, List.prefix_refl _, hv, Or.inl ⟨h1.1, h1.2, rfl⟩⟩
        · split
          · rename_i h2
            intro _
            exact ⟨digits, un, List.prefix_refl _, hv, Or.inr ⟨h2.1, h2.2, rfl⟩⟩
          · intro h; cases h

theorem scanFrom_line (l : List Nat) : ∀ (cur rest : List Nat), 10 ∉ l →
    cur.length + l.length < maxScanTokenSize →
    scanFrom cur (l ++ 10 :: rest) =
      (dropCR (cur.reverse ++ l) :: (scanFrom [] rest).1, (scanFrom [] rest).2) := by
  induction l with
  | nil =>
    intro cur rest _ hlen
    simp only [List.length_nil, Nat.add_zero] at hlen
    simp only [List.nil_append, scanFrom, if_true, List.append_nil]
    rw [if_neg (by omega)]
  | cons b l ih =>
    intro cur rest hnot hlen
    have hb : b ≠ 10 := fun h => hnot (by rw [h]; exact List.mem_cons_self _ _)
    have hstep : scanFrom cur (b :: (l ++ 10 :: rest)) =
        scanFrom (b :: cur) (l ++ 10 :: rest) := by
      simp only [scanFrom, if_neg hb]
    rw [List.cons_append, hstep, ih (b :: cur) rest (fun h => hnot (List.mem_cons_of_mem _ h))
      (by simp only [List.length_cons] at hlen ⊢; omega)]
    simp

theorem scanFrom_too_long_line (n : Nat) : ∀ (cur rest : List Nat),
    maxScanTokenSize ≤ cur.length + n →
    scanFrom cur (List.replicate n 97 ++ 10 :: rest) = ([], some .ErrTooLong) := by
  induction n with
  | zero =>
    intro cur rest h
    simp only [List.replicate, List.nil_append, scanFrom, if_true]
    rw [if_pos (by simpa using h)]
  | succ n ih =>
    intro cur rest h
    have hstep : scanFrom cur (97 :: (List.replicate n 97 ++ 10 :: rest)) =
        scanFrom (97 :: cur) (List.replicate n 97 ++ 10 :: rest) := by
      simp only [scanFrom]
      rw [if_neg (by decide)]
    rw [List.replicate_succ, List.cons_append, hstep]
    exact ih (97 :: cur) rest (by simp only [List.length_cons]; omega)

theorem long_header_line_too_long (n : Nat) (hn : maxScanTokenSize ≤ n) (rest : List Nat) :
    (Read NewReader asciiLib
      ⟨[0xEF, 0xBB, 0xBF] ++ (str "#ENCODING:CP1252" ++ 10 :: 35 ::
        (List.replicate n 97 ++ 10 :: rest)), 0, false, false⟩ [] []).err =
        some GoError.ErrTooLong ∧
    (Read NewReader asciiLib
      ⟨[0xEF, 0xBB, 0xBF] ++ (str "#ENCODING:CP1252" ++ 10 :: 35 ::
        (List.replicate n 97 ++ 10 :: rest)), 0, false, false⟩ [] []).song.Encoding =
        Encoding.CP1252 := by
  have hc := checkBOM_of_mark
    ⟨[0xEF, 0xBB, 0xBF] ++ (str "#ENCODING:CP1252" ++ 10 :: 35 ::
        (List.replicate n 97 ++ 10 :: rest)), 0, false, false⟩ _ rfl rfl rfl
  have hs : scanFrom [] (str "#ENCODING:CP1252" ++ 10 :: 35 ::
      (List.replicate n 97 ++ 10 :: rest)) =
      ([str "#ENCODING:CP1252"], some GoError.ErrTooLong) := by
    rw [scanFrom_line _ [] _ (by decide) (by decide)]
    have h1 : scanFrom [] (35 :: (List.replicate n 97 ++ 10 :: rest)) =
        ([], some GoError.ErrTooLong) := by
      simp only [scanFrom]
      rw [if_neg (by decide)]
      exact scanFrom_too_long_line n [35] rest (by simp only [List.length_singleton]; omega)
    rw [h1]
    rfl
  have hread : Read NewReader asciiLib
      ⟨[0xEF, 0xBB, 0xBF] ++ (str "#ENCODING:CP1252" ++ 10 :: 35 ::
        (List.replicate n 97 ++ 10 :: rest)), 0, false, false⟩ [] [] =
      readLines NewReader asciiLib
        { newSong NewReader asciiLib [] [] with Encoding := Encoding.UTF8 }
        [str "#ENCODING:CP1252"] (some GoError.ErrTooLong) := by
    have hd : List.drop 3 ([0xEF, 0xBB, 0xBF] ++ (str "#ENCODING:CP1252" ++ 10 :: 35 ::
        (List.replicate n 97 ++ 10 :: rest))) = str "#ENCODING:CP1252" ++ 10 :: 35 ::
        (List.replicate n 97 ++ 10 :: rest) := rfl
    rw [Read_eq]
    simp only [firstSong, linesOf, scanStream, hc, hd, hs]
    rfl
  rw [hread]
  exact ⟨by decide, by decide⟩

theorem long_header_line_facts (n : Nat) (hn : maxScanTokenSize ≤ n) (rest : List Nat) :
    (Stream.mk ([0xEF, 0xBB, 0xBF] ++ (str "#ENCODING:CP1252" ++ 10 :: 35 ::
        (List.replicate n 97 ++ 10 :: rest))) 0 false false).data.take 3 = [0xEF, 0xBB, 0xBF] ∧
    rest <:+ (Stream.mk ([0xEF, 0xBB, 0xBF] ++ (str "#ENCODING:CP1252" ++ 10 :: 35 ::
        (List.replicate n 97 ++ 10 :: rest))) 0 false false).data ∧
    (Read NewReader asciiLib
      ⟨[0xEF, 0xBB, 0xBF] ++ (str "#ENCODING:CP1252" ++ 10 :: 35 ::
        (List.replicate n 97 ++ 10 :: rest)), 0, false, false⟩ [] []).err =
        some GoError.ErrTooLong ∧
    (Read NewReader asciiLib
      ⟨[0xEF, 0xBB, 0xBF] ++ (str "#ENCODING:CP1252" ++ 10 :: 35 ::
        (List.replicate n 97 ++ 10 :: rest)), 0, false, false⟩ [] []).song.Encoding =
        Encoding.CP1252 := by
  refine ⟨rfl, ?_, (long_header_line_too_long n hn rest).1,
    (long_header_line_too_long n hn rest).2⟩
  exact ⟨[0xEF, 0xBB, 0xBF] ++ (str "#ENCODING:CP1252" ++ 10 :: 35 ::
      (List.replicate n 97 ++ [10])), by
    simp only [List.append_assoc, List.cons_append, List.nil_append]⟩

/-! ## Decoding runes and trimming white space -/

theorem decodeRune_ascii (s0 : Nat) (t : List Nat) (h : s0 < 0x80) :
    decodeRune (s0 :: t) = (s0, 1) := by
  simp only [decodeRune, if_pos h]

theorem decodeRune_bad (s0 : Nat) (t : List Nat) (h1 : 0x80 ≤ s0)
    (h2 : s0 < 0xC2 ∨ 0xF4 < s0) : decodeRune (s0 :: t) = (RuneError, 1) := by
  simp only [decodeRune, if_neg (show ¬ s0 < 0x80 by omega), if_pos h2]

theorem decodeRune_single (s0 : Nat) (h : 0x80 ≤ s0) : decodeRune [s0] = (RuneError, 1) := by
  by_cases h2 : s0 < 0xC2 ∨ 0xF4 < s0
  · exact decodeRune_bad s0 [] h h2
  · simp only [decodeRune, if_neg (show ¬ s0 < 0x80 by omega), if_neg h2, List.length_singleton]
    have : (1 : Nat) < (if s0 < 0xE0 then 2 else if s0 < 0xF0 then 3 else 4) := by
      split_ifs <;> omega
    rw [if_pos this]

theorem decodeRune_two (s0 s1 : Nat) (t : List Nat) (h : 0xC2 ≤ s0 ∧ s0 ≤ 0xDF) :
    decodeRune (s0 :: s1 :: t) =
      if s1 < 0x80 ∨ 0xBF < s1 then (RuneError, 1) else (s0 % 32 * 64 + s1 % 64, 2) := by
  have e1 : ¬ s0 < 0x80 := by omega
  have e2 : ¬ (s0 < 0xC2 ∨ 0xF4 < s0) := by omega
  have e3 : s0 < 0xE0 := by omega
  have e4 : ¬ s0 = 0xE0 := by omega
  have e5 : ¬ s0 = 0xF0 := by omega
  have e6 : ¬ s0 = 0xED := by omega
  have e7 : ¬ s0 = 0xF4 := by omega
  simp [decodeRune, e1, e2, e3, e4, e5, e6, e7]

theorem decodeRune_three (s0 s1 s2 : Nat) (t : List Nat) (h : 0xE0 ≤ s0 ∧ s0 ≤ 0xEF) :
    decodeRune (s0 :: s1 :: s2 :: t) =
      if s1 < (if s0 = 0xE0 then 0xA0 else 0x80) ∨ (if s0 = 0xED then 0x9F else 0xBF) < s1
      then (RuneError, 1)
      else if s2 < 0x80 ∨ 0xBF < s2 then (RuneError, 1)
      else (s0 % 16 * 4096 + s1 % 64 * 64 + s2 % 64, 3) := by
  have e1 : ¬ s0 < 0x80 := by omega
  have e2 : ¬ (s0 < 0xC2 ∨ 0xF4 < s0) := by omega
  have e3 : ¬ s0 < 0xE0 := by omega
  have e4 : s0 < 0xF0 := by omega
  have e5 : ¬ s0 = 0xF0 := by omega
  have e7 : ¬ s0 = 0xF4 := by omega
  simp [decodeRune, e1, e2, e3, e4, e5, e7]

theorem decodeRune_three_short (s0 : Nat) (t : List Nat) (h : 0xE0 ≤ s0 ∧ s0 ≤ 0xEF)
    (ht : t.length < 2) : decodeRune (s0 :: t) = (RuneError, 1) := by
  have e1 : ¬ s0 < 0x80 := by omega
  have e2 : ¬ (s0 < 0xC2 ∨ 0xF4 < s0) := by omega
  have e3 : ¬ s0 < 0xE0 := by omega
  have e4 : s0 < 0xF0 := by omega
  have e8 : t.length + 1 < 3 := by omega
  simp [decodeRune, e1, e2, e3, e4, e8]

theorem decodeRune_four (s0 s1 s2 s3 : Nat) (t : List Nat) (h : 0xF0 ≤ s0 ∧ s0 ≤ 0xF4) :
    decodeRune (s0 :: s1 :: s2 :: s3 :: t) =
      if s1 < (if s0 = 0xF0 then 0x90 else 0x80) ∨ (if s0 = 0xF4 then 0x8F else 0xBF) < s1
      then (RuneError, 1)
      else if s2 < 0x80 ∨ 0xBF < s2 then (RuneError, 1)
      else if s3 < 0x80 ∨ 0xBF < s3 then (RuneError, 1)
      else (s0 % 8 * 262144 + s1 % 64 * 4096 + s2 % 64 * 64 + s3 % 64, 4) := by
  have e1 : ¬ s0 < 0x80 := by omega
  have e2 : ¬ (s0 < 0xC2 ∨ 0xF4 < s0) := by omega
  have e3 : ¬ s0 < 0xE0 := by omega
  have e4 : ¬ s0 < 0xF0 := by omega
  have e5 : ¬ s0 = 0xE0 := by omega
  have e6 : ¬ s0 = 0xED := by omega
  simp [decodeRune, e1, e2, e3, e4, e5, e6]

theorem decodeRune_four_short (s0 : Nat) (t : List Nat) (h : 0xF0 ≤ s0 ∧ s0 ≤ 0xF4)
    (ht : t.length < 3) : decodeRune (s0 :: t) = (RuneError, 1) := by
  have e1 : ¬ s0 < 0x80 := by omega
  have e2 : ¬ (s0 < 0xC2 ∨ 0xF4 < s0) := by omega
  have e3 : ¬ s0 < 0xE0 := by omega
  have e4 : ¬ s0 < 0xF0 := by omega
  have e8 : t.length + 1 < 4 := by omega
  simp [decodeRune, e1, e2, e3, e4, e8]

/-- The outcomes of `decodeRune` on a string that is not empty: one byte, which is
the byte itself below 80 and the error rune otherwise, or a character of two, three or
four bytes of the table of well-formed UTF-8. -/
theorem decodeRune_cases (s0 : Nat) (t : List Nat) :
    (s0 < 0x80 ∧ decodeRune (s0 :: t) = (s0, 1)) ∨
    (0x80 ≤ s0 ∧ decodeRune (s0 :: t) = (RuneError, 1)) ∨
    (∃ s1 t1, t = s1 :: t1 ∧ isCharacter [s0, s1] = true ∧
      decodeRune (s0 :: t) = (s0 % 32 * 64 + s1 % 64, 2)) ∨
    (∃ s1 s2 t2, t = s1 :: s2 :: t2 ∧ isCharacter [s0, s1, s2] = true ∧
      decodeRune (s0 :: t) = (s0 % 16 * 4096 + s1 % 64 * 64 + s2 % 64, 3)) ∨
    (∃ s1 s2 s3 t3, t = s1 :: s2 :: s3 :: t3 ∧ isCharacter [s0, s1, s2, s3] = true ∧
      decodeRune (s0 :: t) =
        (s0 % 8 * 262144 + s1 % 64 * 4096 + s2 % 64 * 64 + s3 % 64, 4)) := by
  by_cases h1 : s0 < 0x80
  · exact Or.inl ⟨h1, decodeRune_ascii s0 t h1⟩
  have h1' : 0x80 ≤ s0 := by omega
  by_cases h2 : s0 < 0xC2 ∨ 0xF4 < s0
  · exact Or.inr (Or.inl ⟨h1', decodeRune_bad s0 t h1' h2⟩)
  by_cases c2 : s0 ≤ 0xDF
  · cases t with
    | nil => exact Or.inr (Or.inl ⟨h1', decodeRune_single s0 h1'⟩)
    | cons s1 t1 =>
      rw [decodeRune_two s0 s1 t1 (by omega)]
      by_cases hs1 : s1 < 0x80 ∨ 0xBF < s1
      · rw [if_pos hs1]; exact Or.inr (Or.inl ⟨h1', rfl⟩)
      · rw [if_neg hs1]
        refine Or.inr (Or.inr (Or.inl ⟨s1, t1, rfl, ?_, rfl⟩))
        simp only [isCharacter, isContinuation, Bool.and_eq_true, decide_eq_true_eq]
        omega
  by_cases c3 : s0 ≤ 0xEF
  · match t with
    | [] => exact Or.inr (Or.inl ⟨h1', decodeRune_three_short s0 _ (by omega) (by simp)⟩)
    | [s1] => exact Or.inr (Or.inl ⟨h1', decodeRune_three_short s0 _ (by omega) (by simp)⟩)
    | s1 :: s2 :: t2 =>
      rw [decodeRune_three s0 s1 s2 t2 (by omega)]
      by_cases hs1 : s1 < (if s0 = 0xE0 then 0xA0 else 0x80) ∨
          (if s0 = 0xED then 0x9F else 0xBF) < s1
      · rw [if_pos hs1]; exact Or.inr (Or.inl ⟨h1', rfl⟩)
      rw [if_neg hs1]
      by_cases hs2 : s2 < 0x80 ∨ 0xBF < s2
      · rw [if_pos hs2]; exact Or.inr (Or.inl ⟨h1', rfl⟩)
      rw [if_neg hs2]
      refine Or.inr (Or.inr (Or.inr (Or.inl ⟨s1, s2, t2, rfl, ?_, rfl⟩)))
      simp only [isCharacter, isContinuation, Bool.or_eq_true, Bool.and_eq_true, beq_iff_eq,
        decide_eq_true_eq]
      split_ifs at hs1 <;> omega
  · match t with
    | [] => exact Or.inr (Or.inl ⟨h1', decodeRune_four_short s0 _ (by omega) (by simp)⟩)
    | [s1] => exact Or.inr (Or.inl ⟨h1', decodeRune_four_short s0 _ (by omega) (by simp)⟩)
    | [s1, s2] =>
      exact Or.inr (Or.inl ⟨h1', decodeRune_four_short s0 _ (by omega) (by simp)⟩)
    | s1 :: s2 :: s3 :: t3 =>
      rw [decodeRune_four s0 s1 s2 s3 t3 (by omega)]
      by_cases hs1 : s1 < (if s0 = 0xF0 then 0x90 else 0x80) ∨
          (if s0 = 0xF4 then 0x8F else 0xBF) < s1
      · rw [if_pos hs1]; exact Or.inr (Or.inl ⟨h1', rfl⟩)
      rw [if_neg hs1]
      by_cases hs2 : s2 < 0x80 ∨ 0xBF < s2
      · rw [if_pos hs2]; exact Or.inr (Or.inl ⟨h1', rfl⟩)
      rw [if_neg hs2]
      by_cases hs3 : s3 < 0x80 ∨ 0xBF < s3
      · rw [if_pos hs3]; exact Or.inr (Or.inl ⟨h1', rfl⟩)
      rw [if_neg hs3]
      refine Or.inr (Or.inr (Or.inr (Or.inr ⟨s1, s2, s3, t3, rfl, ?_, rfl⟩)))
      simp only [isCharacter, isContinuation, Bool.or_eq_true, Bool.and_eq_true, beq_iff_eq,
        decide_eq_true_eq]
      split_ifs at hs1 <;> omega

theorem isSpace_iff (r : Nat) : isSpace r = true ↔
    ((9 ≤ r ∧ r ≤ 13) ∨ r = 32 ∨ r = 0x85 ∨ r = 0xA0 ∨ r = 0x1680 ∨
      (0x2000 ≤ r ∧ r ≤ 0x200A) ∨ r = 0x2028 ∨ r = 0x2029 ∨ r = 0x202F ∨ r = 0x205F ∨
      r = 0x3000) := by
  unfold isSpace
  split
  · simp only [Bool.or_eq_true, beq_iff_eq]
    omega
  · simp only [Bool.or_eq_true, Bool.and_eq_true, beq_iff_eq, decide_eq_true_eq]
    omega

theorem space_two (s0 s1 : Nat) (hc : isCharacter [s0, s1] = true)
    (h : isSpace (s0 % 32 * 64 + s1 % 64) = true) : isSpaceChar [s0, s1] = true := by
  rw [isSpace_iff] at h
  simp only [isCharacter, isContinuation, Bool.and_eq_true, decide_eq_true_eq] at hc
  simp only [isSpaceChar, Bool.or_eq_true, Bool.and_eq_true, beq_iff_eq]
  obtain ⟨⟨h1, h2⟩, h3, h4⟩ := hc
  rcases h with h | h | h | h | h | h | h | h | h | h | h
  all_goals omega

theorem space_three (s0 s1 s2 : Nat) (hc : isCharacter [s0, s1, s2] = true)
    (h : isSpace (s0 % 16 * 4096 + s1 % 64 * 64 + s2 % 64) = true) :
    isSpaceChar [s0, s1, s2] = true := by
  rw [isSpace_iff] at h
  simp only [isCharacter, isContinuation, Bool.or_eq_true, Bool.and_eq_true, beq_iff_eq,
    decide_eq_true_eq] at hc
  obtain ⟨hc, h3, h4⟩ := hc
  have h0 : 0xE0 ≤ s0 ∧ s0 ≤ 0xEF ∧ 0x80 ≤ s1 ∧ s1 ≤ 0xBF := by omega
  have h5 : s0 = 0xE0 → 0xA0 ≤ s1 := by omega
  clear hc
  have e0 : s0 % 16 = s0 - 0xE0 := by omega
  have e1 : s1 % 64 = s1 - 0x80 := by omega
  have e2 : s2 % 64 = s2 - 0x80 := by omega
  rw [e0, e1, e2] at h
  clear e0 e1 e2
  have key : (s0 = 0xE1 ∧ s1 = 0x9A ∧ s2 = 0x80) ∨
      (s0 = 0xE2 ∧ s1 = 0x80 ∧ 0x80 ≤ s2 ∧ s2 ≤ 0x8A) ∨
      (s0 = 0xE2 ∧ s1 = 0x80 ∧ s2 = 0xA8) ∨ (s0 = 0xE2 ∧ s1 = 0x80 ∧ s2 = 0xA9) ∨
      (s0 = 0xE2 ∧ s1 = 0x80 ∧ s2 = 0xAF) ∨ (s0 = 0xE2 ∧ s1 = 0x81 ∧ s2 = 0x9F) ∨
      (s0 = 0xE3 ∧ s1 = 0x80 ∧ s2 = 0x80) := by
    rcases h with h | h | h | h | h | h | h | h | h | h | h
    · exfalso; omega
    · exfalso; omega
    · exfalso; omega
    · exfalso; omega
    · exact Or.inl (by omega)
    · exact Or.inr (Or.inl (by omega))
    · exact Or.inr (Or.inr (Or.inl (by omega)))
    · exact Or.inr (Or.inr (Or.inr (Or.inl (by omega))))
    · exact Or.inr (Or.inr (Or.inr (Or.inr (Or.inl (by omega)))))
    · exact Or.inr (Or.inr (Or.inr (Or.inr (Or.inr (Or.inl (by omega))))))
    · exact Or.inr (Or.inr (Or.inr (Or.inr (Or.inr (Or.inr (by omega))))))
  rcases key with ⟨rfl, rfl, rfl⟩ | ⟨rfl, rfl, k1, k2⟩ | ⟨rfl, rfl, rfl⟩ | ⟨rfl, rfl, rfl⟩ |
    ⟨rfl, rfl, rfl⟩ | ⟨rfl, rfl, rfl⟩ | ⟨rfl, rfl, rfl⟩
  · rfl
  · simp [isSpaceChar, k1, k2]
  · rfl
  · rfl
  · rfl
  · rfl
  · rfl

theorem space_four (s0 s1 s2 s3 : Nat) (hc : isCharacter [s0, s1, s2, s3] = true) :
    isSpace (s0 % 8 * 262144 + s1 % 64 * 4096 + s2 % 64 * 64 + s3 % 64) = false := by
  simp only [isCharacter, isContinuation, Bool.or_eq_true, Bool.and_eq_true, beq_iff_eq,
    decide_eq_true_eq] at hc
  obtain ⟨⟨hc, h3, h4⟩, h5, h6⟩ := hc
  have h0 : 0x10000 ≤ s0 % 8 * 262144 + s1 % 64 * 4096 + s2 % 64 * 64 + s3 % 64 := by
    rcases hc with hc | hc | hc
    all_goals omega
  rw [Bool.eq_false_iff]
  intro h
  rw [isSpace_iff] at h
  omega

/-- When the rune that `decodeRune` reads is white space, the bytes that it covers are
a white-space character. -/
theorem decodeRune_space (s0 : Nat) (t : List Nat)
    (h : isSpace (decodeRune (s0 :: t)).1 = true) :
    isSpaceChar ((s0 :: t).take (decodeRune (s0 :: t)).2) = true := by
  rcases decodeRune_cases s0 t with ⟨h0, hd⟩ | ⟨_, hd⟩ | ⟨s1, t1, rfl, hc, hd⟩ |
      ⟨s1, s2, t2, rfl, hc, hd⟩ | ⟨s1, s2, s3, t3, rfl, hc, hd⟩
  · rw [hd] at h ⊢
    rw [isSpace_iff] at h
    simp only [List.take_succ_cons, List.take_zero, isSpaceChar, Bool.or_eq_true,
      Bool.and_eq_true, beq_iff_eq, decide_eq_true_eq]
    omega
  · rw [hd] at h
    exact absurd h (by decide)
  · rw [hd] at h ⊢
    exact space_two s0 s1 hc h
  · rw [hd] at h ⊢
    exact space_three s0 s1 s2 hc h
  · rw [hd] at h
    rw [space_four s0 s1 s2 s3 hc] at h
    exact absurd h (by decide)

/-- A string that starts with a white-space character: `decodeRune` reads a white-space
rune over exactly that character. -/
theorem decodeRune_of_space (q z : List Nat) (hq : isSpaceChar q = true) :
    isSpace (decodeRune (q ++ z)).1 = true ∧ (decodeRune (q ++ z)).2 = q.length := by
  match q, hq with
  | [a], hq =>
    simp only [isSpaceChar, Bool.or_eq_true, Bool.and_eq_true, beq_iff_eq,
      decide_eq_true_eq] at hq
    rw [List.singleton_append, decodeRune_ascii a z (by omega), isSpace_iff]
    exact ⟨by omega, rfl⟩
  | [a, b], hq =>
    simp only [isSpaceChar, Bool.or_eq_true, Bool.and_eq_true, beq_iff_eq,
      decide_eq_true_eq] at hq
    show isSpace (decodeRune (a :: b :: z)).1 = true ∧ (decodeRune (a :: b :: z)).2 = 2
    rw [decodeRune_two a b z (by omega), if_neg (by omega), isSpace_iff]
    exact ⟨by omega, rfl⟩
  | [a, b, c], hq =>
    simp only [isSpaceChar, Bool.or_eq_true, Bool.and_eq_true, beq_iff_eq,
      decide_eq_true_eq] at hq
    show isSpace (decodeRune (a :: b :: c :: z)).1 = true ∧
      (decodeRune (a :: b :: c :: z)).2 = 3
    rw [decodeRune_three a b c z (by omega)]
    have e1 : ¬ a = 0xE0 := by omega
    have e2 : ¬ a = 0xED := by omega
    rw [if_neg e1, if_neg e2, if_neg (by omega), if_neg (by omega), isSpace_iff]
    exact ⟨by omega, rfl⟩
  | [], hq => simp [isSpaceChar] at hq
  | _ :: _ :: _ :: _ :: _, hq => simp [isSpaceChar] at hq

theorem decodeRune_char_two (s0 s1 : Nat) (z : List Nat) (hc : isCharacter [s0, s1] = true) :
    decodeRune (s0 :: s1 :: z) = (s0 % 32 * 64 + s1 % 64, 2) := by
  simp only [isCharacter, isContinuation, Bool.and_eq_true, decide_eq_true_eq] at hc
  rw [decodeRune_two s0 s1 z (by omega), if_neg (by omega)]

theorem decodeRune_char_three (s0 s1 s2 : Nat) (z : List Nat)
    (hc : isCharacter [s0, s1, s2] = true) :
    decodeRune (s0 :: s1 :: s2 :: z) = (s0 % 16 * 4096 + s1 % 64 * 64 + s2 % 64, 3) := by
  simp only [isCharacter, isContinuation, Bool.or_eq_true, Bool.and_eq_true, beq_iff_eq,
    decide_eq_true_eq] at hc
  rw [decodeRune_three s0 s1 s2 z (by omega)]
  have h1 : ¬ (s1 < (if s0 = 0xE0 then 0xA0 else 0x80) ∨
      (if s0 = 0xED then 0x9F else 0xBF) < s1) := by
    split_ifs <;> omega
  rw [if_neg h1, if_neg (by omega)]

theorem decodeRune_char_four (s0 s1 s2 s3 : Nat) (z : List Nat)
    (hc : isCharacter [s0, s1, s2, s3] = true) :
    decodeRune (s0 :: s1 :: s2 :: s3 :: z) =
      (s0 % 8 * 262144 + s1 % 64 * 4096 + s2 % 64 * 64 + s3 % 64, 4) := by
  simp only [isCharacter, isContinuation, Bool.or_eq_true, Bool.and_eq_true, beq_iff_eq,
    decide_eq_true_eq] at hc
  rw [decodeRune_four s0 s1 s2 s3 z (by omega)]
  have h1 : ¬ (s1 < (if s0 = 0xF0 then 0x90 else 0x80) ∨
      (if s0 = 0xF4 then 0x8F else 0xBF) < s1) := by
    split_ifs <;> omega
  rw [if_neg h1, if_neg (by omega), if_neg (by omega)]

/-- The size that `decodeRune` reports is at least one and at most the length. -/
theorem decodeRune_size (s0 : Nat) (t : List Nat) :
    1 ≤ (decodeRune (s0 :: t)).2 ∧ (decodeRune (s0 :: t)).2 ≤ (s0 :: t).length := by
  rcases decodeRune_cases s0 t with ⟨_, hd⟩ | ⟨_, hd⟩ | ⟨s1, t1, rfl, _, hd⟩ |
      ⟨s1, s2, t2, rfl, _, hd⟩ | ⟨s1, s2, s3, t3, rfl, _, hd⟩
  all_goals rw [hd]; simp only [List.length_cons]; omega

/-- A rune that fills a string of two bytes or more is read the same with more bytes
behind it. -/
theorem decodeRune_append (y z : List Nat) (r : Nat) (h : decodeRune y = (r, y.length))
    (h2 : 2 ≤ y.length) : decodeRune (y ++ z) = (r, y.length) := by
  match y, h, h2 with
  | s0 :: t, h, h2 =>
    rcases decodeRune_cases s0 t with ⟨_, hd⟩ | ⟨_, hd⟩ | ⟨s1, t1, rfl, hc, hd⟩ |
      ⟨s1, s2, t2, rfl, hc, hd⟩ | ⟨s1, s2, s3, t3, rfl, hc, hd⟩
    · rw [hd, Prod.mk.injEq] at h
      simp only [List.length_cons] at h h2
      omega
    · rw [hd, Prod.mk.injEq] at h
      simp only [List.length_cons] at h h2
      omega
    · rw [hd, Prod.mk.injEq] at h
      simp only [List.length_cons] at h
      have ht : t1 = [] := List.eq_nil_of_length_eq_zero (by omega)
      subst ht
      rw [← h.1]
      exact decodeRune_char_two s0 s1 z hc
    · rw [hd, Prod.mk.injEq] at h
      simp only [List.length_cons] at h
      have ht : t2 = [] := List.eq_nil_of_length_eq_zero (by omega)
      subst ht
      rw [← h.1]
      exact decodeRune_char_three s0 s1 s2 z hc
    · rw [hd, Prod.mk.injEq] at h
      simp only [List.length_cons] at h
      have ht : t3 = [] := List.eq_nil_of_length_eq_zero (by omega)
      subst ht
      rw [← h.1]
      exact decodeRune_char_four s0 s1 s2 s3 z hc

/-- A byte of 80 or more that no continuation byte follows is read as an error of
width one. -/
theorem decodeRune_lone (l : Nat) (z : List Nat) (hl : 0x80 ≤ l)
    (hz : ∀ b z1, z = b :: z1 → b < 0x80 ∨ 0xBF < b) :
    decodeRune (l :: z) = (RuneError, 1) := by
  rcases decodeRune_cases l z with ⟨h0, _⟩ | ⟨_, hd⟩ | ⟨s1, t1, rfl, hc, _⟩ |
      ⟨s1, s2, t2, rfl, hc, _⟩ | ⟨s1, s2, s3, t3, rfl, hc, _⟩
  · omega
  · exact hd
  · have := hz s1 t1 rfl
    simp only [isCharacter, isContinuation, Bool.and_eq_true, decide_eq_true_eq] at hc
    omega
  · have := hz s1 _ rfl
    simp only [isCharacter, isContinuation, Bool.or_eq_true, Bool.and_eq_true, beq_iff_eq,
      decide_eq_true_eq] at hc
    omega
  · have := hz s1 _ rfl
    simp only [isCharacter, isContinuation, Bool.or_eq_true, Bool.and_eq_true, beq_iff_eq,
      decide_eq_true_eq] at hc
    omega

/-- A white-space character starts with a byte that is not a continuation byte. -/
theorem isSpaceChar_head (q : List Nat) (hq : isSpaceChar q = true) :
    ∃ b t, q = b :: t ∧ (b < 0x80 ∨ 0xBF < b) := by
  match q, hq with
  | [a], hq =>
    simp only [isSpaceChar, Bool.or_eq_true, Bool.and_eq_true, beq_iff_eq,
      decide_eq_true_eq] at hq
    exact ⟨a, [], rfl, by omega⟩
  | [a, b], hq =>
    simp only [isSpaceChar, Bool.or_eq_true, Bool.and_eq_true, beq_iff_eq,
      decide_eq_true_eq] at hq
    exact ⟨a, [b], rfl, by omega⟩
  | [a, b, c], hq =>
    simp only [isSpaceChar, Bool.or_eq_true, Bool.and_eq_true, beq_iff_eq,
      decide_eq_true_eq] at hq
    exact ⟨a, [b, c], rfl, by omega⟩
  | [], hq => simp [isSpaceChar] at hq
  | _ :: _ :: _ :: _ :: _, hq => simp [isSpaceChar] at hq

theorem spaces_head (suf : List (List Nat)) (hs : ∀ q ∈ suf, isSpaceChar q = true) :
    ∀ b z1, suf.flatten = b :: z1 → b < 0x80 ∨ 0xBF < b := by
  intro b z1 h
  cases suf with
  | nil => simp at h
  | cons q rest =>
    obtain ⟨b0, t, rfl, hb⟩ := isSpaceChar_head q (hs q (List.mem_cons_self _ _))
    simp only [List.flatten_cons, List.cons_append, List.cons.injEq] at h
    rw [← h.1]
    exact hb

theorem lastRuneStart_le (s : GoString) (lim : Int) :
    ∀ fuel start, lastRuneStart s lim fuel start ≤ start := by
  intro fuel
  induction fuel with
  | zero => intro start; simp [lastRuneStart]
  | succ n ih =>
    intro start
    simp only [lastRuneStart]
    split_ifs
    · exact le_refl _
    · have := ih (start - 1)
      omega
    · exact le_refl _

/-- What `decodeLastRune` reads at the end of a string: a byte below 80, an error of
width one at a byte of 80 or more, or a rune of two bytes or more that `decodeRune` reads
over exactly the last bytes. -/
theorem decodeLastRune_cases (a : List Nat) (l : Nat) :
    ∃ p y, a ++ [l] = p ++ y ∧ (decodeLastRune (a ++ [l])).2 = y.length ∧
      ((y = [l] ∧ l < 0x80 ∧ (decodeLastRune (a ++ [l])).1 = l) ∨
       (y = [l] ∧ 0x80 ≤ l ∧ (decodeLastRune (a ++ [l])).1 = RuneError) ∨
       (2 ≤ y.length ∧ decodeRune y = decodeLastRune (a ++ [l]))) := by
  have hlen : (a ++ [l]).length = a.length + 1 := by simp
  have hlast : (a ++ [l]).getD ((a ++ [l]).length - 1) 0 = l := by
    rw [hlen, Nat.add_sub_cancel, List.getD_eq_getElem?_getD, List.getElem?_append_right (le_refl _)]
    simp
  unfold decodeLastRune
  rw [if_neg (by omega)]
  simp only [hlast]
  by_cases hl : l < 0x80
  · rw [if_pos hl]
    exact ⟨a, [l], rfl, rfl, Or.inl ⟨rfl, hl, rfl⟩⟩
  rw [if_neg hl]
  have hb := lastRuneStart_le (a ++ [l]) (max (((a ++ [l]).length : Int) - 4) 0) 4
    (((a ++ [l]).length : Int) - 2)
  generalize lastRuneStart (a ++ [l]) (max (((a ++ [l]).length : Int) - 4) 0) 4
    (((a ++ [l]).length : Int) - 2) = st at hb
  have hst : (max st 0).toNat ≤ a.length := by
    rw [hlen] at hb
    omega
  generalize (max st 0).toNat = start at hst
  rcases hdr : decodeRune (List.drop start (a ++ [l])) with ⟨r, size⟩
  simp only []
  by_cases hm : start + size ≠ (a ++ [l]).length
  · rw [if_pos hm]
    exact ⟨a, [l], rfl, rfl, Or.inr (Or.inl ⟨rfl, by omega, rfl⟩)⟩
  · rw [if_neg hm]
    have hm' : start + size = a.length + 1 := by rw [hlen] at hm; omega
    have hylen : (List.drop start (a ++ [l])).length = size := by
      rw [List.length_drop, hlen]; omega
    refine ⟨List.take start (a ++ [l]), List.drop start (a ++ [l]),
      (List.take_append_drop _ _).symm, hylen.symm, ?_⟩
    by_cases h1 : size = 1
    · have hd : List.drop start (a ++ [l]) = [l] := by
        have : start = a.length := by omega
        rw [this, List.drop_left]
      refine Or.inr (Or.inl ⟨hd, by omega, ?_⟩)
      rw [hd, decodeRune_single l (by omega)] at hdr
      exact (congrArg Prod.fst hdr).symm
    · exact Or.inr (Or.inr ⟨by omega, hdr⟩)

/-- When the rune that `decodeLastRune` reads is white space, the bytes that it covers
are a white-space character at the end of the string. -/
theorem decodeLastRune_space (a : List Nat) (l : Nat)
    (h : isSpace (decodeLastRune (a ++ [l])).1 = true) :
    ∃ p q, a ++ [l] = p ++ q ∧ isSpaceChar q = true ∧
      (decodeLastRune (a ++ [l])).2 = q.length := by
  obtain ⟨p, y, hxy, hsz, hc⟩ := decodeLastRune_cases a l
  refine ⟨p, y, hxy, ?_, hsz⟩
  rcases hc with ⟨rfl, hl, hr⟩ | ⟨rfl, hl, hr⟩ | ⟨h2, hd⟩
  · rw [hr, isSpace_iff] at h
    simp only [isSpaceChar, Bool.or_eq_true, Bool.and_eq_true, beq_iff_eq, decide_eq_true_eq]
    omega
  · rw [hr] at h
    exact absurd h (by decide)
  · match y, h2, hd, hsz with
    | s0 :: t, h2, hd, hsz =>
      have h3 := decodeRune_space s0 t (by rw [hd]; exact h)
      rw [hd, hsz, List.take_length] at h3
      exact h3

theorem lastRuneStart_succ (s : GoString) (lim : Int) (fuel : Nat) (start : Int) :
    lastRuneStart s lim (fuel + 1) start =
      if lim ≤ start then
        if runeStart (s.getD start.toNat 0) then start
        else lastRuneStart s lim fuel (start - 1)
      else start := rfl

theorem getD_append_at (p q : List Nat) (k : Nat) :
    (p ++ q).getD (p.length + k) 0 = q.getD k 0 := by
  simp [List.getD_eq_getElem?_getD, List.getElem?_append_right]

theorem decodeLastRune_at (p q : List Nat) (r : Nat) (hq : q ≠ [])
    (hlast : 0x80 ≤ q.getD (q.length - 1) 0)
    (hst : lastRuneStart (p ++ q) (max (((p ++ q).length : Int) - 4) 0) 4
      (((p ++ q).length : Int) - 2) = (p.length : Int))
    (hd : decodeRune q = (r, q.length)) : decodeLastRune (p ++ q) = (r, q.length) := by
  have hpos : 0 < q.length := List.length_pos.mpr hq
  unfold decodeLastRune
  have hl : (p ++ q).getD ((p ++ q).length - 1) 0 = q.getD (q.length - 1) 0 := by
    rw [← getD_append_at p q (q.length - 1), List.length_append]
    congr 1
    omega
  rw [if_neg (by rw [List.length_append]; omega)]
  simp only [hl, hst]
  rw [if_neg (by omega)]
  have h0 : (max (p.length : Int) 0).toNat = p.length := by omega
  rw [h0, List.drop_left, hd]
  simp only [List.length_append, ne_eq, not_true_eq_false, if_false]

/-- A string that ends with a white-space character: `decodeLastRune` reads a
white-space rune over exactly that character. -/
theorem decodeLastRune_of_space (p q : List Nat) (hq : isSpaceChar q = true) :
    isSpace (decodeLastRune (p ++ q)).1 = true ∧ (decodeLastRune (p ++ q)).2 = q.length := by
  have hdq := decodeRune_of_space q [] hq
  rw [List.append_nil] at hdq
  match q, hq, hdq with
  | [a], hq, _ =>
    simp only [isSpaceChar, Bool.or_eq_true, Bool.and_eq_true, beq_iff_eq,
      decide_eq_true_eq] at hq
    have hl : (p ++ [a]).getD ((p ++ [a]).length - 1) 0 = a := by
      have := getD_append_at p [a] 0
      simp at this
      simp [this]
    unfold decodeLastRune
    rw [if_neg (by simp)]
    simp only [hl]
    rw [if_pos (by omega), isSpace_iff]
    exact ⟨by omega, rfl⟩
  | [a, b], hq, hdq =>
    simp only [isSpaceChar, Bool.or_eq_true, Bool.and_eq_true, beq_iff_eq,
      decide_eq_true_eq] at hq
    have hst : lastRuneStart (p ++ [a, b]) (max (((p ++ [a, b]).length : Int) - 4) 0) 4
        (((p ++ [a, b]).length : Int) - 2) = (p.length : Int) := by
      have e1 : (((p ++ [a, b]).length : Int) - 2) = (p.length : Int) := by
        simp only [List.length_append, List.length_cons, List.length_nil]
        omega
      have e2 : (p ++ [a, b]).getD p.length 0 = a := getD_append_at p [a, b] 0
      rw [e1]
      simp only [lastRuneStart, Int.toNat_ofNat, e2]
      rw [if_pos (by simp only [List.length_append, List.length_cons, List.length_nil]; omega)]
      obtain ⟨rfl, _⟩ := hq
      rfl
    have hd : decodeLastRune (p ++ [a, b]) = ((decodeRune [a, b]).1, [a, b].length) := by
      apply decodeLastRune_at p [a, b] _ (by simp) _ hst
      · rw [← hdq.2]
      · show 0x80 ≤ b
        omega
    rw [hd]
    exact ⟨hdq.1, rfl⟩
  | [a, b, c], hq, hdq =>
    simp only [isSpaceChar, Bool.or_eq_true, Bool.and_eq_true, beq_iff_eq,
      decide_eq_true_eq] at hq
    have hst : lastRuneStart (p ++ [a, b, c]) (max (((p ++ [a, b, c]).length : Int) - 4) 0) 4
        (((p ++ [a, b, c]).length : Int) - 2) = (p.length : Int) := by
      have e1 : (((p ++ [a, b, c]).length : Int) - 2) = ((p.length + 1 : Nat) : Int) := by
        simp only [List.length_append, List.length_cons, List.length_nil]
        omega
      have e2 : (p ++ [a, b, c]).getD p.length 0 = a := getD_append_at p [a, b, c] 0
      have e3 : (p ++ [a, b, c]).getD (p.length + 1) 0 = b := getD_append_at p [a, b, c] 1
      have e4 : ((p.length + 1 : Nat) : Int) - 1 = (p.length : Int) := by omega
      have hb : runeStart b = false := by
        have : b = 0x9A ∨ b = 0x80 ∨ b = 0x81 := by omega
        rcases this with rfl | rfl | rfl <;> rfl
      have ha : runeStart a = true := by
        have : a = 0xE1 ∨ a = 0xE2 ∨ a = 0xE3 := by omega
        rcases this with rfl | rfl | rfl <;> rfl
      have hlen : ((p ++ [a, b, c]).length : Int) = (p.length : Int) + 3 := by
        simp only [List.length_append, List.length_cons, List.length_nil]
        omega
      rw [e1, hlen, lastRuneStart_succ, if_pos (by omega), Int.toNat_ofNat, e3, hb,
        if_neg (by decide), e4, lastRuneStart_succ, if_pos (by omega), Int.toNat_ofNat, e2, ha,
        if_pos rfl]
    have hd : decodeLastRune (p ++ [a, b, c]) =
        ((decodeRune [a, b, c]).1, [a, b, c].length) := by
      apply decodeLastRune_at p [a, b, c] _ (by simp) _ hst
      · rw [← hdq.2]
      · show 0x80 ≤ c
        omega
    rw [hd]
    exact ⟨hdq.1, rfl⟩
  | [], hq, _ => simp [isSpaceChar] at hq
  | _ :: _ :: _ :: _ :: _, hq, _ => simp [isSpaceChar] at hq

theorem isSpaceChar_ne_nil (q : List Nat) (hq : isSpaceChar q = true) : q ≠ [] := by
  obtain ⟨b, t, rfl, _⟩ := isSpaceChar_head q hq
  exact List.cons_ne_nil _ _

/-- The loop of `TrimLeftFunc` removes white-space characters from the front and stops
at a string that does not start with one. -/
theorem trimLeftLoop_spec : ∀ (fuel : Nat) (s : GoString), s.length ≤ fuel →
    ∃ pre : List (List Nat), (∀ q ∈ pre, isSpaceChar q = true) ∧
      s = pre.flatten ++ trimLeftLoop isSpace fuel s ∧
      (∀ q, isSpaceChar q = true → ¬ q <+: trimLeftLoop isSpace fuel s) := by
  intro fuel
  induction fuel with
  | zero =>
    intro s hs
    have h0 : s = [] := List.eq_nil_of_length_eq_zero (by omega)
    subst h0
    refine ⟨[], by simp, by simp [trimLeftLoop], ?_⟩
    intro q hq hpre
    simp only [trimLeftLoop, List.prefix_nil] at hpre
    exact isSpaceChar_ne_nil q hq hpre
  | succ n ih =>
    intro s hs
    cases s with
    | nil =>
      refine ⟨[], by simp, by simp [trimLeftLoop], ?_⟩
      intro q hq hpre
      simp only [trimLeftLoop, List.prefix_nil] at hpre
      exact isSpaceChar_ne_nil q hq hpre
    | cons s0 t =>
      simp only [trimLeftLoop]
      by_cases hsp : isSpace (decodeRune (s0 :: t)).1 = true
      · rw [if_pos hsp]
        have hq := decodeRune_space s0 t hsp
        have hsz := decodeRune_size s0 t
        obtain ⟨pre, hpre, heq, hno⟩ := ih ((s0 :: t).drop (decodeRune (s0 :: t)).2)
          (by rw [List.length_drop]; omega)
        refine ⟨(s0 :: t).take (decodeRune (s0 :: t)).2 :: pre, ?_, ?_, hno⟩
        · intro q hmem
          rcases List.mem_cons.mp hmem with rfl | h
          · exact hq
          · exact hpre q h
        · rw [List.flatten_cons, List.append_assoc, ← heq, List.take_append_drop]
      · rw [if_neg hsp]
        refine ⟨[], by simp, by simp, ?_⟩
        intro q hq hpre
        obtain ⟨z, hz⟩ := hpre
        have h1 := (decodeRune_of_space q z hq).1
        rw [hz] at h1
        exact hsp h1

/-- The backward loop of `TrimRightFunc`: it passes over white-space characters at the
end and stops where the last rune is not white space. -/
theorem lastIndexFunc_spec (L : GoString) : ∀ (fuel i : Nat), i < fuel → i ≤ L.length →
    (∃ suf : List (List Nat), (∀ q ∈ suf, isSpaceChar q = true) ∧ L.drop i = suf.flatten) →
    (lastIndexFunc isSpace L fuel i = none →
      ∃ suf : List (List Nat), (∀ q ∈ suf, isSpaceChar q = true) ∧ L = suf.flatten) ∧
    (∀ j, lastIndexFunc isSpace L fuel i = some j →
      ∃ (e : Nat) (suf : List (List Nat)), 0 < e ∧ e ≤ L.length ∧
        (∀ q ∈ suf, isSpaceChar q = true) ∧ L.drop e = suf.flatten ∧
        isSpace (decodeLastRune (L.take e)).1 = false ∧
        j = e - (decodeLastRune (L.take e)).2) := by
  intro fuel
  induction fuel with
  | zero => intro i hi; omega
  | succ n ih =>
    intro i hi hiL hsuf
    by_cases h0 : i = 0
    · subst h0
      simp only [lastIndexFunc, if_true]
      refine ⟨fun _ => ?_, fun j hj => by simp at hj⟩
      simpa using hsuf
    · rcases hdl : decodeLastRune (L.take i) with ⟨r, size⟩
      simp only [lastIndexFunc, if_neg h0, hdl]
      by_cases hsp : isSpace r = true
      · rw [if_pos hsp]
        have hne : L.take i ≠ [] := by
          intro h
          have := congrArg List.length h
          rw [List.length_take, List.length_nil] at this
          omega
        rcases List.eq_nil_or_concat (L.take i) with h | ⟨a, l, hal⟩
        · exact absurd h hne
        rw [List.concat_eq_append] at hal
        have hsp2 : isSpace (decodeLastRune (a ++ [l])).1 = true := by
          rw [← hal, hdl]; exact hsp
        obtain ⟨p, q, hpq, hq, hsz⟩ := decodeLastRune_space a l hsp2
        rw [← hal, hdl] at hsz
        simp only at hsz
        rw [← hal] at hpq
        have hlen : i = p.length + q.length := by
          have := congrArg List.length hpq
          rw [List.length_take, List.length_append] at this
          omega
        have hqpos : 0 < q.length := List.length_pos.mpr (isSpaceChar_ne_nil q hq)
        obtain ⟨suf, hs1, hs2⟩ := hsuf
        have hL : L = p ++ (q ++ suf.flatten) := by
          rw [← List.append_assoc, ← hpq, ← hs2, List.take_append_drop]
        have hi2 : i - size = p.length := by omega
        apply ih (i - size) (by omega) (by omega)
        refine ⟨q :: suf, ?_, ?_⟩
        · intro q1 hmem
          rcases List.mem_cons.mp hmem with rfl | h
          · exact hq
          · exact hs1 q1 h
        · rw [hi2, List.flatten_cons]
          conv_lhs => rw [hL]
          rw [List.drop_left]
      · rw [if_neg hsp]
        refine ⟨fun h => by simp at h, fun j hj => ?_⟩
        obtain ⟨suf, hs1, hs2⟩ := hsuf
        refine ⟨i, suf, by omega, hiL, hs1, hs2, ?_, ?_⟩
        · rw [hdl]
          simpa using hsp
        · rw [hdl]
          simp only [Option.some.injEq] at hj
          exact hj.symm

/-- The end that `TrimRightFunc` computes from the index of the last rune that stays:
the string up to the end of that rune. -/
theorem trimRight_step (p y z : List Nat) (r : Nat)
    (hz : ∀ b z1, z = b :: z1 → b < 0x80 ∨ 0xBF < b)
    (hc : (∃ l, y = [l] ∧ l < 0x80) ∨ (∃ l, y = [l] ∧ 0x80 ≤ l) ∨
      (2 ≤ y.length ∧ decodeRune y = (r, y.length))) :
    (if 0x80 ≤ (p ++ (y ++ z)).getD p.length 0
      then (p ++ (y ++ z)).take (p.length + (decodeRune ((p ++ (y ++ z)).drop p.length)).2)
      else (p ++ (y ++ z)).take (p.length + 1)) = p ++ y := by
  have hg : (p ++ (y ++ z)).getD p.length 0 = (y ++ z).getD 0 0 := getD_append_at p (y ++ z) 0
  have ht : ∀ k, (p ++ (y ++ z)).take (p.length + k) = p ++ (y ++ z).take k := by
    intro k
    rw [List.take_append]
  rw [hg, List.drop_left, ht, ht]
  rcases hc with ⟨l, rfl, hl⟩ | ⟨l, rfl, hl⟩ | ⟨h2, hd⟩
  · rw [if_neg (by simp; omega)]
    rfl
  · rw [if_pos (by simp; omega)]
    rw [List.singleton_append, decodeRune_lone l z hl hz]
    rfl
  · match y, h2, hd with
    | s0 :: t, h2, hd =>
      have h0 : 0x80 ≤ s0 := by
        by_contra hlt
        rw [decodeRune_ascii s0 t (by omega), Prod.mk.injEq] at hd
        omega
      rw [if_pos (by simp; omega), decodeRune_append (s0 :: t) z r hd h2, List.take_left]

/-- What `TrimRightFunc` does with the white-space test: white-space characters go
from the end, and what stays does not end with one. -/
theorem trimRightFunc_spec (L : GoString) :
    ∃ suf : List (List Nat), (∀ q ∈ suf, isSpaceChar q = true) ∧
      L = trimRightFunc isSpace L ++ suf.flatten ∧
      (∀ q, isSpaceChar q = true → ¬ q <:+ trimRightFunc isSpace L) := by
  have hspec := lastIndexFunc_spec L (L.length + 1) L.length (by omega) le_rfl
    ⟨[], by simp, by simp⟩
  unfold trimRightFunc
  cases hli : lastIndexFunc isSpace L (L.length + 1) L.length with
  | none =>
    obtain ⟨suf, hs1, hs2⟩ := hspec.1 hli
    refine ⟨suf, hs1, by simpa using hs2, ?_⟩
    intro q hq hsuf
    simp only [List.suffix_nil] at hsuf
    exact isSpaceChar_ne_nil q hq hsuf
  | some j =>
    obtain ⟨e, suf, he0, heL, hs1, hs2, hns, hj⟩ := hspec.2 j hli
    simp only []
    have hne : L.take e ≠ [] := by
      intro h
      have := congrArg List.length h
      rw [List.length_take, List.length_nil] at this
      omega
    rcases List.eq_nil_or_concat (L.take e) with h | ⟨a, l, hal⟩
    · exact absurd h hne
    rw [List.concat_eq_append] at hal
    obtain ⟨p, y, hpy, hsz, hc⟩ := decodeLastRune_cases a l
    rw [← hal] at hpy hsz hc
    have hlen : e = p.length + y.length := by
      have := congrArg List.length hpy
      rw [List.length_take, List.length_append] at this
      omega
    have hL : L = p ++ (y ++ suf.flatten) := by
      rw [← List.append_assoc, ← hpy, ← hs2, List.take_append_drop]
    have hjp : j = p.length := by
      rw [hj, hsz]
      omega
    have hstep := trimRight_step p y suf.flatten (decodeLastRune (L.take e)).1
      (spaces_head suf hs1) (by
        rcases hc with ⟨h1, h2, _⟩ | ⟨h1, h2, _⟩ | ⟨h1, h2⟩
        · exact Or.inl ⟨l, h1, h2⟩
        · exact Or.inr (Or.inl ⟨l, h1, h2⟩)
        · refine Or.inr (Or.inr ⟨h1, ?_⟩)
          rw [h2, ← hsz])
    rw [← hL, ← hjp, ← hpy] at hstep
    rw [hstep]
    refine ⟨suf, hs1, ?_, ?_⟩
    · rw [← hs2, List.take_append_drop]
    · intro q hq hsuf
      obtain ⟨p1, hp1⟩ := hsuf
      have h1 := (decodeLastRune_of_space p1 q hq).1
      rw [hp1, hns] at h1
      exact absurd h1 (by decide)

/-- What `trim` does: white-space characters go from both ends, and what stays neither
starts nor ends with one. -/
theorem trim_spec (v : GoString) : IsTrimOf v (trim v) := by
  obtain ⟨pre, hp1, hp2, hp3⟩ := trimLeftLoop_spec v.length v le_rfl
  obtain ⟨suf, hs1, hs2, hs3⟩ := trimRightFunc_spec (trimLeftFunc isSpace v)
  unfold trim
  refine ⟨⟨pre, suf, hp1, hs1, ?_⟩, ?_, hs3⟩
  · rw [List.append_assoc, ← hs2]
    exact hp2
  · intro q hq hpre
    apply hp3 q hq
    have hpre2 : trimRightFunc isSpace (trimLeftFunc isSpace v) <+: trimLeftFunc isSpace v :=
      ⟨suf.flatten, hs2.symm⟩
    exact hpre.trans hpre2

/-- No white-space character is the start of another one followed by more bytes. -/
theorem isSpaceChar_prefix_code (q1 q2 z1 z2 : List Nat) (h1 : isSpaceChar q1 = true)
    (h2 : isSpaceChar q2 = true) (h : q1 ++ z1 = q2 ++ z2) : q1 = q2 ∧ z1 = z2 := by
  have e1 := (decodeRune_of_space q1 z1 h1).2
  have e2 := (decodeRune_of_space q2 z2 h2).2
  rw [h, e2] at e1
  exact List.append_inj h e1.symm

/-- No white-space character is the end of another one preceded by more bytes. -/
theorem isSpaceChar_suffix_code (q1 q2 z1 z2 : List Nat) (h1 : isSpaceChar q1 = true)
    (h2 : isSpaceChar q2 = true) (h : z1 ++ q1 = z2 ++ q2) : z1 = z2 ∧ q1 = q2 := by
  have e1 := (decodeLastRune_of_space z1 q1 h1).2
  have e2 := (decodeLastRune_of_space z2 q2 h2).2
  rw [h, e2] at e1
  exact List.append_inj' h e1.symm

/-- The bytes of a white-space character after the first are continuation bytes. -/
theorem isSpaceChar_inner (q w t : List Nat) (c : Nat) (hq : isSpaceChar q = true)
    (hw : w ≠ []) (h : q = w ++ c :: t) : 0x80 ≤ c ∧ c ≤ 0xBF := by
  subst h
  match w, hw with
  | [x], _ =>
    match t with
    | [] =>
      simp only [List.singleton_append, isSpaceChar, Bool.or_eq_true, Bool.and_eq_true,
        beq_iff_eq] at hq
      omega
    | [y] =>
      simp only [List.singleton_append, isSpaceChar, Bool.or_eq_true, Bool.and_eq_true,
        beq_iff_eq, decide_eq_true_eq] at hq
      omega
    | _ :: _ :: _ => simp [isSpaceChar] at hq
  | [x, y], _ =>
    match t with
    | [] =>
      simp only [List.cons_append, List.nil_append, isSpaceChar, Bool.or_eq_true,
        Bool.and_eq_true, beq_iff_eq, decide_eq_true_eq] at hq
      omega
    | _ :: _ => simp [isSpaceChar] at hq
  | _ :: _ :: _ :: _, _ => simp [isSpaceChar] at hq

/-- A non-empty string that starts with no white-space character does not start with
one when white-space characters follow it. -/
theorem no_space_start (q rest w : List Nat) (S : List (List Nat))
    (hq : isSpaceChar q = true) (hS : ∀ q ∈ S, isSpaceChar q = true)
    (hw : ∀ q, isSpaceChar q = true → ¬ q <+: w) (hne : w ≠ []) :
    q ++ rest ≠ w ++ S.flatten := by
  intro h
  rcases List.append_eq_append_iff.mp h with ⟨a, h1, h2⟩ | ⟨a, h1, h2⟩
  · exact hw q hq ⟨a, h1.symm⟩
  · cases a with
    | nil =>
      rw [List.append_nil] at h1
      exact hw q hq ⟨[], by rw [List.append_nil, h1]⟩
    | cons c t =>
      have hc2 := isSpaceChar_inner q w t c hq hne h1
      have hh := spaces_head S hS c (t ++ rest) (by rw [h2]; rfl)
      omega

/-- A string of white-space characters only: a part of it that starts with no
white-space character, after white-space characters and before others, is empty. -/
theorem spaces_only (w : List Nat) (S2 : List (List Nat))
    (hS2 : ∀ q ∈ S2, isSpaceChar q = true)
    (hw : ∀ q, isSpaceChar q = true → ¬ q <+: w) :
    ∀ (X suf : List (List Nat)), (∀ q ∈ X, isSpaceChar q = true) →
      (∀ q ∈ suf, isSpaceChar q = true) →
      suf.flatten = X.flatten ++ (w ++ S2.flatten) → w = [] := by
  intro X
  induction X with
  | nil =>
    intro suf _ hsuf h
    by_contra hne
    cases suf with
    | nil =>
      simp only [List.flatten_nil, List.nil_append] at h
      exact hne (List.append_eq_nil.mp h.symm).1
    | cons q1 suf1 =>
      simp only [List.flatten_cons, List.flatten_nil, List.nil_append] at h
      exact no_space_start q1 suf1.flatten w S2 (hsuf q1 (List.mem_cons_self _ _)) hS2 hw hne h
  | cons q X1 ih =>
    intro suf hX hsuf h
    cases suf with
    | nil =>
      simp only [List.flatten_nil, List.flatten_cons, List.append_assoc] at h
      have := (List.append_eq_nil.mp h.symm).1
      exact absurd this (isSpaceChar_ne_nil q (hX q (List.mem_cons_self _ _)))
    | cons q1 suf1 =>
      simp only [List.flatten_cons, List.append_assoc] at h
      have h2 := (isSpaceChar_prefix_code q1 q _ _ (hsuf q1 (List.mem_cons_self _ _))
        (hX q (List.mem_cons_self _ _)) h).2
      exact ih suf1 (fun q0 h0 => hX q0 (List.mem_cons_of_mem _ h0))
        (fun q0 h0 => hsuf q0 (List.mem_cons_of_mem _ h0)) h2

/-- Removing white-space characters from the front: the two rests are the same. -/
theorem trim_unique_left (w1 w2 : List Nat) (S1 S2 : List (List Nat))
    (hS1 : ∀ q ∈ S1, isSpaceChar q = true) (hS2 : ∀ q ∈ S2, isSpaceChar q = true)
    (hw1 : ∀ q, isSpaceChar q = true → ¬ q <+: w1)
    (hw2 : ∀ q, isSpaceChar q = true → ¬ q <+: w2) (hn1 : w1 ≠ []) (hn2 : w2 ≠ []) :
    ∀ (P1 P2 : List (List Nat)), (∀ q ∈ P1, isSpaceChar q = true) →
      (∀ q ∈ P2, isSpaceChar q = true) →
      P1.flatten ++ (w1 ++ S1.flatten) = P2.flatten ++ (w2 ++ S2.flatten) →
      w1 ++ S1.flatten = w2 ++ S2.flatten := by
  intro P1
  induction P1 with
  | nil =>
    intro P2 _ hP2 h
    cases P2 with
    | nil => simpa using h
    | cons q P3 =>
      simp only [List.flatten_nil, List.nil_append, List.flatten_cons, List.append_assoc] at h
      exact absurd h.symm
        (no_space_start q _ w1 S1 (hP2 q (List.mem_cons_self _ _)) hS1 hw1 hn1)
  | cons q P3 ih =>
    intro P2 hP1 hP2 h
    cases P2 with
    | nil =>
      simp only [List.flatten_nil, List.nil_append, List.flatten_cons, List.append_assoc] at h
      exact absurd h (no_space_start q _ w2 S2 (hP1 q (List.mem_cons_self _ _)) hS2 hw2 hn2)
    | cons q2 P4 =>
      simp only [List.flatten_cons, List.append_assoc] at h
      have h2 := (isSpaceChar_prefix_code q q2 _ _ (hP1 q (List.mem_cons_self _ _))
        (hP2 q2 (List.mem_cons_self _ _)) h).2
      exact ih P4 (fun q0 h0 => hP1 q0 (List.mem_cons_of_mem _ h0))
        (fun q0 h0 => hP2 q0 (List.mem_cons_of_mem _ h0)) h2

/-- Removing white-space characters from the end: the two rests are the same. -/
theorem trim_unique_right (w1 w2 : List Nat)
    (hw1 : ∀ q, isSpaceChar q = true → ¬ q <:+ w1)
    (hw2 : ∀ q, isSpaceChar q = true → ¬ q <:+ w2) :
    ∀ (S1 S2 : List (List Nat)), (∀ q ∈ S1, isSpaceChar q = true) →
      (∀ q ∈ S2, isSpaceChar q = true) →
      w1 ++ S1.flatten = w2 ++ S2.flatten → w1 = w2 := by
  intro S1
  induction S1 using List.reverseRecOn with
  | nil =>
    intro S2 _ hS2 h
    rcases List.eq_nil_or_concat S2 with rfl | ⟨S3, q, rfl⟩
    · simpa using h
    · rw [List.concat_eq_append] at h hS2
      simp only [List.flatten_nil, List.append_nil, List.flatten_append, List.flatten_cons] at h
      exact absurd ⟨w2 ++ S3.flatten, by rw [h, List.append_assoc]⟩
        (hw1 q (hS2 q (by simp)))
  | append_singleton S3 q ih =>
    intro S2 hS1 hS2 h
    rcases List.eq_nil_or_concat S2 with rfl | ⟨S4, q2, rfl⟩
    · simp only [List.flatten_nil, List.append_nil, List.flatten_append, List.flatten_cons] at h
      exact absurd ⟨w1 ++ S3.flatten, by rw [← h, List.append_assoc]⟩
        (hw2 q (hS1 q (by simp)))
    · rw [List.concat_eq_append] at h hS2
      simp only [List.flatten_nil, List.append_nil, List.flatten_append, List.flatten_cons] at h
      rw [← List.append_assoc, ← List.append_assoc] at h
      have h2 := (isSpaceChar_suffix_code q q2 _ _ (hS1 q (by simp)) (hS2 q2 (by simp)) h).1
      exact ih S4 (fun q0 h0 => hS1 q0 (by simp [h0])) (fun q0 h0 => hS2 q0 (by simp [h0])) h2

/-- There is one string only that a given string is trimmed to. -/
theorem isTrimOf_unique (v w1 w2 : GoString) (h1 : IsTrimOf v w1) (h2 : IsTrimOf v w2) :
    w1 = w2 := by
  obtain ⟨⟨P1, S1, hP1, hS1, e1⟩, hl1, hr1⟩ := h1
  obtain ⟨⟨P2, S2, hP2, hS2, e2⟩, hl2, hr2⟩ := h2
  rw [List.append_assoc] at e1 e2
  by_cases hn1 : w1 = []
  · subst hn1
    have hv : (P1 ++ S1).flatten = P2.flatten ++ (w2 ++ S2.flatten) := by
      rw [List.flatten_append, ← e2, e1, List.nil_append]
    exact (spaces_only w2 S2 hS2 hl2 P2 (P1 ++ S1) hP2
      (fun q hq => (List.mem_append.mp hq).elim (hP1 q) (hS1 q)) hv).symm
  by_cases hn2 : w2 = []
  · subst hn2
    have hv : (P2 ++ S2).flatten = P1.flatten ++ (w1 ++ S1.flatten) := by
      rw [List.flatten_append, ← e1, e2, List.nil_append]
    exact spaces_only w1 S1 hS1 hl1 P1 (P2 ++ S2) hP1
      (fun q hq => (List.mem_append.mp hq).elim (hP2 q) (hS2 q)) hv
  have h3 := trim_unique_left w1 w2 S1 S2 hS1 hS2 hl1 hl2 hn1 hn2 P1 P2 hP1 hP2
    (by rw [← e1, ← e2])
  exact trim_unique_right w1 w2 hr1 hr2 S1 S2 hS1 hS2 h3

/-! ## C1: numeric parse failures -/

/-- C1 (counterexample): after the single header line `#RESOLUTION:abc` the resolution
is 0, not its construction default 4, and after `#END:5` then `#END:abc` the end is 0,
not the 5 parsed before. -/
theorem C1_counterexample :
    (newSong NewReader asciiLib [] []).Resolution = 4 ∧
    (Read NewReader asciiLib (streamOf "#RESOLUTION:abc\n") [] []).song.Resolution = 0 ∧
    (Read NewReader asciiLib (streamOf "#END:5\n") [] []).song.End = 5 ∧
    (Read NewReader asciiLib (streamOf "#END:5\n#END:abc\n") [] []).song.End = 0 := by
  decide

/-- C1 (amended): when a header line makes a numeric parse of its decoded value and the
parse fails with `err`, the loop body goes on without a fatal error, its last warning
names the tag and `err` (after the duplicate warning, if any), and the field holds the
value `x` that the failed parse returned, not the value it had before.  For an integer
field that value is 0 on a syntax error; on a range error the digits read so far spell
a number `m` beyond the range of a 64-bit integer and the value is the bound on its
side: `2 ^ 63 - 1` when the literal has no minus sign, `-2 ^ 63` when it has one. -/
theorem C1_failed_parse_overwrites (r : Reader) (lib : Lib F) (st : LoopState F)
    (line value : GoString) (x : FieldVal F) (err : NumError)
    (hdec : st.song.Encoding.Decode lib (rawValueOf line) = .ok value)
    (hnum : numericParse lib st.song.Relative (tagKind (nameOf line)) value = some (x, some err)) :
    ∃ st', loopBody r lib st line = .ok st' ∧
      st'.warnings =
        (st.warnings ++
          if st.seen.contains (nameOf line) && usdxTags (nameOf line)
            then [Warning.duplicateTag (nameOf line)] else []) ++
          [Warning.errorAddingTag (nameOf line) err] ∧
      fieldOf (tagKind (nameOf line)) st'.song = x ∧
      (∀ n : Int, x = .int n →
        (err.kind = .ErrSyntax ∧ n = 0) ∨
          (err.kind = .ErrRange ∧
            ∃ p m, p <+: atoiDigits (trim value) ∧ digitsValue 0 p = some m ∧
              (((trim value).head? ≠ some 45 ∧ 2 ^ 63 ≤ m ∧ n = 2 ^ 63 - 1) ∨
                ((trim value).head? = some 45 ∧ 2 ^ 63 < m ∧ n = -2 ^ 63)))) := by
  rw [loopBody_eq, hdec]
  refine ⟨_, rfl, ?_, ?_, ?_⟩
  · simp only [interpret_err, hnum, Option.some_bind, parseWarning]
    cases (st.seen.contains (nameOf line) && usdxTags (nameOf line)) <;> simp
  · obtain ⟨hk, ha⟩ := assigned_of_numericParse r lib _ _ _ _ hnum
    simp only []
    rw [interpret_assigned r lib st.song (nameOf line) value hk, ha]
    rfl
  · intro n hx
    obtain ⟨h1, h2⟩ := numericParse_int lib _ _ _ _ _ n hnum hx
    rw [h1]
    rcases Atoi_err _ err h2.symm with h | h
    · exact Or.inl h
    · exact Or.inr ⟨h.1, Atoi_range _ err h2.symm h.1⟩

/-- C1 (witness): the line `#RESOLUTION:abc` read into a fresh song leaves the
resolution 0, and the line `#END:-9223372036854775809`, whose number is below the
range, leaves the end at the lower bound. -/
theorem C1_failed_parse_overwrites_witness :
    (∃ st', loopBody NewReader asciiLib (startState (newSong NewReader asciiLib [] []))
        (str "#RESOLUTION:abc") = .ok st' ∧
      st'.warnings = [Warning.errorAddingTag (str "RESOLUTION") ⟨str "Atoi", str "abc", .ErrSyntax⟩] ∧
      st'.song.Resolution = 0) ∧
    (∃ st', loopBody NewReader asciiLib (startState (newSong NewReader asciiLib [] []))
        (str "#END:-9223372036854775809") = .ok st' ∧
      st'.song.End = -2 ^ 63) := by
  constructor
  · obtain ⟨st', h1, h2, h3, _⟩ := C1_failed_parse_overwrites NewReader asciiLib
      (startState (newSong NewReader asciiLib [] [])) (str "#RESOLUTION:abc") (str "abc")
      (.int 0) ⟨str "Atoi", str "abc", .ErrSyntax⟩ rfl (by decide)
    refine ⟨st', h1, ?_, ?_⟩
    · rw [h2]; decide
    · have e : tagKind (nameOf (str "#RESOLUTION:abc")) = .RESOLUTION := by decide
      rw [e] at h3
      simpa [fieldOf] using h3
  · obtain ⟨st', h1, _, h3, h4⟩ := C1_failed_parse_overwrites NewReader asciiLib
      (startState (newSong NewReader asciiLib [] [])) (str "#END:-9223372036854775809")
      (str "-9223372036854775809") (.int (-2 ^ 63))
      ⟨str "Atoi", str "-9223372036854775809", .ErrRange⟩ rfl (by decide)
    refine ⟨st', h1, ?_⟩
    have e : tagKind (nameOf (str "#END:-9223372036854775809")) = .END := by decide
    rw [e] at h3
    simpa [fieldOf] using h3

/-! ## C2: repeated tags -/

/-- C2 (counterexample): `RELATIVE:yes` followed by `RELATIVE:no` leaves relative mode
on, while the same header without the earlier line leaves it off. -/
theorem C2_counterexample :
    (Read NewReader asciiLib (streamOf "#RELATIVE:yes\n#RELATIVE:no\n") [] []).song.Relative = true ∧
    (Read NewReader asciiLib (streamOf "#RELATIVE:no\n") [] []).song.Relative = false := by
  decide

/-- C2 (amended): the last occurrence wins whenever it writes its field, and writes
nothing otherwise.  Take a header line of a recognized kind and let no later header
line be of the same kind.  If the line gives the value `v` to its field (`assigned`,
which looks at the line and at relative mode only, not at earlier values of the field),
the field holds `v` at the end of the header, whatever the lines before it were.  If
the line gives no value, the field holds at the end what it held before the line.
The string tags and the tags `BPM`, `GAP`, `VIDEOGAP`, `START`, `PREVIEWSTART`, `END`,
`RESOLUTION`, `NOTESGAP` always give a value; `YEAR` does when its value is not empty,
the medley beats when relative mode is off, `ENCODING` when its value is a registered
name, `RELATIVE` when its value is `YES` once upper-cased, `CALCMEDLEY` when it is
`OFF` once upper-cased.  A line is fatal only when its value cannot be decoded, so a
repetition never is. -/
theorem C2_last_occurrence_wins (r : Reader) (lib : Lib F) (st stEnd : LoopState F)
    (line value : GoString) (post : List GoString)
    (hdec : st.song.Encoding.Decode lib (rawValueOf line) = .ok value)
    (hkind : tagKind (nameOf line) ≠ .custom)
    (hpost : ∀ l ∈ post, tagKind (nameOf l) ≠ tagKind (nameOf line))
    (hrun : runHeader r lib st (line :: post) = .ok stEnd) :
    (∀ v, assigned r lib st.song.Relative (tagKind (nameOf line)) value = some v →
        fieldOf (tagKind (nameOf line)) stEnd.song = v) ∧
      (assigned r lib st.song.Relative (tagKind (nameOf line)) value = none →
        fieldOf (tagKind (nameOf line)) stEnd.song = fieldOf (tagKind (nameOf line)) st.song) ∧
      (∀ k ∈ alwaysAssigned, ∀ (relative : Bool) (w : GoString),
        (assigned r lib relative k w).isSome = true) ∧
      (∀ (relative : Bool) (w : GoString),
        ((assigned r lib relative .YEAR w).isSome = true ↔ w ≠ []) ∧
        ((assigned r lib relative .MEDLEYSTARTBEAT w).isSome = true ↔ relative = false) ∧
        ((assigned r lib relative .MEDLEYENDBEAT w).isSome = true ↔ relative = false) ∧
        ((assigned r lib relative .ENCODING w).isSome = true ↔
          (r.encodings.lookup w).isSome = true) ∧
        (assigned r lib relative .RELATIVE w =
          if ToUpper lib w = str "YES" then some (.flag true) else none) ∧
        (assigned r lib relative .CALCMEDLEY w =
          if ToUpper lib w = str "OFF" then some (.flag false) else none)) ∧
      (∀ (st0 : LoopState F) (l : GoString) (err : GoError),
        loopBody r lib st0 l = .error err ↔
          st0.song.Encoding.Decode lib (rawValueOf l) = .error err) := by
  have hfield : fieldOf (tagKind (nameOf line)) stEnd.song =
      (assigned r lib st.song.Relative (tagKind (nameOf line)) value).getD
        (fieldOf (tagKind (nameOf line)) st.song) := by
    simp only [runHeader] at hrun
    cases hb : loopBody r lib st line with
    | error e => rw [hb] at hrun; cases hrun
    | ok st1 =>
      rw [hb] at hrun
      obtain ⟨value', hd', hs⟩ := loopBody_song r lib st st1 line hb
      rw [hdec] at hd'
      cases hd'
      rw [runHeader_frame r lib _ post st1 stEnd hpost hrun, hs,
        interpret_assigned r lib st.song (nameOf line) value hkind]
  refine ⟨?_, ?_, ?_, ?_, ?_⟩
  · intro v hval
    rw [hfield, hval]; rfl
  · intro hnone
    rw [hfield, hnone]; rfl
  · intro k hk relative w
    simp only [alwaysAssigned, List.mem_cons, List.mem_singleton, List.mem_nil_iff, or_false] at hk
    rcases hk with h | h | h | h | h | h | h | h | h | h | h | h | h | h | h | h | h | h | h | h <;>
      subst h <;> rfl
  · intro relative w
    refine ⟨?_, ?_, ?_, ?_, rfl, rfl⟩
    · by_cases hw : w = [] <;> simp [assigned, numericParse, hw]
    · cases relative <;> simp [assigned, numericParse]
    · cases relative <;> simp [assigned, numericParse]
    · simp only [assigned]
      cases r.encodings.lookup w <;> simp
  · intro st0 l err
    rw [loopBody_eq]
    cases st0.song.Encoding.Decode lib (rawValueOf l) <;> simp [Except.map]

/-- C2 (witness): `#TITLE:A` then `#TITLE:B` and an artist line leave the title `B`;
`#RELATIVE:yes` then `#RELATIVE:no` leaves relative mode on. -/
theorem C2_last_occurrence_wins_witness :
    (∃ stEnd, runHeader NewReader asciiLib (startState (newSong NewReader asciiLib [] []))
        [str "#TITLE:A", str "#TITLE:B", str "#ARTIST:C"] = .ok stEnd ∧
      stEnd.song.Title = str "B") ∧
    (∃ stEnd, runHeader NewReader asciiLib (startState (newSong NewReader asciiLib [] []))
        [str "#RELATIVE:yes", str "#RELATIVE:no"] = .ok stEnd ∧
      stEnd.song.Relative = true) := by
  constructor
  · refine ⟨_, rfl, ?_⟩
    have h := (C2_last_occurrence_wins NewReader asciiLib
      ⟨{ newSong NewReader asciiLib [] [] with Title := str "A" }, [], [str "TITLE"]⟩ _
      (str "#TITLE:B") (str "B") [str "#ARTIST:C"] rfl (by decide) (by decide)
      rfl).1 (.text (str "B")) (by decide)
    have e : tagKind (nameOf (str "#TITLE:B")) = .TITLE := by decide
    rw [e] at h
    simp only [fieldOf, FieldVal.text.injEq] at h
    exact h
  · refine ⟨_, rfl, ?_⟩
    have h := (C2_last_occurrence_wins NewReader asciiLib
      ⟨{ newSong NewReader asciiLib [] [] with Relative := true }, [], [str "RELATIVE"]⟩ _
      (str "#RELATIVE:no") (str "no") [] rfl (by decide) (by decide)
      rfl).2.1 (by decide)
    have e : tagKind (nameOf (str "#RELATIVE:no")) = .RELATIVE := by decide
    rw [e] at h
    simp only [fieldOf, FieldVal.flag.injEq] at h
    exact h

/-! ## C3: the warning list -/

/-- C3 (counterexample): in the header `#P1:a`, `#DUETSINGERP1:b`, `#DUETSINGERP1:c` the
recognized tag `DUETSINGERP1` occurs exactly twice and yields two duplicate
warnings. -/
theorem C3_counterexample :
    (Read NewReader asciiLib (streamOf "#P1:a\n#DUETSINGERP1:b\n#DUETSINGERP1:c\n") [] []).err
      = none ∧
    (linesOf (streamOf "#P1:a\n#DUETSINGERP1:b\n#DUETSINGERP1:c\n")).map nameOf =
      [str "P1", str "DUETSINGERP1", str "DUETSINGERP1"] ∧
    (Read NewReader asciiLib (streamOf "#P1:a\n#DUETSINGERP1:b\n#DUETSINGERP1:c\n") [] []).warnings
      = [Warning.duplicateTag (str "DUETSINGERP1"), Warning.duplicateTag (str "DUETSINGERP1")] := by
  decide

/-- C3 (amended): when `Read` returns no fatal error its warnings are, in file order
over the header tag lines, the warnings of `specWarnings`: for each line the duplicate
warning if and only if the name is recognized and it, or the other name of its pair,
occurred on an earlier line, then the parse warning if and only if a numeric parse of
the value was attempted and failed.  A recognized tag that occurs exactly twice, and
whose pair partner does not occur in the header, yields exactly one duplicate
warning.  An unrecognized tag adds no warning, and a first `ENCODING` line, a first
medley beat line under relative mode and a first `YEAR` line with an empty value add
none either. -/
theorem C3_warnings_determined (r : Reader) (lib : Lib F) (input : Stream)
    (dir sourceFile : GoString) (h : (Read r lib input dir sourceFile).err = none) :
    (Read r lib input dir sourceFile).warnings =
        specWarnings lib false [] (headerPairs r lib input) ∧
      (headerPairs r lib input).map (·.1) = (headerOf (linesOf input)).map nameOf ∧
      (∀ name, usdxTags name = true →
        ((headerOf (linesOf input)).map nameOf).count name = 2 →
        (∀ partner, pairOf name = some partner →
          partner ∉ (headerOf (linesOf input)).map nameOf) →
        (Read r lib input dir sourceFile).warnings.count (Warning.duplicateTag name) = 1) ∧
      (∀ relative earlier name value, usdxTags name = false →
        lineWarnings lib relative earlier name value = []) ∧
      (∀ relative earlier value, occurredIn earlier (str "ENCODING") = false →
        lineWarnings lib relative earlier (str "ENCODING") value = []) ∧
      (∀ earlier value, occurredIn earlier (str "MEDLEYSTARTBEAT") = false →
        lineWarnings lib true earlier (str "MEDLEYSTARTBEAT") value = []) ∧
      (∀ earlier value, occurredIn earlier (str "MEDLEYENDBEAT") = false →
        lineWarnings lib true earlier (str "MEDLEYENDBEAT") value = []) ∧
      (∀ relative earlier, occurredIn earlier (str "YEAR") = false →
        lineWarnings lib relative earlier (str "YEAR") [] = []) := by
  obtain ⟨_, _, st', _, hread, _, hw, hnames⟩ := Read_ok r lib input dir sourceFile h
  have hwarn : (Read r lib input dir sourceFile).warnings =
      specWarnings lib false [] (headerPairs r lib input) := by rw [hread]; exact hw
  refine ⟨hwarn, hnames, ?_, ?_, ?_, ?_, ?_, ?_⟩
  · intro name hrec hcount hpartner
    rw [hwarn, specWarnings_count lib name hrec _ false [] (by rw [hnames]; exact hpartner),
      occurredIn_nil, hnames, hcount]
    rfl
  · intro relative earlier name value hu
    have hk := (tagKind_custom_iff name).mpr hu
    simp [lineWarnings, hu, hk, numericParse, parseWarning]
  · intro relative earlier value ho
    have hk : tagKind (str "ENCODING") = .ENCODING := by decide
    simp [lineWarnings, ho, hk, numericParse, parseWarning]
  · intro earlier value ho
    have hk : tagKind (str "MEDLEYSTARTBEAT") = .MEDLEYSTARTBEAT := by decide
    simp [lineWarnings, ho, hk, numericParse, parseWarning]
  · intro earlier value ho
    have hk : tagKind (str "MEDLEYENDBEAT") = .MEDLEYENDBEAT := by decide
    simp [lineWarnings, ho, hk, numericParse, parseWarning]
  · intro relative earlier ho
    have hk : tagKind (str "YEAR") = .YEAR := by decide
    simp [lineWarnings, ho, hk, numericParse, parseWarning]

/-- C3 (witness): a header with a repeated `END` whose second value does not parse and
a repeated unrecognized tag. -/
theorem C3_warnings_determined_witness :
    (Read NewReader asciiLib (streamOf "#END:5\n#END:abc\n#FOO:1\n#FOO:2\n") [] []).warnings =
      [Warning.duplicateTag (str "END"),
       Warning.errorAddingTag (str "END") ⟨str "Atoi", str "abc", .ErrSyntax⟩] := by
  rw [(C3_warnings_determined NewReader asciiLib
    (streamOf "#END:5\n#END:abc\n#FOO:1\n#FOO:2\n") [] [] (by decide)).1]
  decide

/-! ## C4: medley beats and relative mode -/

/-- C4 (counterexample): the third line of `#MEDLEYSTARTBEAT:1`, `#RELATIVE:yes`,
`#MEDLEYSTARTBEAT:2` is ignored under relative mode, the field stays 1, and the line
adds a duplicate warning to the empty list that the first two lines leave. -/
theorem C4_counterexample :
    (Read NewReader asciiLib (streamOf "#MEDLEYSTARTBEAT:1\n#RELATIVE:yes\n") [] []).warnings
      = [] ∧
    (Read NewReader asciiLib
      (streamOf "#MEDLEYSTARTBEAT:1\n#RELATIVE:yes\n#MEDLEYSTARTBEAT:2\n") [] []).warnings
      = [Warning.duplicateTag (str "MEDLEYSTARTBEAT")] ∧
    (Read NewReader asciiLib
      (streamOf "#MEDLEYSTARTBEAT:1\n#RELATIVE:yes\n#MEDLEYSTARTBEAT:2\n") [] []).song.MedleyStartBeat
      = 1 := by
  decide

/-- C4 (amended): let a header start with relative mode off and let `pre` be the lines
before a `MEDLEYSTARTBEAT` or `MEDLEYENDBEAT` line whose decoded value parses as the
integer `n`.  The line is never fatal.  If no line of `pre` is a `RELATIVE` line whose
value is `YES` once upper-cased, the line sets its field to `n`; otherwise it leaves
the field unchanged.  In both cases it adds no parse warning: the only warning it can
add is the duplicate warning, when its name occurred before.  Lines that come after
it and are not of its kind, `RELATIVE` lines included, leave the field as it is. -/
theorem C4_medley_beats_need_relative_off (r : Reader) (lib : Lib F) (song0 : Song F)
    (pre : List GoString) (st : LoopState F) (line value : GoString) (n : Int)
    (h0 : song0.Relative = false)
    (hpre : runHeader r lib (startState song0) pre = .ok st)
    (hname : nameOf line = str "MEDLEYSTARTBEAT" ∨ nameOf line = str "MEDLEYENDBEAT")
    (hdec : st.song.Encoding.Decode lib (rawValueOf line) = .ok value)
    (hint : parseInt value = (n, none)) :
    ∃ st', loopBody r lib st line = .ok st' ∧
      st'.warnings = st.warnings ++ duplicateWarning st.seen (nameOf line) ∧
      ((decodedHeader r lib song0.Encoding pre).any (setsRelative lib) = false →
        fieldOf (tagKind (nameOf line)) st'.song = .int n) ∧
      ((decodedHeader r lib song0.Encoding pre).any (setsRelative lib) = true →
        fieldOf (tagKind (nameOf line)) st'.song = fieldOf (tagKind (nameOf line)) st.song) ∧
      (∀ post stEnd, (∀ l ∈ post, tagKind (nameOf l) ≠ tagKind (nameOf line)) →
        runHeader r lib st' post = .ok stEnd →
        fieldOf (tagKind (nameOf line)) stEnd.song = fieldOf (tagKind (nameOf line)) st'.song) := by
  obtain ⟨st', hbody, hsong, hwarn⟩ := loopBody_warnings r lib st line value hdec
  obtain ⟨_, hs, _, _⟩ := runHeader_spec r lib pre (startState song0) st []
    (fun n => by rw [occurredIn_nil]; rfl) hpre
  have hrel : st.song.Relative = (decodedHeader r lib song0.Encoding pre).any (setsRelative lib) := by
    rw [hs, interpretAll_relative]
    simp only [startState, h0, Bool.false_or]
  have hkind : tagKind (nameOf line) = .MEDLEYSTARTBEAT ∨ tagKind (nameOf line) = .MEDLEYENDBEAT := by
    rcases hname with h | h
    · left; rw [h]; decide
    · right; rw [h]; decide
  have hcustom : tagKind (nameOf line) ≠ .custom := by
    rcases hkind with h | h <;> rw [h] <;> decide
  have hfield := interpret_assigned r lib st.song (nameOf line) value hcustom
  rw [← hsong] at hfield
  refine ⟨st', hbody, ?_, ?_, ?_, ?_⟩
  · rw [hwarn]
    have : (numericParse lib st.song.Relative (tagKind (nameOf line)) value).bind (·.2) = none := by
      rcases hkind with h | h <;> rw [h] <;> cases st.song.Relative <;>
        simp [numericParse, hint]
    rw [this]
    simp [parseWarning]
  · intro hno
    rw [hfield, hrel, hno]
    rcases hkind with h | h <;> rw [h] <;> simp [assigned, numericParse, hint]
  · intro hyes
    rw [hfield, hrel, hyes]
    rcases hkind with h | h <;> rw [h] <;> simp [assigned, numericParse]
  · intro post stEnd hpost hrun
    exact runHeader_frame r lib _ post st' stEnd hpost hrun

/-- C4 (witness): `#MEDLEYSTARTBEAT:10` after `#RELATIVE:yes` leaves the field at 0. -/
theorem C4_medley_beats_need_relative_off_witness :
    ∃ st', loopBody NewReader asciiLib
        ⟨{ newSong NewReader asciiLib [] [] with Relative := true }, [], [str "RELATIVE"]⟩
        (str "#MEDLEYSTARTBEAT:10") = .ok st' ∧
      st'.warnings = [] ∧ st'.song.MedleyStartBeat = 0 := by
  obtain ⟨st', h1, h2, _, h4, _⟩ := C4_medley_beats_need_relative_off NewReader asciiLib
    (newSong NewReader asciiLib [] []) [str "#RELATIVE:yes"]
    ⟨{ newSong NewReader asciiLib [] [] with Relative := true }, [], [str "RELATIVE"]⟩
    (str "#MEDLEYSTARTBEAT:10") (str "10") 10 rfl rfl (Or.inl (by decide)) rfl (by decide)
  refine ⟨st', h1, by rw [h2]; decide, ?_⟩
  have h := h4 (by decide)
  have e : tagKind (nameOf (str "#MEDLEYSTARTBEAT:10")) = .MEDLEYSTARTBEAT := by decide
  rw [e] at h
  simp only [fieldOf, FieldVal.int.injEq] at h
  rw [h]; rfl

/-! ## C5: the byte-order mark and the encoding lines -/

/-- C5 (counterexample): the stream starts with the bytes EF BB BF and ends with the
line `#ENCODING:UTF8`, but a tag line of 65537 bytes stands between that line and the
line `#ENCODING:CP1252`: `Read` returns the error `ErrTooLong` of the scanner and a
song whose encoding is `CP1252`. -/
theorem C5_counterexample :
    streamWithLongHeaderLine.data.take 3 = [0xEF, 0xBB, 0xBF] ∧
    str "#ENCODING:UTF8\n" <:+ streamWithLongHeaderLine.data ∧
    (Read NewReader asciiLib streamWithLongHeaderLine [] []).err = some GoError.ErrTooLong ∧
    (Read NewReader asciiLib streamWithLongHeaderLine [] []).song.Encoding = Encoding.CP1252 := by
  unfold streamWithLongHeaderLine
  exact long_header_line_facts maxScanTokenSize le_rfl (str "#ENCODING:UTF8\n")

/-- C5 (amended): for a stream that starts with the bytes EF BB BF (and whose reads do
not fail) `checkBOM` finds the mark, so the first header line is decoded with `UTF8`.
An `ENCODING` line whose decoded value is the name of one of the four registered
encodings makes that encoding the active one, an `ENCODING` line with any other value
leaves the active encoding as it is.  When `Read` reports no error the encoding of the
song is that of the last `ENCODING` line with a registered name, and `UTF8` when the
header has none. -/
theorem C5_mark_forces_utf8 (lib : Lib F) (input : Stream) (dir sourceFile : GoString)
    (rest : List Nat) (hdata : input.data = [0xEF, 0xBB, 0xBF] ++ rest) (hpos : input.pos = 0)
    (hread : input.readFails = false) :
    (checkBOM input).2 = (true, none) ∧
      (firstSong NewReader lib input dir sourceFile).Encoding = Encoding.UTF8 ∧
      linesOf input = (scanFrom [] rest).1 ∧
      (∀ (st : LoopState F) (line value : GoString),
        nameOf line = str "ENCODING" →
        st.song.Encoding.Decode lib (rawValueOf line) = .ok value →
        ∃ st', loopBody NewReader lib st line = .ok st' ∧
          (∀ e : Encoding, value = e.Name → st'.song.Encoding = e) ∧
          ((∀ e : Encoding, value ≠ e.Name) → st'.song.Encoding = st.song.Encoding)) ∧
      ((Read NewReader lib input dir sourceFile).err = none →
        (Read NewReader lib input dir sourceFile).song.Encoding =
          (lastRecognized NewReader (headerPairs NewReader lib input)).getD Encoding.UTF8) := by
  have hc := checkBOM_of_mark input rest hdata hpos hread
  have hfirst : (firstSong NewReader lib input dir sourceFile).Encoding = Encoding.UTF8 := by
    rw [firstSong_encoding, hc]; rfl
  refine ⟨by rw [hc], hfirst, ?_, ?_, ?_⟩
  · unfold linesOf scanStream
    rw [hc]
    simp [hdata]
  · intro st line value hname hdec
    obtain ⟨st', hbody, hsong, _⟩ := loopBody_warnings NewReader lib st line value hdec
    refine ⟨st', hbody, ?_, ?_⟩
    · intro e he
      rw [hsong, interpret_encoding, nextEncoding, if_pos hname, he, NewReader_lookup_name]
      rfl
    · intro hne
      rw [hsong, interpret_encoding, nextEncoding, if_pos hname, NewReader_lookup_none value hne]
      rfl
  · intro herr
    obtain ⟨_, _, st', _, hreadEq, hsong, _, _⟩ := Read_ok NewReader lib input dir sourceFile herr
    rw [hreadEq]
    simp only []
    rw [hsong, interpretAll_encoding, hfirst]

/-- C5 (witness): after the mark, `ENCODING:CP1252` and then an unknown name. -/
theorem C5_mark_forces_utf8_witness :
    (firstSong NewReader asciiLib (streamWithBOM "#ENCODING:CP1252\n#ENCODING:foo\n") [] []).Encoding
      = Encoding.UTF8 ∧
    (Read NewReader asciiLib (streamWithBOM "#ENCODING:CP1252\n#ENCODING:foo\n") [] []).song.Encoding
      = Encoding.CP1252 := by
  have h := C5_mark_forces_utf8 asciiLib (streamWithBOM "#ENCODING:CP1252\n#ENCODING:foo\n") [] []
    (str "#ENCODING:CP1252\n#ENCODING:foo\n") rfl rfl rfl
  refine ⟨h.2.1, ?_⟩
  rw [h.2.2.2.2 (by decide)]
  decide

/-! ## C6: custom tags -/

/-- C6: when `Read` reports no error the custom tags of the song are, in file order and
with repetitions, the names and decoded values of exactly the header lines whose name
is not one of the 28 recognized names; the decoded header has one entry for each header
line, under that line's name.  The match is exact, so `title` and the empty name of
a line without colon are not recognized. -/
theorem C6_custom_tags (r : Reader) (lib : Lib F) (input : Stream) (dir sourceFile : GoString)
    (h : (Read r lib input dir sourceFile).err = none) :
    (Read r lib input dir sourceFile).song.CustomTags = customTagsOf (headerPairs r lib input) ∧
      (headerPairs r lib input).map (·.1) = (headerOf (linesOf input)).map nameOf ∧
      usdxTags (str "title") = false ∧ usdxTags [] = false ∧
      nameOf (str "#no colon here") = [] := by
  obtain ⟨_, _, st', _, hread, hsong, _, hnames⟩ := Read_ok r lib input dir sourceFile h
  refine ⟨?_, hnames, by decide, by decide, by decide⟩
  rw [hread]
  simp only []
  rw [hsong, interpretAll_custom, firstSong_custom, List.nil_append]

/-- C6 (witness): the single header line `#FOO:bar` gives the one entry (FOO, bar) and
no warning; a recognized line next to it adds no entry. -/
theorem C6_custom_tags_witness :
    (Read NewReader asciiLib (streamOf "#FOO:bar") [] []).song.CustomTags =
        [⟨str "FOO", str "bar"⟩] ∧
      (Read NewReader asciiLib (streamOf "#FOO:bar") [] []).warnings = [] ∧
      (Read NewReader asciiLib (streamOf "#title:x\n#TITLE:y\n#:z\n#title:x\n") [] []).song.CustomTags =
        [⟨str "title", str "x"⟩, ⟨[], str "z"⟩, ⟨str "title", str "x"⟩] := by
  refine ⟨?_, by decide, ?_⟩
  · rw [(C6_custom_tags NewReader asciiLib (streamOf "#FOO:bar") [] [] (by decide)).1]
    decide
  · decide

/-! ## C7: the notation body -/

/-- C7 (counterexample): the input made of the line `x` and of a second line of 65536
letters has a first line that does not start with the mark, and `Read` returns the
error `ErrTooLong` of the scanner. -/
theorem C7_counterexample :
    (linesOf streamWithLongLine).head? = some (str "x") ∧ isTag (str "x") = false ∧
    (Read NewReader asciiLib streamWithLongLine [] []).err = some GoError.ErrTooLong :=
  ⟨(long_line_too_long maxScanTokenSize le_rfl).1, by decide,
    (long_line_too_long maxScanTokenSize le_rfl).2⟩

/-- C7 (amended): let byte-order sniffing succeed, let the scanner report no error and
let the decoders accept every value.  If some line does not start with the mark,
`Read` returns no error and the notation body is the sequence of lines from the
first such line to the end, in order and unmodified.  The song and the warnings are
those that the header lines alone produce: the lines of the body, also those that
start with the mark, change nothing but the notes. -/
theorem C7_body_is_captured (r : Reader) (lib : Lib F) (input : Stream)
    (dir sourceFile : GoString)
    (hbom : (checkBOM input).2.2 = none)
    (hscan : (scanStream (checkBOM input).1).2 = none)
    (hlib : ∀ (enc : Encoding) (s : GoString), ∃ v, enc.Decode lib s = .ok v)
    (hbody : ∃ l ∈ linesOf input, isTag l = false) :
    (Read r lib input dir sourceFile).err = none ∧
      (Read r lib input dir sourceFile).song.Notes = bodyOf (linesOf input) ∧
      linesOf input = headerOf (linesOf input) ++ bodyOf (linesOf input) ∧
      (∀ l ∈ headerOf (linesOf input), isTag l = true) ∧
      (∃ l rest, bodyOf (linesOf input) = l :: rest ∧ isTag l = false) ∧
      (∃ st', runHeader r lib (startState (firstSong r lib input dir sourceFile))
          (headerOf (linesOf input)) = .ok st' ∧
        (Read r lib input dir sourceFile).warnings = st'.warnings ∧
        (Read r lib input dir sourceFile).song =
          { st'.song with Notes := bodyOf (linesOf input) }) := by
  obtain ⟨st', hrun⟩ := runHeader_total r lib hlib (headerOf (linesOf input))
    (startState (firstSong r lib input dir sourceFile))
  have herr : (Read r lib input dir sourceFile).err = none := by
    rw [Read_eq, hbom]
    simp only []
    rw [readLines_err]
    unfold startState at hrun
    rw [hrun]
    exact hscan
  obtain ⟨_, _, st'', hrun', hread, hsong, _, _⟩ := Read_ok r lib input dir sourceFile herr
  rw [hrun] at hrun'
  cases hrun'
  have hnotes : st'.song.Notes = [] := by
    rw [hsong, interpretAll_notes, firstSong_notes]
  have hcons : ∃ l rest, bodyOf (linesOf input) = l :: rest ∧ isTag l = false := by
    obtain ⟨l, hl, hnot⟩ := hbody
    have hne : bodyOf (linesOf input) ≠ [] := by
      intro hnil
      unfold bodyOf at hnil
      rw [List.dropWhile_eq_nil_iff] at hnil
      rw [hnil l hl] at hnot
      cases hnot
    cases hb : bodyOf (linesOf input) with
    | nil => exact absurd hb hne
    | cons l' rest =>
      refine ⟨l', rest, rfl, ?_⟩
      have := List.head_dropWhile_not isTag (linesOf input) (by
        unfold bodyOf at hb; rw [hb]; exact List.cons_ne_nil _ _)
      unfold bodyOf at hb
      simp only [hb, List.head_cons] at this
      exact this
  have hcap : capturedNotes (linesOf input) = bodyOf (linesOf input) := by
    obtain ⟨l, rest, hb, _⟩ := hcons
    unfold capturedNotes
    rw [hb]
  refine ⟨herr, ?_, ?_, ?_, hcons, st', hrun, ?_, ?_⟩
  · rw [hread]
    simp only [hnotes, hcap, List.nil_append]
  · exact (List.takeWhile_append_dropWhile isTag (linesOf input)).symm
  · intro l hl
    exact (List.mem_takeWhile_imp hl)
  · rw [hread]
  · rw [hread]
    simp only [hnotes, hcap, List.nil_append]

/-- C7 (witness): two header lines, then `Line1`, `Line2`. -/
theorem C7_body_is_captured_witness :
    (Read NewReader asciiLib (streamOf "#TITLE:Foo\n#ARTIST:Bar\nLine1\nLine2\n") [] []).err
      = none ∧
    (Read NewReader asciiLib (streamOf "#TITLE:Foo\n#ARTIST:Bar\nLine1\nLine2\n") [] []).song.Notes
      = [str "Line1", str "Line2"] ∧
    (Read NewReader asciiLib (streamOf "#TITLE:Foo\n#ARTIST:Bar\nLine1\nLine2\n") [] []).song.Title
      = str "Foo" ∧
    (Read NewReader asciiLib (streamOf "#TITLE:Foo\n#ARTIST:Bar\nLine1\nLine2\n") [] []).song.Artist
      = str "Bar" ∧
    (Read NewReader asciiLib (streamOf "#TITLE:Foo\n#ARTIST:Bar\nLine1\nLine2\n") [] []).warnings
      = [] := by
  have h := C7_body_is_captured NewReader asciiLib
    (streamOf "#TITLE:Foo\n#ARTIST:Bar\nLine1\nLine2\n") [] [] (by decide) (by decide)
    asciiLib_decodes ⟨str "Line1", by decide, by decide⟩
  refine ⟨h.1, ?_, by decide, by decide, by decide⟩
  rw [h.2.1]
  decide

/-! ## C8: a header that runs to the end of the input -/

/-- C8: when every line is a tag line and `Read` reports no error, the notation body
is not empty: it holds one empty line, the text of the exhausted scanner. -/
theorem C8_header_only_gives_one_empty_line (r : Reader) (lib : Lib F) (input : Stream)
    (dir sourceFile : GoString) (hall : ∀ l ∈ linesOf input, isTag l = true)
    (herr : (Read r lib input dir sourceFile).err = none) :
    (Read r lib input dir sourceFile).song.Notes = [[]] := by
  obtain ⟨_, _, st', _, hread, hsong, _, _⟩ := Read_ok r lib input dir sourceFile herr
  have hnotes : st'.song.Notes = [] := by
    rw [hsong, interpretAll_notes, firstSong_notes]
  have hb : bodyOf (linesOf input) = [] := by
    unfold bodyOf
    rw [List.dropWhile_eq_nil_iff]
    exact hall
  rw [hread]
  simp only [hnotes, capturedNotes, hb, List.nil_append]

/-- C8 (witness): the input `#TITLE:Foo`, one tag line. -/
theorem C8_header_only_gives_one_empty_line_witness :
    linesOf (streamOf "#TITLE:Foo\n") = [str "#TITLE:Foo"] ∧
    (Read NewReader asciiLib (streamOf "#TITLE:Foo\n") [] []).err = none ∧
    (Read NewReader asciiLib (streamOf "#TITLE:Foo\n") [] []).song.Notes = [[]] :=
  ⟨by decide, by decide,
    C8_header_only_gives_one_empty_line NewReader asciiLib (streamOf "#TITLE:Foo\n") [] []
      (by decide) (by decide)⟩

/-! ## C9: byte-order sniffing -/

/-- C9: on a stream at its start whose reads do not fail, `checkBOM` reports an error
whenever fewer than three bytes are there, `EOF` for none and `ErrUnexpectedEOF` for one
or two, and `Read` returns that error with no warning and no notes.  When three bytes
or more are there and they do not start with the mark, `checkBOM` reports no mark; it
leaves the stream at its start without error when the seek succeeds and reports the
error of the seek otherwise. -/
theorem C9_short_stream_is_fatal (input : Stream) (hpos : input.pos = 0)
    (hread : input.readFails = false) :
    (input.data.length < 3 →
      (checkBOM input).2 = (false, some (if input.data = [] then .EOF else .ErrUnexpectedEOF)) ∧
      ∀ (r : Reader) (lib : Lib F) (dir sourceFile : GoString),
        (Read r lib input dir sourceFile).err =
            some (if input.data = [] then .EOF else .ErrUnexpectedEOF) ∧
          (Read r lib input dir sourceFile).warnings = [] ∧
          (Read r lib input dir sourceFile).song.Notes = []) ∧
    (3 ≤ input.data.length → input.data.take 3 ≠ [0xEF, 0xBB, 0xBF] →
      (input.seekFails = false → checkBOM input = (input, false, none)) ∧
      (input.seekFails = true → (checkBOM input).2 = (false, some GoError.seekFault))) := by
  obtain ⟨data, pos, readFails, seekFails⟩ := input
  simp only at hpos hread
  subst hpos hread
  refine ⟨?_, ?_⟩
  · intro hlen
    have hc : (checkBOM ⟨data, 0, false, seekFails⟩).2 =
        (false, some (if data = [] then GoError.EOF else GoError.ErrUnexpectedEOF)) := by
      simp only [checkBOM, readFull, List.drop_zero, Bool.false_eq_true, if_false]
      by_cases hd : data = []
      · subst hd; rfl
      · have h0 : data.length ≠ 0 := fun h => hd (List.length_eq_zero.mp h)
        simp only [if_neg h0, if_pos hlen, if_neg hd]
    refine ⟨hc, ?_⟩
    intro r lib dir sourceFile
    rw [Read_eq, hc]
    exact ⟨rfl, rfl, rfl⟩
  · intro hlen hne
    simp only at hlen hne
    have h0 : data.length ≠ 0 := by omega
    have h3 : ¬ data.length < 3 := by omega
    simp only [checkBOM, readFull, List.drop_zero, Bool.false_eq_true, if_false, if_neg h0,
      if_neg h3, if_neg hne, seekStart, Nat.zero_add]
    refine ⟨?_, ?_⟩ <;> intro hs <;> subst hs <;> rfl

/-- C9 (witness): the stream of the two bytes `ab`. -/
theorem C9_short_stream_is_fatal_witness :
    (checkBOM (streamOf "ab")).2 = (false, some GoError.ErrUnexpectedEOF) ∧
    (Read NewReader asciiLib (streamOf "ab") [] []).err = some GoError.ErrUnexpectedEOF := by
  have h := (C9_short_stream_is_fatal (F := Int × Nat) (streamOf "ab") rfl rfl).1 (by decide)
  exact ⟨h.1, (h.2 NewReader asciiLib [] []).1⟩

/-! ## C10: commas in decimal values -/

/-- The value `1.5` followed by a blank is trimmed to `1.5`. -/
theorem isTrimOf_trailing_blank : IsTrimOf (str "1.5 ") (str "1.5") := by
  refine ⟨⟨[], [[32]], by simp, by simp [isSpaceChar], by decide⟩, ?_, ?_⟩
  · intro q hq ⟨z, hz⟩
    have h := (decodeRune_of_space q z hq).1
    rw [hz] at h
    exact absurd h (by decide)
  · intro q hq ⟨z, hz⟩
    have h := (decodeLastRune_of_space z q hq).1
    rw [hz] at h
    exact absurd h (by decide)

/-- C10: `trim u` is the string `u` with its surrounding white space trimmed, and the
only such string: `u` is white-space characters, `trim u`, white-space characters, and
`trim u` neither starts nor ends with a white-space character (`IsTrimOf`, which does
not mention the code).  For every value `v` the parser of floats receives, for `GAP`,
`VIDEOGAP`, `START` and `PREVIEWSTART`, the string `v` trimmed and then with its first
comma replaced by a period, and for `BPM` the string `v` with every comma replaced by a
period and then trimmed; the field takes the value and the line the error that the
parser returns for that string.  So `" 1,5,6"` is parsed as `"1.5,6"` and `"120,5"`
as `"120.5"`; if the parser rejects `"1.5,6"` with the value zero, the `GAP` line gives
the error of one warning and leaves the gap at zero. -/
theorem C10_locale_normalisation (r : Reader) (lib : Lib F) (song : Song F) (v : GoString) :
    (∀ u w : GoString, IsTrimOf u w ↔ w = trim u) ∧
      (∀ tag ∈ plainDecimalTags,
      fieldOf (tagKind tag) (interpret r lib song tag v).1 =
          .float (lib.parseFloat32 (replaceFirst 44 46 (trim v))).1 ∧
        (interpret r lib song tag v).2 = (lib.parseFloat32 (replaceFirst 44 46 (trim v))).2) ∧
      (interpret r lib song (str "BPM") v).1.BPM =
        (lib.parseFloat32 (trim (replaceEvery 44 46 v))).1 ∧
      (interpret r lib song (str "BPM") v).2 =
        (lib.parseFloat32 (trim (replaceEvery 44 46 v))).2 ∧
      replaceFirst 44 46 (trim (str " 1,5,6")) = str "1.5,6" ∧
      trim (replaceEvery 44 46 (str "120,5")) = str "120.5" ∧
      (∀ err, lib.parseFloat32 (str "1.5,6") = (lib.zero, some err) →
        (interpret r lib song (str "GAP") (str " 1,5,6")).1.Gap = lib.zero ∧
        parseWarning (str "GAP") (interpret r lib song (str "GAP") (str " 1,5,6")).2 =
          [Warning.errorAddingTag (str "GAP") err]) := by
  have hgap : tagKind (str "GAP") = .GAP := by decide
  have hbpm : tagKind (str "BPM") = .BPM := by decide
  have hex : replaceFirst 44 46 (trim (str " 1,5,6")) = str "1.5,6" := by decide
  refine ⟨fun u w => ⟨fun h => isTrimOf_unique u w (trim u) h (trim_spec u), ?_⟩,
    ?_, ?_, ?_, hex, by decide, ?_⟩
  · intro h
    rw [h]
    exact trim_spec u
  · intro tag htag
    simp only [plainDecimalTags, List.mem_cons, List.mem_singleton, List.mem_nil_iff,
      or_false] at htag
    have hk : tagKind tag = .GAP ∨ tagKind tag = .VIDEOGAP ∨ tagKind tag = .START ∨
        tagKind tag = .PREVIEWSTART := by
      rcases htag with h | h | h | h <;> subst h
      · exact Or.inl (by decide)
      · exact Or.inr (Or.inl (by decide))
      · exact Or.inr (Or.inr (Or.inl (by decide)))
      · exact Or.inr (Or.inr (Or.inr (by decide)))
    rw [← parseFloat32I18n_eq]
    rcases hk with h | h | h | h <;> simp only [interpret, h, fieldOf, and_self]
  · simp only [interpret, hbpm, parseFloat32I18n_bpm]
  · simp only [interpret, hbpm, parseFloat32I18n_bpm]
  · intro err hpf
    simp only [interpret, hgap, parseFloat32I18n_eq, hex, hpf, parseWarning, and_self]

/-- C10 (witness): a `GAP` line with two commas and a `BPM` line with one, and a `GAP`
value with a blank behind it. -/
theorem C10_locale_normalisation_witness :
    (Read NewReader asciiLib (streamOf "#GAP: 1,5,6\n#BPM:120,5\n") [] []).warnings =
      [Warning.errorAddingTag (str "GAP") ⟨str "ParseFloat", str "1.5,6", .ErrSyntax⟩] ∧
    (Read NewReader asciiLib (streamOf "#GAP: 1,5,6\n#BPM:120,5\n") [] []).song.Gap = (0, 0) ∧
    (Read NewReader asciiLib (streamOf "#GAP: 1,5,6\n#BPM:120,5\n") [] []).song.BPM = (1205, 1) ∧
    (interpret NewReader asciiLib (newSong NewReader asciiLib [] []) (str "GAP")
      (str " 1,5,6")).1.Gap = (0, 0) ∧
    IsTrimOf (str "1.5 ") (str "1.5") ∧ str "1.5" = trim (str "1.5 ") ∧
    (Read NewReader asciiLib (streamOf "#GAP:1,5 \n") [] []).song.Gap = (15, 1) ∧
    (Read NewReader asciiLib (streamOf "#GAP:1,5 \n") [] []).warnings = [] := by
  refine ⟨by decide, by decide, by decide, ?_, isTrimOf_trailing_blank, ?_, by decide,
    by decide⟩
  · exact ((C10_locale_normalisation NewReader asciiLib (newSong NewReader asciiLib [] [])
      (str " 1,5,6")).2.2.2.2.2.2 ⟨str "ParseFloat", str "1.5,6", .ErrSyntax⟩ (by decide)).1
  · exact ((C10_locale_normalisation NewReader asciiLib (newSong NewReader asciiLib [] [])
      (str " 1,5,6")).1 (str "1.5 ") (str "1.5")).mp isTrimOf_trailing_blank

/-! ## C11: splitting a tag line -/

/-- C11: let `r` be the line with all its leading marks removed (`trimLeftHash`: the
line is some marks followed by `r`, and `r` does not start with a mark).  If `r`
contains a colon, `getTagAndValue` returns a name without colon and the decoding of a
raw value such that name, colon and raw value make up `r`, so the split is at the
first colon.  If `r` contains no colon, the name is empty and the value is the
decoding of `r`.  The name is the same whatever the decoder is. -/
theorem C11_tag_line_splitting (lib : Lib F) (line : GoString) (enc : Encoding) :
    (∃ k, line = List.replicate k 35 ++ trimLeftHash line ∧
        (trimLeftHash line).head? ≠ some 35) ∧
      (58 ∈ trimLeftHash line →
        58 ∉ (getTagAndValue lib line enc).1 ∧
        ∃ raw, (getTagAndValue lib line enc).1 ++ 58 :: raw = trimLeftHash line ∧
          (getTagAndValue lib line enc).2 = enc.Decode lib raw) ∧
      (58 ∉ trimLeftHash line →
        (getTagAndValue lib line enc).1 = [] ∧
        (getTagAndValue lib line enc).2 = enc.Decode lib (trimLeftHash line)) ∧
      (∀ (lib' : Lib F) (enc' : Encoding),
        (getTagAndValue lib' line enc').1 = (getTagAndValue lib line enc).1) := by
  refine ⟨trimLeftHash_spec line, ?_, ?_, ?_⟩
  · intro hmem
    cases hi : indexByte 58 (trimLeftHash line) with
    | none => exact absurd hmem ((indexByte_none 58 _).mp hi)
    | some sep =>
      obtain ⟨h1, h2⟩ := indexByte_some 58 _ sep hi
      simp only [getTagAndValue, hi]
      exact ⟨h2, _, h1, rfl⟩
  · intro hnot
    have hi := (indexByte_none 58 _).mpr hnot
    simp only [getTagAndValue, hi, and_self]
  · intro lib' enc'
    rw [getTagAndValue_eq, getTagAndValue_eq]

/-- C11 (witness): the line `##A:b:c` has the name `A` and the raw value `b:c`. -/
theorem C11_tag_line_splitting_witness :
    (getTagAndValue asciiLib (str "##A:b:c") Encoding.UTF8).1 = str "A" ∧
    (∃ raw, str "A" ++ 58 :: raw = str "A:b:c" ∧
      (getTagAndValue asciiLib (str "##A:b:c") Encoding.UTF8).2 =
        Encoding.UTF8.Decode asciiLib raw) ∧
    (getTagAndValue asciiLib (str "#no colon") Encoding.UTF8).1 = [] := by
  have h := (C11_tag_line_splitting asciiLib (str "##A:b:c") Encoding.UTF8).2.1 (by decide)
  have h' := (C11_tag_line_splitting asciiLib (str "#no colon") Encoding.UTF8).2.2.1 (by decide)
  exact ⟨by decide, h.2, h'.1⟩

/-! ## C12: the detector accepts the well-formed strings -/

/-- C12: for every byte string `s`, `isUTF8 s` is true if and only if `s` is a
concatenation of characters of the table of well-formed UTF-8 (`isCharacter`: C2..DF
and one continuation byte; E0, A0..BF and one; E1..EC, EE or EF and two; ED, 80..9F and
one; F0, 90..BF and two; F1..F3 and three; F4, 80..8F and two) in which a single byte
is one of 09, 0A, 0D and 20..7E.  The empty string is accepted, and a well-formed
string followed by the first bytes of a character, but not all of them, is
rejected. -/
theorem C12_isUTF8_accepts_well_formed (s : GoString) (hs : isBytes s) :
    (isUTF8 s = true ↔ WellFormed s) ∧ isUTF8 [] = true ∧
      (∀ (t q : List Nat) (n : Nat), WellFormed t → isCharacter q = true → 0 < n →
        n < q.length → isUTF8 (t ++ q.take n) = false) := by
  refine ⟨⟨?_, ?_⟩, rfl, ?_⟩
  · intro h
    exact isUTF8From_sound s.length s le_rfl hs h
  · rintro ⟨chars, rfl, hchars⟩
    have := isUTF8From_complete chars [] hchars
    rw [List.append_nil] at this
    unfold isUTF8
    rw [this]
    rfl
  · rintro t q n ⟨chars, rfl, hchars⟩ hq h1 h2
    unfold isUTF8
    rw [isUTF8From_complete chars _ hchars]
    exact isUTF8From_inside q n hq h1 h2

/-- C12 (witness): the bytes 61 C3 A9 are accepted and well formed, the bytes 61 C3
stop inside a character and are rejected. -/
theorem C12_isUTF8_accepts_well_formed_witness :
    isUTF8 [0x61, 0xC3, 0xA9] = true ∧ WellFormed [0x61, 0xC3, 0xA9] ∧
      isUTF8 [0x61, 0xC3] = false := by
  have h := C12_isUTF8_accepts_well_formed [0x61, 0xC3, 0xA9] (by unfold isBytes; decide)
  refine ⟨by decide, h.1.mp (by decide), ?_⟩
  exact h.2.2 [0x61] [0xC3, 0xA9] 1
    ⟨[[0x61]], rfl, by decide⟩ (by decide) (by decide) (by decide)

end Usdx
